import Mathlib

/-!
# A two-pass assembler for a 16-opcode, 10-bit-word machine

Shallow embedding of the C sources (`utils.c`, `data_structures.c`,
`pre_assembler.c`, `first_pass.c`, `second_pass.c`) and theorems about them.

Conventions of the embedding.

* A C `int` is a Lean `Int`; an `unsigned int` machine word is a `Nat`.
* `x & (2^k - 1)` on a two's-complement `int` is `x % 2^k` (the low `k` bits),
  written `maskBits x k`; `<<` and `|` on words are `<<<` and `|||` on `Nat`.
* A C string is a Lean `String` whose characters stand for its bytes (the
  character of code `b` for the byte `b`, 0 to 255); a pointer that may be
  `NULL` is an `Option`.
* A plain `char` is signed, as the compilers for x86 make it: a byte of 0x80
  and above is a negative `char`.
* The process-wide globals (`IC`, `DC`, the two images, `error_flag`) together
  with the symbol table and the externals list form the record `AsmState`,
  which every stateful function receives and returns.
* A store or a read outside an image (undefined behaviour in C) makes the
  embedded function return `none`.
* A text file that is read is the string of its content; a file that is
  written is the list of the strings written by the successive `fprintf`
  calls. Files are assumed to open.
* `malloc` is assumed to succeed.
-/

namespace Assembler

/-! ## Constants of `data_structures.h` and `utils.h` -/

/-- Maximum length for symbol names, terminator included. -/
def MAX_SYMBOL_NAME : Nat := 31

/-- Maximum length for input lines, terminator included. -/
def MAX_LINE_LENGTH : Nat := 81

/-- Number of words of each memory image. -/
def MEMORY_SIZE : Nat := 256

/-- Initial value of the instruction counter. -/
def IC_INITIAL_VALUE : Int := 100

/-- Maximum number of tokens per line. -/
def MAX_TOKENS : Nat := 10

/-! ## Machine arithmetic -/

/-- The C expression `x & (2^k - 1)` for a two's-complement `int` `x`:
the low `k` bits of `x`, a value in `[0, 2^k)`. -/
def maskBits (x : Int) (k : Nat) : Nat := (x % 2 ^ k).toNat

/-! ## ISA tables (`utils.c`, `first_pass.c`) -/

/-- The table `valid_src_modes` of `is_valid_addressing_for_instruction`. -/
def valid_src_modes : List Nat :=
  [0xF, 0xF, 0xF, 0xF, 0x0, 0x0, 0x6, 0x0, 0x0, 0x0, 0x0, 0x0, 0x0, 0x0, 0x0, 0x0]

/-- The table `valid_dest_modes` of `is_valid_addressing_for_instruction`. -/
def valid_dest_modes : List Nat :=
  [0xE, 0xF, 0xE, 0xE, 0xE, 0xE, 0xE, 0xE, 0xE, 0xE, 0xE, 0xE, 0xF, 0xE, 0x0, 0x0]

/-- One operand test of `is_valid_addressing_for_instruction`:
`mode != -1 ? (mask & (1 << mode)) != 0 : mask == 0`.
The callers pass modes in `{-1, 0, 1, 2, 3}` only. -/
def mode_allowed (mask : Nat) (mode : Int) : Bool :=
  if mode ≠ -1 then
    decide (mask &&& (1 <<< mode.toNat) ≠ 0)
  else
    decide (mask = 0)

/-- Checks if addressing modes are valid for instruction (`utils.c`). -/
def is_valid_addressing_for_instruction (opcode src_mode dest_mode : Int) : Bool :=
  if opcode < 0 ∨ opcode > 15 then false
  else if ¬ mode_allowed (valid_src_modes.getD opcode.toNat 0) src_mode then false
  else if ¬ mode_allowed (valid_dest_modes.getD opcode.toNat 0) dest_mode then false
  else true

/-- Calculates the length (L) of an instruction (`utils.c`). The opcode is
not used by the C function either. -/
def calculate_instruction_length (_opcode src_mode dest_mode : Int) : Int :=
  let length : Int := 1
  let length :=
    if src_mode ≠ -1 then
      if src_mode = 0 ∨ src_mode = 1 then length + 1
      else if src_mode = 2 then length + 2
      else if src_mode = 3 then (if dest_mode ≠ 3 then length + 1 else length)
      else length
    else length
  let length :=
    if dest_mode ≠ -1 then
      if dest_mode = 0 ∨ dest_mode = 1 then length + 1
      else if dest_mode = 2 then length + 2
      else if dest_mode = 3 then length + 1
      else length
    else length
  length

/-- Number of operands an opcode takes (`first_pass.c`). -/
def count_operands_for_instruction (opcode : Int) : Int :=
  if opcode = 14 ∨ opcode = 15 then 0
  else if opcode ≥ 4 ∧ opcode ≤ 13 then 1
  else 2

/-- First word of an instruction (`second_pass.c`). -/
def encode_instruction_word (opcode src_mode dest_mode : Int) : Nat :=
  let word : Nat := 0
  let word := word ||| (maskBits opcode 4 <<< 6)
  let word := if src_mode ≠ -1 then word ||| (maskBits src_mode 2 <<< 4) else word
  let word := if dest_mode ≠ -1 then word ||| (maskBits dest_mode 2 <<< 2) else word
  let word := word ||| 0
  word

/-! ## Characters and C library functions

A character of a string is one byte, a plain `char`; the classification
functions are those of the "C" locale and are called on the byte converted to
`unsigned char`. -/

/-- The C function `isspace`: space, `\t`, `\n`, `\v`, `\f`, `\r`. -/
def isspace (c : Char) : Bool :=
  c.toNat = 32 || (decide (9 ≤ c.toNat) && decide (c.toNat ≤ 13))

/-- The C function `isalpha`. -/
def isalpha (c : Char) : Bool := c.isAlpha

/-- The C function `isalnum`. -/
def isalnum (c : Char) : Bool := c.isAlphanum

/-- The C function `isdigit`. -/
def isdigit (c : Char) : Bool := c.isDigit

/-- Value of a run of decimal digits, most significant first, continuing
from the accumulator `acc`. -/
def digits_value (acc : Int) : List Char → Int
  | [] => acc
  | c :: rest => digits_value (acc * 10 + ((c.toNat : Int) - 48)) rest

/-- The value `strtol` returns for a mathematical value `v`: `v` clamped to
the range of a 64-bit `long`. -/
def clamp_long (v : Int) : Int :=
  if v > 2 ^ 63 - 1 then 2 ^ 63 - 1 else if v < -(2 ^ 63) then -(2 ^ 63) else v

/-- The C call `strtol(str, &endptr, 10)`: skips leading white space, reads
an optional sign and a maximal run of decimal digits. Returns the value and
the text from `endptr` on; when there is no digit, the value is 0 and
`endptr` is `str`. -/
def strtol (str : List Char) : Int × List Char :=
  let s1 := str.dropWhile isspace
  let neg : Bool := s1.head? = some '-'
  let s2 := if s1.head? = some '-' ∨ s1.head? = some '+' then s1.drop 1 else s1
  let ds := s2.takeWhile isdigit
  if ds = [] then (0, str)
  else (clamp_long (if neg then - digits_value 0 ds else digits_value 0 ds),
        s2.dropWhile isdigit)

/-- The C call `p = strchr(s, c)` for `c` other than the terminator: `none`
when `c` does not occur, otherwise the text before the first occurrence and
the text from `p + 1` on. -/
def strchr (s : List Char) (c : Char) : Option (List Char × List Char) :=
  match s with
  | [] => none
  | x :: rest =>
    if x = c then some ([], rest)
    else
      match strchr rest c with
      | none => none
      | some (before, after) => some (x :: before, after)

/-! ## Lexical helpers (`utils.c`) -/

/-- Table `reserved_instructions`. -/
def reserved_instructions : List String :=
  ["mov", "cmp", "add", "sub", "not", "clr", "lea", "inc",
   "dec", "jmp", "bne", "red", "prn", "jsr", "rts", "stop"]

/-- Table `reserved_directives`. -/
def reserved_directives : List String :=
  [".data", ".string", ".mat", ".entry", ".extern"]

/-- Table `reserved_registers`. -/
def reserved_registers : List String :=
  ["r0", "r1", "r2", "r3", "r4", "r5", "r6", "r7"]

/-- The search loop `for (i = ...; ...; i++) if (strcmp(word, table[i]) == 0)
return i;` followed by `return -1`, started at index `i`. -/
def table_index (table : List String) (word : String) (i : Int) : Int :=
  match table with
  | [] => -1
  | entry :: rest => if word = entry then i else table_index rest word (i + 1)

/-- Whether `word` is an instruction, directive or register name. -/
def is_reserved_word (word : String) : Bool :=
  if table_index reserved_instructions word 0 ≠ -1 then true
  else if table_index reserved_directives word 0 ≠ -1 then true
  else if table_index reserved_registers word 0 ≠ -1 then true
  else false

/-- Label validity. The argument is never `NULL` at the call sites. -/
def is_valid_label (name : String) : Bool :=
  if name.data.length = 0 ∨ name.data.length ≥ MAX_SYMBOL_NAME then false
  else if ¬ isalpha (name.data.headD (Char.ofNat 0)) then false
  else if ¬ (name.data.drop 1).all isalnum then false
  else ! is_reserved_word name

/-- Integer validity: `some value` when the C function returns 1 and stores
`value`, `none` when it returns 0. -/
def is_valid_integer (str : List Char) : Option Int :=
  if str = [] then none
  else
    let (result, endptr) := strtol str
    if endptr = [] ∧ result ≥ -512 ∧ result ≤ 511 then some result else none

/-- Opcode of a mnemonic, or -1. -/
def get_instruction_opcode (instruction : String) : Int :=
  table_index reserved_instructions instruction 0

/-- Addressing mode of an operand: 0 immediate, 1 direct, 2 matrix,
3 register, -1 none. -/
def get_addressing_mode (operand : Option String) : Int :=
  match operand with
  | none => -1
  | some operand =>
    if operand.data.length = 0 then -1
    else if operand.data.head? = some '#' then
      (if (is_valid_integer (operand.data.drop 1)).isSome then 0 else -1)
    else if operand.data.length = 2 ∧ operand.data.head? = some 'r'
        ∧ (operand.data.getD 1 (Char.ofNat 0)).toNat ≥ '0'.toNat
        ∧ (operand.data.getD 1 (Char.ofNat 0)).toNat ≤ '7'.toNat then 3
    else if (strchr operand.data '[').isSome ∧ (strchr operand.data ']').isSome then 2
    else if is_valid_label operand then 1
    else -1

/-- Register number of `r0`..`r7`, or -1. The argument is never `NULL` at
the call sites. -/
def get_register_number (register_name : List Char) : Int :=
  if register_name.length ≠ 2 then -1
  else if register_name.head? ≠ some 'r' then -1
  else if (register_name.getD 1 (Char.ofNat 0)).toNat ≥ '0'.toNat
      ∧ (register_name.getD 1 (Char.ofNat 0)).toNat ≤ '7'.toNat then
    ((register_name.getD 1 (Char.ofNat 0)).toNat : Int) - ('0'.toNat : Int)
  else -1

/-! ## Data structures (`data_structures.h`, `utils.h`, `second_pass.h`) -/

/-- Attribute of a symbol. -/
inductive SymbolAttribute where
  | CODE_SYMBOL
  | DATA_SYMBOL
  | EXTERNAL_SYMBOL
  | ENTRY_SYMBOL
  deriving DecidableEq

/-- A node of the symbol table; the table is the list of nodes from the head
of the linked list on. The C field `attribute` is named `attr` here. -/
structure SymbolNode where
  name : String
  address : Int
  attr : SymbolAttribute
  deriving DecidableEq

/-- A node of the externals list; the list is given from its head on. -/
structure ExternalUsage where
  symbol_name : String
  address : Int
  deriving DecidableEq

/-- A parsed source line. The C field `line_type` is always 0 and never
read. -/
structure ParsedLine where
  label : Option String
  command : Option String
  operand1 : Option String
  operand2 : Option String
  is_error : Bool
  is_empty : Bool
  is_directive : Bool
  deriving DecidableEq

/-- The globals of `data_structures.c`, the text written to the diagnostic
stream, and the two linked lists threaded through the passes. The images map
an index in `[0, MEMORY_SIZE)` to a word. -/
structure AsmState where
  IC : Int
  DC : Int
  instruction_image : Nat → Nat
  data_image : Nat → Nat
  error_flag : Int
  diagnostics : List String
  symbol_table : List SymbolNode
  externals_list : List ExternalUsage

/-- The state after `reset_counters` and `reset_memory_images`, with empty
tables and a clear error flag. -/
def initial_state : AsmState :=
  { IC := IC_INITIAL_VALUE, DC := 0, instruction_image := fun _ => 0,
    data_image := fun _ => 0, error_flag := 0, diagnostics := [],
    symbol_table := [], externals_list := [] }

/-- Reports a diagnostic and raises the error flag. The file name and line
number of the message are not modelled. -/
def print_error (st : AsmState) (error_message : String) : AsmState :=
  { st with error_flag := 1, diagnostics := st.diagnostics ++ [error_message] }

/-- The assignment `image[index] = word`; `none` when the index is outside
the array. -/
def store_word (image : Nat → Nat) (index : Int) (word : Nat) : Option (Nat → Nat) :=
  if 0 ≤ index ∧ index < MEMORY_SIZE then
    some (fun j => if j = index.toNat then word else image j)
  else none

/-- The assignment `instruction_image[index] = word`. -/
def store_instruction (st : AsmState) (index : Int) (word : Nat) : Option AsmState :=
  match store_word st.instruction_image index word with
  | none => none
  | some image => some { st with instruction_image := image }

/-- Searches for a symbol in the symbol table. -/
def find_symbol (head : List SymbolNode) (name : String) : Option SymbolNode :=
  match head with
  | [] => none
  | current :: next => if current.name = name then some current else find_symbol next name

/-! ## Line parser (`utils.c`) -/

/-- The C function `trim_whitespace`: the text without its leading and
trailing white space. -/
def trim_whitespace (str : List Char) : List Char :=
  ((str.dropWhile isspace).reverse.dropWhile isspace).reverse

/-- Whether a line holds white space only. -/
def is_empty_line (line : List Char) : Bool := line.all isspace

/-- Checks if a line is a comment (starts with `;`). -/
def is_comment_line (line : List Char) : Bool :=
  (line.dropWhile isspace).head? = some ';'

/-- The successive results of `strtok(s, delimiters)`, `strtok(NULL,
delimiters)`, ...: the maximal runs of non-delimiter characters. `current`
holds the characters of the run being read, last first. -/
def strtok_all (is_delimiter : Char → Bool) (current : List Char) :
    List Char → List (List Char)
  | [] => if current = [] then [] else [current.reverse]
  | c :: rest =>
    if is_delimiter c then
      (if current = [] then strtok_all is_delimiter [] rest
       else current.reverse :: strtok_all is_delimiter [] rest)
    else strtok_all is_delimiter (c :: current) rest

/-- The delimiter set `" \t\n\r,"` of `tokenize_line`. -/
def is_line_delimiter (c : Char) : Bool :=
  c = ' ' || c.toNat = 9 || c.toNat = 10 || c.toNat = 13 || c = ','

/-- Splits a line into at most `max_tokens` trimmed tokens. Each token is
copied into a buffer of `MAX_SYMBOL_NAME` characters; `none` when a token
does not fit. -/
def tokenize_line (line : List Char) (max_tokens : Nat) : Option (List String) :=
  let tokens :=
    ((strtok_all is_line_delimiter [] (trim_whitespace line)).take max_tokens).map
      trim_whitespace
  if tokens.all (fun token => token.length < MAX_SYMBOL_NAME) then
    some (tokens.map String.mk)
  else none

/-- The record `parse_line` starts from: every field `NULL` or 0. -/
def empty_parsed_line : ParsedLine :=
  { label := none, command := none, operand1 := none, operand2 := none,
    is_error := false, is_empty := false, is_directive := false }

/-- Parses a single line of assembly code into its components. `none` when
the line does not fit the copy buffer of `MAX_LINE_LENGTH` characters or a
token does not fit its buffer. -/
def parse_line (line : String) : Option ParsedLine :=
  if is_empty_line line.data ∨ is_comment_line line.data then
    some { empty_parsed_line with is_empty := true }
  else if line.data.length ≥ MAX_LINE_LENGTH then none
  else
    match tokenize_line line.data MAX_TOKENS with
    | none => none
    | some tokens =>
      if tokens.length = 0 then some { empty_parsed_line with is_empty := true }
      else
        let first := (tokens.headD "").data
        let has_label : Bool := decide (first.length > 0) && (first.getLast? = some ':')
        let label : Option String :=
          if has_label then some (String.mk first.dropLast) else none
        let token_index : Nat := if has_label then 1 else 0
        let command := tokens.get? token_index
        let is_directive : Bool :=
          match command with
          | none => false
          | some text => text.data.head? = some '.'
        let operand1 := tokens.get? (token_index + 1)
        let operand2 := tokens.get? (token_index + 2)
        some { label := label, command := command, operand1 := operand1,
               operand2 := operand2, is_error := decide (token_index + 3 < tokens.length),
               is_empty := false, is_directive := is_directive }

/-! ## Symbol table (`data_structures.c`) -/

/-- Adds a new symbol at the head of the symbol table; `none` when the C
function returns `NULL` because the name is already present. -/
def add_symbol (head : List SymbolNode) (name : String) (address : Int)
    (attr : SymbolAttribute) : Option (List SymbolNode) :=
  match find_symbol head name with
  | some _ => none
  | none => some ({ name := name, address := address, attr := attr } :: head)

/-- Updates all data symbol addresses by adding ICF. -/
def update_data_symbols (head : List SymbolNode) (icf : Int) : List SymbolNode :=
  head.map (fun current =>
    if current.attr = SymbolAttribute.DATA_SYMBOL then
      { current with address := current.address + icf }
    else current)

/-! ## First pass (`first_pass.c`) -/

/-- The assignment `data_image[index] = word`. -/
def store_data (st : AsmState) (index : Int) (word : Nat) : Option AsmState :=
  match store_word st.data_image index word with
  | none => none
  | some image => some { st with data_image := image }

/-- The local `actual_operands` of `process_instruction_parsed` and
`encode_instruction_parsed`: the number of operands present on the line. -/
def actual_operands (parsed : ParsedLine) : Int :=
  (if parsed.operand1.isSome then 1 else 0) + (if parsed.operand2.isSome then 1 else 0)

/-- Validates the addressing modes of the operands of an instruction. -/
def validate_instruction_operands (opcode : Int) (src_operand dest_operand : Option String)
    (st : AsmState) : Bool × AsmState :=
  let src_mode : Int := if src_operand.isSome then get_addressing_mode src_operand else -1
  if src_operand.isSome ∧ src_mode = -1 then
    (false, print_error st "Invalid source operand addressing mode")
  else
    let dest_mode : Int := if dest_operand.isSome then get_addressing_mode dest_operand else -1
    if dest_operand.isSome ∧ dest_mode = -1 then
      (false, print_error st "Invalid destination operand addressing mode")
    else if ¬ is_valid_addressing_for_instruction opcode src_mode dest_mode then
      (false, print_error st "Invalid addressing mode for this instruction")
    else (true, st)

/-- The conversion `%d` of `sscanf`: skips white space, reads an optional
sign and at least one digit; `none` on a matching failure. The value is the
mathematical one (the C conversion is undefined outside the range of `int`). -/
def scan_int (s : List Char) : Option (Int × List Char) :=
  let s1 := s.dropWhile isspace
  let neg : Bool := s1.head? = some '-'
  let s2 := if s1.head? = some '-' ∨ s1.head? = some '+' then s1.drop 1 else s1
  let ds := s2.takeWhile isdigit
  if ds = [] then none
  else some (if neg then - digits_value 0 ds else digits_value 0 ds, s2.dropWhile isdigit)

/-- Reads `[rows][cols]` with `sscanf(dimension_str, "[%d][%d]", ...)`, which
must convert both numbers, and requires both to be positive. -/
def parse_matrix_dimensions (dimension_str : List Char) : Option (Int × Int) :=
  match dimension_str with
  | [] => none
  | c :: s1 =>
    if c ≠ '[' then none
    else
      match scan_int s1 with
      | none => none
      | some (parsed_rows, s2) =>
        if s2.head? ≠ some ']' then none
        else if (s2.drop 1).head? ≠ some '[' then none
        else
          match scan_int (s2.drop 2) with
          | none => none
          | some (parsed_cols, _) =>
            if parsed_rows ≤ 0 ∨ parsed_cols ≤ 0 then none
            else some (parsed_rows, parsed_cols)

/-- The conversion `(unsigned int)str[i]` of a plain `char` to a 32-bit
`unsigned int`. An ASCII character gives its code; a byte of 0x80 and above
is a negative `char` (the byte minus 256) and converts to that value modulo
2^32, the byte plus 2^32 - 256. Only the codes 0 to 255 stand for bytes. -/
def char_to_unsigned (c : Char) : Nat :=
  if c.toNat < 128 then c.toNat else c.toNat + (2 ^ 32 - 256)

/-- The loop `for (i = 0; i < len; i++) data_image[DC + i] = (unsigned
int)str[i];` of `store_string_data`, from index `i` on. -/
def store_string_chars (chars : List Char) (i : Int) (st : AsmState) : Option AsmState :=
  match chars with
  | [] => some st
  | c :: rest =>
    match store_data st (st.DC + i) (char_to_unsigned c) with
    | none => none
    | some st1 => store_string_chars rest (i + 1) st1

/-- Stores the characters of a quoted string literal and a terminating 0 at
`data_image[DC ...]`; returns the number of words, or -1. -/
def store_string_data (string_literal : List Char) (st : AsmState) :
    Option (Int × AsmState) :=
  let len : Int := string_literal.length
  if len < 2 ∨ string_literal.head? ≠ some (Char.ofNat 34) ∨ string_literal.getLast? ≠ some (Char.ofNat 34) then
    some (-1, print_error st "String must be enclosed in quotes")
  else
    let str := string_literal.drop 1
    let len := len - 2
    if st.DC + len + 1 ≥ MEMORY_SIZE then
      some (-1, print_error st "Data memory overflow")
    else
      match store_string_chars (str.take len.toNat) 0 st with
      | none => none
      | some st1 =>
        match store_data st1 (st1.DC + len) 0 with
        | none => none
        | some st2 => some (len + 1, st2)

/-- The loop of `process_data_directive_parsed` over the comma-separated
tokens, from `count` values already stored. -/
def data_values_loop (tokens : List (List Char)) (count : Int) (st : AsmState) :
    Option (Int × AsmState) :=
  match tokens with
  | [] => some (count, st)
  | token :: rest =>
    match is_valid_integer (trim_whitespace token) with
    | none => some (-1, print_error st "Invalid integer value in data directive")
    | some value =>
      if st.DC + count ≥ MEMORY_SIZE then some (-1, print_error st "Data memory overflow")
      else
        match store_data st (st.DC + count) (maskBits value 10) with
        | none => none
        | some st1 => data_values_loop rest (count + 1) st1

/-- The `.data` directive: returns the number of words stored, or -1. -/
def process_data_directive_parsed (parsed : ParsedLine) (st : AsmState) :
    Option (Int × AsmState) :=
  match parsed.operand1 with
  | none => some (-1, print_error st ".data directive requires at least one value")
  | some operand1 =>
    let operands_copy : List Char :=
      match parsed.operand2 with
      | none => operand1.data
      | some operand2 => operand1.data ++ [','] ++ operand2.data
    data_values_loop (strtok_all (fun c => c = ',') [] operands_copy) 0 st

/-- The `.string` directive. -/
def process_string_directive_parsed (parsed : ParsedLine) (st : AsmState) :
    Option (Int × AsmState) :=
  match parsed.operand1 with
  | none => some (-1, print_error st ".string directive requires exactly one string literal")
  | some operand1 => store_string_data operand1.data st

/-- The `.extern` directive: adds the operand as an external symbol with
address 0 and returns 0, or returns -1. -/
def process_extern_directive_parsed (parsed : ParsedLine) (st : AsmState) : Int × AsmState :=
  match parsed.operand1 with
  | none => (-1, print_error st ".extern directive requires exactly one symbol name")
  | some operand1 =>
    if ¬ is_valid_label operand1 then (-1, print_error st "Invalid symbol name")
    else
      match add_symbol st.symbol_table operand1 0 SymbolAttribute.EXTERNAL_SYMBOL with
      | none => (-1, print_error st "Failed to add external symbol")
      | some table => (0, { st with symbol_table := table })

/-- The loop `while (token != NULL && count < expected_values)` of
`process_mat_directive_parsed`; returns the final `count`, or -1. -/
def mat_values_loop (tokens : List (List Char)) (expected_values : Int) (count : Int)
    (st : AsmState) : Option (Int × AsmState) :=
  match tokens with
  | [] => some (count, st)
  | token :: rest =>
    if ¬ (count < expected_values) then some (count, st)
    else
      match is_valid_integer (trim_whitespace token) with
      | none => some (-1, print_error st "Invalid integer value in matrix directive")
      | some value =>
        if st.DC + count ≥ MEMORY_SIZE then some (-1, print_error st "Data memory overflow")
        else
          match store_data st (st.DC + count) (maskBits value 10) with
          | none => none
          | some st1 => mat_values_loop rest expected_values (count + 1) st1

/-- The `.mat` directive: returns the number of words stored, or -1. -/
def process_mat_directive_parsed (parsed : ParsedLine) (st : AsmState) :
    Option (Int × AsmState) :=
  match parsed.operand1 with
  | none => some (-1, print_error st ".mat directive requires dimensions and values")
  | some operand1 =>
    match parse_matrix_dimensions operand1.data with
    | none => some (-1, print_error st "Invalid matrix dimensions format")
    | some (rows, cols) =>
      let expected_values := rows * cols
      match parsed.operand2 with
      | none => some (-1, print_error st "Not enough values for matrix dimensions")
      | some operand2 =>
        match mat_values_loop (strtok_all (fun c => c = ',') [] operand2.data)
            expected_values 0 st with
        | none => none
        | some (count, st1) =>
          if count = -1 then some (-1, st1)
          else if count ≠ expected_values then
            some (-1, print_error st1 "Incorrect number of values for matrix dimensions")
          else some (count, st1)

/-- Adds the label of a line to the symbol table: as DATA at `DC` on a
directive other than `.extern`, as CODE at `IC` on an instruction. -/
def handle_label_definition (parsed : ParsedLine) (st : AsmState) : Bool × AsmState :=
  let label := parsed.label.getD ""
  if ¬ is_valid_label label then (false, print_error st "Invalid label name")
  else if (find_symbol st.symbol_table label).isSome then
    (false, print_error st "Label already defined")
  else if parsed.is_directive ∧ parsed.command ≠ some ".extern" then
    match add_symbol st.symbol_table label st.DC SymbolAttribute.DATA_SYMBOL with
    | none => (false, print_error st "Failed to add symbol to table")
    | some table => (true, { st with symbol_table := table })
  else if ¬ parsed.is_directive then
    match add_symbol st.symbol_table label st.IC SymbolAttribute.CODE_SYMBOL with
    | none => (false, print_error st "Failed to add symbol to table")
    | some table => (true, { st with symbol_table := table })
  else (true, st)

/-- Dispatches a directive line; returns the number of data words, 0, or
-1. -/
def handle_directive_first_pass (parsed : ParsedLine) (st : AsmState) :
    Option (Int × AsmState) :=
  if parsed.command = some ".data" then process_data_directive_parsed parsed st
  else if parsed.command = some ".string" then process_string_directive_parsed parsed st
  else if parsed.command = some ".mat" then process_mat_directive_parsed parsed st
  else if parsed.command = some ".extern" then some (process_extern_directive_parsed parsed st)
  else if parsed.command = some ".entry" then some (0, st)
  else some (-1, print_error st "Unknown directive")

/-- Checks an instruction line and returns its length in words, or -1. -/
def process_instruction_parsed (parsed : ParsedLine) (st : AsmState) : Int × AsmState :=
  match parsed.command with
  | none => (-1, print_error st "Missing instruction")
  | some command =>
    let opcode := get_instruction_opcode command
    if opcode = -1 then (-1, print_error st "Unknown instruction")
    else
      let expected_operands := count_operands_for_instruction opcode
      if actual_operands parsed ≠ expected_operands then
        (-1, print_error st "Wrong number of operands")
      else
        let src_operand : Option String :=
          if expected_operands = 1 then none
          else if expected_operands = 2 then parsed.operand1 else none
        let dest_operand : Option String :=
          if expected_operands = 1 then parsed.operand1
          else if expected_operands = 2 then parsed.operand2 else none
        let src_mode : Int :=
          if expected_operands = 1 then -1
          else if expected_operands = 2 then get_addressing_mode src_operand else -1
        let dest_mode : Int :=
          if expected_operands = 1 then get_addressing_mode dest_operand
          else if expected_operands = 2 then get_addressing_mode dest_operand else -1
        match validate_instruction_operands opcode src_operand dest_operand st with
        | (false, st1) => (-1, st1)
        | (true, st1) => (calculate_instruction_length opcode src_mode dest_mode, st1)

/-- Processes an instruction line in the first pass. -/
def handle_instruction_first_pass (parsed : ParsedLine) (st : AsmState) : Int × AsmState :=
  process_instruction_parsed parsed st

/-- Processes one non-empty, non-comment line of the first pass: returns
the C result and the new state; `DC` or `IC` advances by a positive result of
the directive or instruction handler. -/
def process_line_first_pass (line : String) (st : AsmState) : Option (Bool × AsmState) :=
  match parse_line line with
  | none => none
  | some parsed =>
    if parsed.is_empty then some (true, st)
    else if parsed.is_error then some (false, print_error st "Invalid line format")
    else
      match (if parsed.label.isSome then handle_label_definition parsed st else (true, st)) with
      | (false, st1) => some (false, st1)
      | (true, st1) =>
        if parsed.is_directive then
          match handle_directive_first_pass parsed st1 with
          | none => none
          | some (result, st2) =>
            some (decide (result ≥ 0),
                  if result > 0 then { st2 with DC := st2.DC + result } else st2)
        else
          match handle_instruction_first_pass parsed st1 with
          | (result, st2) =>
            some (decide (result ≥ 0),
                  if result > 0 then { st2 with IC := st2.IC + result } else st2)

/-! ## Second pass: instruction encoding (`second_pass.c`) -/

/-- Splits `LABEL[rA][rB]` into the label and the two register numbers; `none`
when the C function returns 0. -/
def parse_matrix_operand (operand : List Char) : Option (String × Int × Int) :=
  match strchr operand '[' with
  | none => none
  | some (before1, after1) =>
    match strchr after1 ']' with
    | none => none
    | some (row_reg, after2) =>
      match strchr after2 '[' with
      | none => none
      | some (_, after3) =>
        match strchr after3 ']' with
        | none => none
        | some (col_reg, _) =>
          let label := String.mk (before1.take (MAX_SYMBOL_NAME - 1))
          if row_reg.length ≥ 4 then none
          else if col_reg.length ≥ 4 then none
          else
            let row := get_register_number row_reg
            if row = -1 then none
            else
              let col := get_register_number col_reg
              if col = -1 then none
              else some (label, row, col)

/-- Pushes a usage record on the head of the externals list. -/
def add_external_usage (st : AsmState) (symbol_name : String) (address : Int) : AsmState :=
  { st with externals_list :=
      { symbol_name := symbol_name, address := address } :: st.externals_list }

/-- ARE field of an operand: 1 external, 2 relocatable, 0 otherwise. -/
def determine_are_field (operand : String) (addressing_mode : Int)
    (symbol_table : List SymbolNode) : Int :=
  if addressing_mode = 0 then 0
  else if addressing_mode = 3 then 0
  else
    match find_symbol symbol_table operand with
    | none => 0
    | some symbol => if symbol.attr = SymbolAttribute.EXTERNAL_SYMBOL then 1 else 2

/-- Encodes `#value` into the slot `IC - 100 + 1`. -/
def encode_immediate_operand (operand : String) (st : AsmState) : Option (Int × AsmState) :=
  match is_valid_integer (operand.data.drop 1) with
  | none => some (-1, print_error st "Invalid immediate value")
  | some value =>
    let word : Nat := maskBits value 10 <<< 2
    let word := word ||| 0
    match store_instruction st (st.IC - IC_INITIAL_VALUE + 1) word with
    | none => none
    | some st1 => some (1, st1)

/-- Encodes a direct operand into the slot `IC - 100 + 1`. -/
def encode_direct_operand (operand : String) (st : AsmState) : Option (Int × AsmState) :=
  match find_symbol st.symbol_table operand with
  | none => some (-1, print_error st "Undefined symbol")
  | some symbol =>
    let are_value := determine_are_field operand 1 st.symbol_table
    let st1 :=
      if symbol.attr = SymbolAttribute.EXTERNAL_SYMBOL then
        add_external_usage st operand (st.IC + 1)
      else st
    let address : Int :=
      if symbol.attr = SymbolAttribute.EXTERNAL_SYMBOL then 0 else symbol.address
    let word : Nat := maskBits address 10 <<< 2
    let word := word ||| maskBits are_value 2
    match store_instruction st1 (st1.IC - IC_INITIAL_VALUE + 1) word with
    | none => none
    | some st2 => some (1, st2)

/-- Encodes a matrix operand into the slots `IC - 100 + 1` and
`IC - 100 + 2`. -/
def encode_matrix_operand (operand : String) (st : AsmState) : Option (Int × AsmState) :=
  match parse_matrix_operand operand.data with
  | none => some (-1, print_error st "Invalid matrix operand format")
  | some (label, row, col) =>
    match find_symbol st.symbol_table label with
    | none => some (-1, print_error st "Undefined matrix symbol")
    | some symbol =>
      let are_value := determine_are_field label 2 st.symbol_table
      let st1 :=
        if symbol.attr = SymbolAttribute.EXTERNAL_SYMBOL then
          add_external_usage st label (st.IC + 1)
        else st
      let word1 : Nat :=
        if symbol.attr = SymbolAttribute.EXTERNAL_SYMBOL then
          0 ||| (are_value.toNat <<< 0)
        else
          maskBits symbol.address 10 ||| (are_value.toNat <<< 0)
      let word2 : Nat := (maskBits row 5 <<< 5) ||| (maskBits col 5 <<< 0) ||| (0x0 <<< 0)
      match store_instruction st1 (st1.IC - IC_INITIAL_VALUE + 1) word1 with
      | none => none
      | some st2 =>
        match store_instruction st2 (st2.IC - IC_INITIAL_VALUE + 2) word2 with
        | none => none
        | some st3 => some (2, st3)

/-- The C expression `operand[1] - '0'`; reading the terminator of a
one-character string gives 0. -/
def reg_digit (operand : String) : Int :=
  ((operand.data.getD 1 (Char.ofNat 0)).toNat : Int) - ('0'.toNat : Int)

/-- Word of a single register operand: bits 7-5 for a source, bits 4-2 for a
destination. -/
def encode_register_operand (operand : String) (is_source : Int) : Nat :=
  let reg_num := reg_digit operand
  let word : Nat := 0
  let word :=
    if is_source ≠ 0 then word ||| (maskBits reg_num 3 <<< 5)
    else word ||| (maskBits reg_num 3 <<< 2)
  let word := word ||| 0x0
  word

/-- Shared word of two register operands. -/
def encode_two_registers (src_operand dest_operand : String) : Nat :=
  let src_reg := reg_digit src_operand
  let dest_reg := reg_digit dest_operand
  let word : Nat := 0
  let word := word ||| (maskBits src_reg 3 <<< 5)
  let word := word ||| (maskBits dest_reg 3 <<< 2)
  let word := word ||| 0x0
  word

/-- Encodes one operand according to its addressing mode and returns the
number of words written, or -1. -/
def encode_operand (operand : String) (addressing_mode : Int) (st : AsmState) :
    Option (Int × AsmState) :=
  if addressing_mode = 0 then encode_immediate_operand operand st
  else if addressing_mode = 1 then encode_direct_operand operand st
  else if addressing_mode = 2 then encode_matrix_operand operand st
  else if addressing_mode = 3 then
    match store_instruction st (st.IC - IC_INITIAL_VALUE + 1)
        (encode_register_operand operand 0) with
    | none => none
    | some st1 => some (1, st1)
  else some (-1, st)

/-- The part `if (operand) { operand_result = encode_operand(...); if
(operand_result == -1) return -1; words_used += operand_result; }` of
`encode_instruction_parsed`: the result is `(true, -1)` when the function
returns -1 there and `(false, words_used)` when it goes on. -/
def encode_optional_operand (operand : Option String) (addressing_mode : Int)
    (words_used : Int) (st : AsmState) : Option ((Bool × Int) × AsmState) :=
  match operand with
  | none => some ((false, words_used), st)
  | some text =>
    match encode_operand text addressing_mode st with
    | none => none
    | some (operand_result, st1) =>
      if operand_result = -1 then some ((true, -1), st1)
      else some ((false, words_used + operand_result), st1)

/-- Encodes one instruction line at the current `IC` and returns the number
of words used, or -1. `IC` itself is advanced by the caller. -/
def encode_instruction_parsed (parsed : ParsedLine) (st : AsmState) :
    Option (Int × AsmState) :=
  match parsed.command with
  | none => some (-1, st)
  | some command =>
    let opcode := get_instruction_opcode command
    if opcode = -1 then some (-1, print_error st "Unknown instruction")
    else
      let expected_operands := count_operands_for_instruction opcode
      if actual_operands parsed ≠ expected_operands then
        some (-1, print_error st "Wrong number of operands")
      else
        let src_operand : Option String :=
          if expected_operands = 1 then none
          else if expected_operands = 2 then parsed.operand1 else none
        let dest_operand : Option String :=
          if expected_operands = 1 then parsed.operand1
          else if expected_operands = 2 then parsed.operand2 else none
        let src_mode : Int :=
          if expected_operands = 1 then -1
          else if expected_operands = 2 then get_addressing_mode src_operand else -1
        let dest_mode : Int :=
          if expected_operands = 1 then get_addressing_mode dest_operand
          else if expected_operands = 2 then get_addressing_mode dest_operand else -1
        if ¬ is_valid_addressing_for_instruction opcode src_mode dest_mode then
          some (-1, print_error st "Invalid addressing mode")
        else
          let instruction_word := encode_instruction_word opcode src_mode dest_mode
          match store_instruction st (st.IC - IC_INITIAL_VALUE) instruction_word with
          | none => none
          | some st1 =>
            let words_used : Int := 1
            if expected_operands = 2 ∧ src_mode = 3 ∧ dest_mode = 3 then
              match store_instruction st1 (st1.IC - IC_INITIAL_VALUE + words_used)
                  (encode_two_registers (src_operand.getD "") (dest_operand.getD "")) with
              | none => none
              | some st2 => some (words_used + 1, st2)
            else
              match encode_optional_operand src_operand src_mode words_used st1 with
              | none => none
              | some ((true, result), st2) => some (result, st2)
              | some ((false, words_used1), st2) =>
                match encode_optional_operand dest_operand dest_mode words_used1 st2 with
                | none => none
                | some ((true, result), st3) => some (result, st3)
                | some ((false, words_used2), st3) => some (words_used2, st3)

/-- The assignment `symbol->attribute = ENTRY_SYMBOL` on the node that
`find_symbol` returns for `name`: the first node with that name. -/
def set_entry_attribute (head : List SymbolNode) (name : String) : List SymbolNode :=
  match head with
  | [] => []
  | current :: next =>
    if current.name = name then
      { current with attr := SymbolAttribute.ENTRY_SYMBOL } :: next
    else current :: set_entry_attribute next name

/-- The `.entry` directive of the second pass: returns 1 after marking the
symbol, or 0. -/
def process_entry_directive_parsed (parsed : ParsedLine) (st : AsmState) : Int × AsmState :=
  match parsed.operand1 with
  | none => (0, print_error st ".entry directive requires exactly one symbol name")
  | some operand1 =>
    match find_symbol st.symbol_table operand1 with
    | none => (0, print_error st "Symbol not defined")
    | some symbol =>
      if symbol.attr = SymbolAttribute.EXTERNAL_SYMBOL then
        (0, print_error st "An external symbol cannot be an entry point.")
      else
        (1, { st with symbol_table := set_entry_attribute st.symbol_table operand1 })

/-- Processes one non-empty, non-comment line of the second pass: an
`.entry` directive marks its symbol, other directives are skipped, an
instruction is encoded and `IC` advances by a positive result. Returns the C
result `result > 0`. -/
def process_line_second_pass (line : String) (st : AsmState) : Option (Bool × AsmState) :=
  match parse_line line with
  | none => none
  | some parsed =>
    if parsed.is_empty then some (true, st)
    else if parsed.is_error then some (false, print_error st "Invalid line format")
    else if parsed.is_directive then
      if parsed.command = some ".entry" then
        match process_entry_directive_parsed parsed st with
        | (result, st1) => some (decide (result > 0), st1)
      else some (true, st)
    else
      match encode_instruction_parsed parsed st with
      | none => none
      | some (result, st1) =>
        some (decide (result > 0),
              if result > 0 then { st1 with IC := st1.IC + result } else st1)

/-! ## Base-4 output and output files (`utils.c`, `second_pass.c`) -/

/-- The C expression `digits[v]` for `digits = "abcd"` and `v` in 0..3. -/
def base4_digit (v : Nat) : Char := ['a', 'b', 'c', 'd'].getD v 'a'

/-- The loop `for (i = 4; i >= 0; i--) { result[i] = digits[number & 0x3];
number >>= 2; }` of `to_base4` with `k` iterations left; `filled` holds the
characters already written, `result[k]` first. -/
def to_base4_loop : Nat → Nat → List Char → List Char
  | 0, _, filled => filled
  | k + 1, number, filled =>
    to_base4_loop k (number >>> 2) (base4_digit (number &&& 0x3) :: filled)

/-- Renders the low 10 bits of `number` as 5 letters of `abcd`. -/
def to_base4 (number : Nat) : String :=
  String.mk (to_base4_loop 5 (number &&& 0x3FF) [])

/-- Conversion of an `int` argument to the `unsigned int` parameter of
`to_base4`. -/
def to_unsigned (x : Int) : Nat := (x % 2 ^ 32).toNat

/-- The text written by `fprintf(output_file, "%s %s\n", first, second)`. -/
def output_line (first second : String) : String :=
  first ++ " " ++ second ++ "\n"

/-- The read `image[index]`; `none` when the index is outside the array. -/
def load_word (image : Nat → Nat) (index : Nat) : Option Nat :=
  if index < MEMORY_SIZE then some (image index) else none

/-- The loop `for (i = ...; i < ...; i++) { to_base4(base + i, ...);
to_base4(image[i], ...); fprintf(...); }` of `create_object_file`, from index
`i` on with `count` iterations left. -/
def write_image_lines (image : Nat → Nat) (base : Int) : Nat → Nat → Option (List String)
  | _, 0 => some []
  | i, count + 1 =>
    match load_word image i with
    | none => none
    | some word =>
      match write_image_lines image base (i + 1) count with
      | none => none
      | some rest =>
        some (output_line (to_base4 (to_unsigned (base + i))) (to_base4 word) :: rest)

/-- The lines written to the `.ob` file (the file is assumed to open):
header, code words, data words. `none` when a word is read outside an
image. -/
def create_object_file (st : AsmState) : Option (List String) :=
  let code_size : Int := st.IC - IC_INITIAL_VALUE
  let header := output_line (to_base4 (to_unsigned code_size)) (to_base4 (to_unsigned st.DC))
  match write_image_lines st.instruction_image IC_INITIAL_VALUE 0 code_size.toNat with
  | none => none
  | some code_lines =>
    match write_image_lines st.data_image st.IC 0 st.DC.toNat with
    | none => none
    | some data_lines => some (header :: (code_lines ++ data_lines))

/-- Whether the symbol table holds a symbol with attribute ENTRY. -/
def has_entry_symbols (symbol_table : List SymbolNode) : Bool :=
  match symbol_table with
  | [] => false
  | current :: next =>
    if current.attr = SymbolAttribute.ENTRY_SYMBOL then true else has_entry_symbols next

/-- The loop of `create_entries_file` over the symbol table from its head:
one line per ENTRY symbol. -/
def entries_lines (symbol_table : List SymbolNode) : List String :=
  match symbol_table with
  | [] => []
  | current :: next =>
    if current.attr = SymbolAttribute.ENTRY_SYMBOL then
      output_line current.name (to_base4 (to_unsigned current.address)) :: entries_lines next
    else entries_lines next

/-- The lines written to the `.ent` file; `none` when no file is created. -/
def create_entries_file (symbol_table : List SymbolNode) : Option (List String) :=
  if ¬ has_entry_symbols symbol_table then none
  else some (entries_lines symbol_table)

/-- Whether the externals list is not empty. -/
def has_external_usage (externals_list : List ExternalUsage) : Bool :=
  ! externals_list.isEmpty

/-- The loop of `create_externals_file` over the externals list from its
head: one line per record. -/
def externals_lines (externals_list : List ExternalUsage) : List String :=
  match externals_list with
  | [] => []
  | current :: next =>
    output_line current.symbol_name (to_base4 (to_unsigned current.address))
      :: externals_lines next

/-- The lines written to the `.ext` file; `none` when no file is created. -/
def create_externals_file (externals_list : List ExternalUsage) : Option (List String) :=
  if ¬ has_external_usage externals_list then none
  else some (externals_lines externals_list)

/-! ## The two passes over the expanded file (`first_pass.c`, `second_pass.c`) -/

/-- One iteration of the reading loop `while (fgets(line, sizeof(line),
input_file) != NULL)`: either the text `fgets` returned when it passes the
length test, or the fact that the test `strchr(line, '\n') == NULL &&
!feof(input_file)` failed it (the rest of the physical line is then
discarded). -/
inductive InputLine where
  | text (line : String)
  | too_long
  deriving DecidableEq

/-- The sequence of loop iterations for a file content, read with a buffer of
`size` characters. `buffer` holds the characters the current `fgets` call has
read, last first; `skipping` is set while `fgetc` discards the rest of an
over-length line. `fgets` returns when it has read a newline, when `size - 1`
characters are in the buffer (the end-of-file indicator is then not set), or
at the end of the file (the indicator is then set). -/
def fgets_lines (size : Nat) (buffer : List Char) (skipping : Bool) :
    List Char → List InputLine
  | [] =>
    if skipping then []
    else if buffer = [] then []
    else [InputLine.text (String.mk buffer.reverse)]
  | c :: rest =>
    if skipping then
      (if c.toNat = 10 then fgets_lines size [] false rest
       else fgets_lines size [] true rest)
    else if c.toNat = 10 then
      InputLine.text (String.mk (c :: buffer).reverse) :: fgets_lines size [] false rest
    else if (c :: buffer).length = size - 1 then
      InputLine.too_long :: fgets_lines size [] true rest
    else fgets_lines size (c :: buffer) false rest

/-- Resets IC and DC to initial values. -/
def reset_counters (st : AsmState) : AsmState :=
  { st with IC := IC_INITIAL_VALUE, DC := 0 }

/-- Clears the instruction and data memory images. -/
def reset_memory_images (st : AsmState) : AsmState :=
  { st with instruction_image := fun _ => 0, data_image := fun _ => 0 }

/-- The reading loop of `first_pass` over the iterations of `fgets`. The
result of `process_line_first_pass` is not used by the loop. -/
def first_pass_loop : List InputLine → AsmState → Option AsmState
  | [], st => some st
  | InputLine.too_long :: rest, st =>
    first_pass_loop rest (print_error st "Line is longer than 80 characters")
  | InputLine.text line :: rest, st =>
    if is_empty_line line.data ∨ is_comment_line line.data then first_pass_loop rest st
    else
      match process_line_first_pass line st with
      | none => none
      | some (_, st1) => first_pass_loop rest st1

/-- Relocates the data symbols behind the code. -/
def finalize_first_pass (st : AsmState) : AsmState :=
  { st with symbol_table := update_data_symbols st.symbol_table st.IC }

/-- The first pass over the content of the `.am` file (the file is assumed
to open): returns the C result `error_flag == 0` and the final state. -/
def first_pass (content : String) (st : AsmState) : Option (Bool × AsmState) :=
  match first_pass_loop (fgets_lines MAX_LINE_LENGTH [] false content.data)
      (reset_memory_images (reset_counters st)) with
  | none => none
  | some st1 =>
    if st1.error_flag = 0 then some (true, finalize_first_pass st1)
    else some (false, st1)

/-- The reading loop of `second_pass` over the iterations of `fgets`. -/
def second_pass_loop : List InputLine → AsmState → Option AsmState
  | [], st => some st
  | InputLine.too_long :: rest, st =>
    second_pass_loop rest (print_error st "Line is longer than 80 characters")
  | InputLine.text line :: rest, st =>
    if is_empty_line line.data ∨ is_comment_line line.data then second_pass_loop rest st
    else
      match process_line_second_pass line st with
      | none => none
      | some (_, st1) => second_pass_loop rest st1

/-- The files written at the end of the second pass: the lines of the `.ob`
file and, when they are created, of the `.ent` and `.ext` files. -/
structure OutputFiles where
  ob : List String
  ent : Option (List String)
  ext : Option (List String)
  deriving DecidableEq

/-- The second pass over the content of the `.am` file (the file is assumed
to open): returns the C result `error_flag == 0`, the final state and, when
no error was found, the output files. -/
def second_pass (content : String) (st : AsmState) :
    Option (Bool × AsmState × Option OutputFiles) :=
  match second_pass_loop (fgets_lines MAX_LINE_LENGTH [] false content.data)
      { st with IC := IC_INITIAL_VALUE } with
  | none => none
  | some st1 =>
    if st1.error_flag = 0 then
      match create_object_file st1 with
      | none => none
      | some ob =>
        some (true, st1, some { ob := ob, ent := create_entries_file st1.symbol_table,
                                ext := create_externals_file st1.externals_list })
    else some (false, st1, none)

/-- The first pass followed, when it succeeds, by the second pass, from the
initial state: the part of `process_single_file` after the pre-assembler.
Returns the result of the last pass run, the final state and the output
files. -/
def assemble (content : String) : Option (Bool × AsmState × Option OutputFiles) :=
  match first_pass content initial_state with
  | none => none
  | some (false, st1) => some (false, st1, none)
  | some (true, st1) => second_pass content st1

/-! ## Pre-assembler (`pre_assembler.c`, macro table of `data_structures.c`) -/

/-- A node of the macro table; the table is the list of nodes from the head
of the linked list on. -/
structure MacroNode where
  name : String
  content : String
  deriving DecidableEq

/-- Searches for a macro in the macro table. -/
def find_macro (head : List MacroNode) (name : String) : Option MacroNode :=
  match head with
  | [] => none
  | current :: next => if current.name = name then some current else find_macro next name

/-- Adds a new macro at the head of the macro table; `none` when the C
function returns `NULL` because the name is already present. -/
def add_macro (head : List MacroNode) (name content : String) : Option (List MacroNode) :=
  match find_macro head name with
  | some _ => none
  | none => some ({ name := name, content := content } :: head)

/-- The state of `process_file`: the local macro table, the strings written
to the `.am` file by the successive `fputs` calls, the global `error_flag` and
the text written to the diagnostic stream. -/
structure PreState where
  macro_table : List MacroNode
  output : List String
  error_flag : Int
  diagnostics : List String
  deriving DecidableEq

/-- Reports a diagnostic of the pre-assembler and raises the error flag. -/
def pre_print_error (st : PreState) (error_message : String) : PreState :=
  { st with error_flag := 1, diagnostics := st.diagnostics ++ [error_message] }

/-- The call `fputs(text, output_file)`. -/
def fputs (st : PreState) (text : String) : PreState :=
  { st with output := st.output ++ [text] }

/-- Macro-name validity: a valid label that is not a reserved word. -/
def validate_macro_name (name : String) : Bool :=
  if ¬ is_valid_label name then false
  else if is_reserved_word name then false
  else true

/-- Whether the line starts a macro definition: `some (some name)` when the C
function returns 1 and has copied the name, `some none` when it returns 0 (a
name it may have copied then is never read), `none` when a token does not fit
its buffer. -/
def is_macro_start (line : List Char) : Option (Option String) :=
  match tokenize_line line MAX_TOKENS with
  | none => none
  | some tokens =>
    if tokens.length ≥ 2 ∧ tokens.head? = some "mcro" then
      (if tokens.length > 2 then some none else some (tokens.get? 1))
    else some none

/-- Whether the only token of the line is `mcroend`; `none` when a token does
not fit its buffer. -/
def is_macro_end (line : List Char) : Option Bool :=
  match tokenize_line line MAX_TOKENS with
  | none => none
  | some tokens =>
    if tokens.length = 1 ∧ tokens.head? = some "mcroend" then some true else some false

/-- Whether the only token of the line is the name of a known macro: `some
(some name)` when the C function returns 1 and has copied the name, `some
none` when it returns 0. -/
def is_macro_call (line : List Char) (macro_table : List MacroNode) :
    Option (Option String) :=
  match tokenize_line line MAX_TOKENS with
  | none => none
  | some tokens =>
    if tokens.length = 1 then
      (if ( find_macro macro_table (tokens.headD "")).isSome then some (tokens.head?)
       else some none)
    else some none

/-- Writes the content of a macro to the output; 0 when the macro is not in
the table. -/
def expand_macro_call (macro_name : String) (st : PreState) : Bool × PreState :=
  match find_macro st.macro_table macro_name with
  | none => (false, st)
  | some m => (true, fputs st m.content)

mutual

/-- The reading loop of `process_file` over the iterations of `fgets` that
are left. A macro definition hands the stream to `build_macro_content`, which
reads on from the next line. -/
def process_file_loop : List InputLine → PreState → Option PreState
  | [], st => some st
  | InputLine.too_long :: rest, st =>
    process_file_loop rest (pre_print_error st "Line is longer than 80 characters")
  | InputLine.text line :: rest, st =>
    if is_empty_line line.data ∨ is_comment_line line.data then
      process_file_loop rest (fputs st line)
    else
      match is_macro_start line.data with
      | none => none
      | some (some macro_name) =>
        if ¬ validate_macro_name macro_name then
          process_file_loop rest (pre_print_error st "Invalid macro name or reserved word used")
        else build_macro_content macro_name [] rest st
      | some none =>
        match is_macro_call line.data st.macro_table with
        | none => none
        | some (some macro_name) =>
          match expand_macro_call macro_name st with
          | (false, st1) => process_file_loop rest (pre_print_error st1 "Undefined macro called")
          | (true, st1) => process_file_loop rest st1
        | some none => process_file_loop rest (fputs st line)

/-- The reading loop of `build_macro_content`, called by
`process_macro_definition` for the macro `macro_name`, with the text
`content` gathered so far. At the line `mcroend` the macro is added to the
table (a failure of `add_macro` is silent) and the loop of `process_file`
reads on; an over-length line or the end of the file makes the function
return `NULL`: nothing is added, no diagnostic is printed, and the loop of
`process_file` reads on. -/
def build_macro_content (macro_name : String) (content : List Char) :
    List InputLine → PreState → Option PreState
  | [], st => some st
  | InputLine.too_long :: rest, st => process_file_loop rest st
  | InputLine.text line :: rest, st =>
    match is_macro_end line.data with
    | none => none
    | some true =>
      match add_macro st.macro_table macro_name (String.mk content) with
      | none => process_file_loop rest st
      | some table => process_file_loop rest { st with macro_table := table }
    | some false => build_macro_content macro_name (content ++ line.data) rest st

end

/-- The pre-assembler on the content of the `.as` file (both files are
assumed to open), entered with the global `error_flag`: returns the C result,
the final state and, when the `.am` file is kept, its content. -/
def process_file (content : String) (error_flag : Int) :
    Option (Bool × PreState × Option String) :=
  match process_file_loop (fgets_lines MAX_LINE_LENGTH [] false content.data)
      { macro_table := [], output := [], error_flag := error_flag, diagnostics := [] } with
  | none => none
  | some st =>
    if st.error_flag ≠ 0 then some (false, st, none)
    else some (true, st, some (String.join st.output))

/-! ## Reference definitions written from the specification -/

/-- Source-operand legality mask of the specification's table: `0xF` for
opcodes 0-3, `0x6` for `lea` (6), empty for all others. -/
def spec_src_mask (opcode : Int) : Nat :=
  if 0 ≤ opcode ∧ opcode ≤ 3 then 0xF else if opcode = 6 then 0x6 else 0

/-- Destination-operand legality mask of the specification's table: `0xF`
for `cmp` (1) and `prn` (12), empty for `rts`/`stop` (14, 15), `0xE` for the
rest. -/
def spec_dest_mask (opcode : Int) : Nat :=
  if opcode = 1 ∨ opcode = 12 then 0xF else if opcode = 14 ∨ opcode = 15 then 0 else 0xE

/-- Legality of one operand against a mask, in the specification's words: a
present operand is legal iff its mode's bit is set, an absent operand iff the
mask is empty. -/
def spec_operand_legal (mask : Nat) (mode : Int) : Prop :=
  if mode = -1 then mask = 0 else mask.testBit mode.toNat = true

instance (mask : Nat) (mode : Int) : Decidable (spec_operand_legal mask mode) := by
  unfold spec_operand_legal; infer_instance

/-- Operand contribution to the instruction length, in the specification's
words: absent 0, immediate/direct/register 1, matrix 2. -/
def spec_operand_words (mode : Int) : Int :=
  if mode = -1 then 0 else if mode = 2 then 2 else 1

/-- Unpacking of an instruction word into (opcode, src_mode, dst_mode, ARE):
bits 9-6, 5-4, 3-2 and 1-0. -/
def unpack_instruction_word (w : Nat) : Nat × Nat × Nat × Nat :=
  ((w >>> 6) &&& 0xF, (w >>> 4) &&& 0x3, (w >>> 2) &&& 0x3, w &&& 0x3)

/-- Re-encoding of unpacked fields into a 10-bit word. -/
def pack_instruction_word (f : Nat × Nat × Nat × Nat) : Nat :=
  (f.1 <<< 6) ||| (f.2.1 <<< 4) ||| (f.2.2.1 <<< 2) ||| f.2.2.2

/-- The set `{-1, 0, 1, 2, 3}` of addressing-mode values (`-1` = absent). -/
def is_mode_value (m : Int) : Prop := -1 ≤ m ∧ m ≤ 3

instance (m : Int) : Decidable (is_mode_value m) := by
  unfold is_mode_value; infer_instance

/-- The operand text `rN` of register number `n`. -/
def register_name (n : Nat) : String := String.mk ['r', Char.ofNat (48 + n)]

/-- An instruction line without label: a command and up to two operands. -/
def instruction_line (command : String) (operand1 operand2 : Option String) : ParsedLine :=
  { label := none, command := some command, operand1 := operand1, operand2 := operand2,
    is_error := false, is_empty := false, is_directive := false }

/-- The result of an encoding step together with the words it leaves in the
slots 0, 1 and 2 of the instruction image. -/
def result_and_words (r : Option (Int × AsmState)) : Option (Int × Nat × Nat × Nat) :=
  r.map (fun p => (p.1, p.2.instruction_image 0, p.2.instruction_image 1,
    p.2.instruction_image 2))

/-- Value of a base-4 letter: a=0, b=1, c=2, d=3. -/
def base4_value (c : Char) : Nat :=
  if c = 'a' then 0 else if c = 'b' then 1 else if c = 'c' then 2 else 3

/-- Decoding of a string of base-4 letters as a numeral, most significant
digit first. -/
def from_base4 (s : List Char) : Nat :=
  s.foldl (fun acc c => acc * 4 + base4_value c) 0

/-- Every name found in the table `t` is found with the same node in `t1`. -/
def keeps_symbols (t t1 : List SymbolNode) : Prop :=
  ∀ n s, find_symbol t n = some s → find_symbol t1 n = some s

/-- Successive `add_symbol` calls for the listed symbols, first to last;
`none` when one of them fails. -/
def add_symbols (head : List SymbolNode) : List SymbolNode → Option (List SymbolNode)
  | [] => some head
  | s :: rest =>
    match add_symbol head s.name s.address s.attr with
    | none => none
    | some head1 => add_symbols head1 rest

/-- Every symbol of the table has a name that `is_valid_label` accepts. -/
def valid_names (t : List SymbolNode) : Prop :=
  ∀ s ∈ t, is_valid_label s.name = true

/-- The program of C30: eight `.string` lines of 29 words each and five `mov`
instructions of 5 words each. -/
def oversized_program : String :=
  "M: .string \"abcdefghijklmnopqrstuvwxyzab\"\n" ++
  ".string \"abcdefghijklmnopqrstuvwxyzab\"\n" ++
  ".string \"abcdefghijklmnopqrstuvwxyzab\"\n" ++
  ".string \"abcdefghijklmnopqrstuvwxyzab\"\n" ++
  ".string \"abcdefghijklmnopqrstuvwxyzab\"\n" ++
  ".string \"abcdefghijklmnopqrstuvwxyzab\"\n" ++
  ".string \"abcdefghijklmnopqrstuvwxyzab\"\n" ++
  ".string \"abcdefghijklmnopqrstuvwxyzab\"\n" ++
  "mov M[r1][r1], M[r1][r1]\n" ++
  "mov M[r1][r1], M[r1][r1]\n" ++
  "mov M[r1][r1], M[r1][r1]\n" ++
  "mov M[r1][r1], M[r1][r1]\n" ++
  "mov M[r1][r1], M[r1][r1]\n"

/-- A line of exactly 80 characters before its newline: `stop` followed by 76
spaces. -/
def line_of_80 : String := "stop" ++ String.mk (List.replicate 76 ' ') ++ "\n"

/-- A line of exactly 79 characters before its newline: `stop` followed by 75
spaces. -/
def line_of_79 : String := "stop" ++ String.mk (List.replicate 75 ' ') ++ "\n"

/-- Eight `.string` lines that bring DC to 227: seven of 29 words and one of
24 words. -/
def data_fill_227 : String :=
  ".string \"abcdefghijklmnopqrstuvwxyzab\"\n" ++
  ".string \"abcdefghijklmnopqrstuvwxyzab\"\n" ++
  ".string \"abcdefghijklmnopqrstuvwxyzab\"\n" ++
  ".string \"abcdefghijklmnopqrstuvwxyzab\"\n" ++
  ".string \"abcdefghijklmnopqrstuvwxyzab\"\n" ++
  ".string \"abcdefghijklmnopqrstuvwxyzab\"\n" ++
  ".string \"abcdefghijklmnopqrstuvwxyzab\"\n" ++
  ".string \"abcdefghijklmnopqrstuvw\"\n"

/-- Six `.string` lines of 29 words each, a labelled `.data` and a `prn` of
the label: L is relocated to address 102 + 174 = 276. -/
def high_address_program : String :=
  ".string \"abcdefghijklmnopqrstuvwxyzab\"\n" ++
  ".string \"abcdefghijklmnopqrstuvwxyzab\"\n" ++
  ".string \"abcdefghijklmnopqrstuvwxyzab\"\n" ++
  ".string \"abcdefghijklmnopqrstuvwxyzab\"\n" ++
  ".string \"abcdefghijklmnopqrstuvwxyzab\"\n" ++
  ".string \"abcdefghijklmnopqrstuvwxyzab\"\n" ++
  "L: .data 5\n" ++
  "prn L\n"

/-- An ASCII letter: `A`..`Z` (65..90) or `a`..`z` (97..122). -/
def is_ascii_letter (c : Char) : Prop :=
  (65 ≤ c.toNat ∧ c.toNat ≤ 90) ∨ (97 ≤ c.toNat ∧ c.toNat ≤ 122)

/-- An ASCII digit: `0`..`9` (48..57). -/
def is_ascii_digit (c : Char) : Prop := 48 ≤ c.toNat ∧ c.toNat ≤ 57

instance (c : Char) : Decidable (is_ascii_letter c) := by
  unfold is_ascii_letter; infer_instance

instance (c : Char) : Decidable (is_ascii_digit c) := by
  unfold is_ascii_digit; infer_instance

/-- The integer a numeral denotes in the specification's words: an optional
sign followed by at least one decimal digit and nothing else, with a value in
[-512, 511]; `none` for every other string. -/
def spec_integer (s : List Char) : Option Int :=
  let negative : Bool := s.head? = some '-'
  let digits := if s.head? = some '-' ∨ s.head? = some '+' then s.tail else s
  if digits ≠ [] ∧ ∀ c ∈ digits, is_ascii_digit c then
    let n : Nat := Nat.ofDigits 10 (digits.reverse.map (fun c => c.toNat - 48))
    let v : Int := if negative then - (n : Int) else n
    if -512 ≤ v ∧ v ≤ 511 then some v else none
  else none

/-- Splitting of a text at separator characters, in the specification's
words: the maximal runs of characters that are not separators. -/
def split_tokens (is_separator : Char → Bool) (text : List Char) : List (List Char) :=
  (text.splitOnP is_separator).filter (fun t => t ≠ [])

/-- The tokens of a line: the line is trimmed of white space, split at space,
tab, newline, carriage return and comma, and each piece is trimmed of white
space. -/
def line_tokens (line : List Char) : List String :=
  (split_tokens is_line_delimiter (trim_whitespace line)).map
    (fun t => String.mk (trim_whitespace t))

/-- The length the first pass computes for an instruction line:
`calculate_instruction_length` on the opcode of the command and the addressing
modes of the operands the opcode takes (one operand is the destination). -/
def instruction_length (parsed : ParsedLine) : Int :=
  match parsed.command with
  | none => 0
  | some command =>
    let opcode := get_instruction_opcode command
    let expected_operands := count_operands_for_instruction opcode
    let src_mode : Int :=
      if expected_operands = 2 then get_addressing_mode parsed.operand1 else -1
    let dest_mode : Int :=
      if expected_operands = 1 then get_addressing_mode parsed.operand1
      else if expected_operands = 2 then get_addressing_mode parsed.operand2
      else -1
    calculate_instruction_length opcode src_mode dest_mode

/-- The number of code words of a line: the length of its instruction, 0 for
an empty line, a line with extra tokens and a directive. -/
def line_words (line : String) : Int :=
  match parse_line line with
  | none => 0
  | some parsed =>
    if parsed.is_empty ∨ parsed.is_error ∨ parsed.is_directive then 0
    else instruction_length parsed

/-- The number of code words of the lines a reading loop processes. -/
def total_words : List InputLine → Int
  | [] => 0
  | InputLine.too_long :: rest => total_words rest
  | InputLine.text line :: rest =>
    if is_empty_line line.data ∨ is_comment_line line.data then total_words rest
    else line_words line + total_words rest

/-- A program whose string holds one byte above 127: `S: .string "?"` with
the byte 0xE9 (the letter e with an acute accent in Latin-1) between the
quotes, followed by `stop`. -/
def non_ascii_string_program : String :=
  "S: .string \"" ++ String.singleton (Char.ofNat 233) ++ "\"\nstop\n"

/-- Whether `name` is found in the symbol table as an EXTERNAL symbol. -/
def is_external_name (table : List SymbolNode) (name : String) : Bool :=
  match find_symbol table name with
  | none => false
  | some symbol => decide (symbol.attr = SymbolAttribute.EXTERNAL_SYMBOL)

/-- The reference to an external symbol that an operand of an instruction at
the address `IC` makes: a direct operand that names an EXTERNAL symbol, or a
matrix operand whose label names one, is one reference to that name, recorded
with the address IC + 1; any other operand makes none. -/
def operand_usages (table : List SymbolNode) (IC : Int) (operand : Option String) :
    List ExternalUsage :=
  match operand with
  | none => []
  | some text =>
    if get_addressing_mode operand = 1 then
      (if is_external_name table text then [{ symbol_name := text, address := IC + 1 }]
       else [])
    else if get_addressing_mode operand = 2 then
      match parse_matrix_operand text.data with
      | none => []
      | some (label, _, _) =>
        if is_external_name table label then [{ symbol_name := label, address := IC + 1 }]
        else []
    else []

/-- The references to external symbols of an instruction at the address `IC`,
in the order of the text: the source operand, then the destination operand
(the only operand of a one-operand instruction is its destination). -/
def instruction_usages (table : List SymbolNode) (IC : Int) (parsed : ParsedLine) :
    List ExternalUsage :=
  match parsed.command with
  | none => []
  | some command =>
    let expected_operands := count_operands_for_instruction (get_instruction_opcode command)
    let src_operand : Option String := if expected_operands = 2 then parsed.operand1 else none
    let dest_operand : Option String :=
      if expected_operands = 1 then parsed.operand1
      else if expected_operands = 2 then parsed.operand2
      else none
    operand_usages table IC src_operand ++ operand_usages table IC dest_operand

/-- The references to external symbols of a line at the address `IC`: those
of its instruction, none for an empty line, a line with extra tokens and a
directive. -/
def line_usages (table : List SymbolNode) (IC : Int) (line : String) : List ExternalUsage :=
  match parse_line line with
  | none => []
  | some parsed =>
    if parsed.is_empty ∨ parsed.is_error ∨ parsed.is_directive then []
    else instruction_usages table IC parsed

/-- The references to external symbols of a program in the order of the
text, first line first, the first line being at the address `IC` and every
line taking `line_words` words. -/
def program_usages (table : List SymbolNode) : Int → List InputLine → List ExternalUsage
  | _, [] => []
  | IC, InputLine.too_long :: rest => program_usages table IC rest
  | IC, InputLine.text line :: rest =>
    if is_empty_line line.data ∨ is_comment_line line.data then program_usages table IC rest
    else line_usages table IC line ++ program_usages table (IC + line_words line) rest

/-- A definition of the macro GREET whose only body line is `line_of_80`
(`stop` and trailing blanks, 80 characters before the newline), followed by a
call of GREET. -/
def macro_with_line_of_80 : String :=
  "mcro GREET\n" ++ line_of_80 ++ "mcroend\nGREET\n"

/-! ## Theorems -/

/-! ### Auxiliary lemmas -/

/-- On a non-negative `int`, `maskBits` is the bitwise and with the mask
`2^k - 1`. -/
theorem maskBits_natCast (n k : Nat) : maskBits (n : Int) k = n &&& (2 ^ k - 1) := by
  rw [Nat.and_pow_two_sub_one_eq_mod]
  unfold maskBits
  have h : ((n : Int) % 2 ^ k) = ((n % 2 ^ k : Nat) : Int) := by
    push_cast
    rfl
  rw [h]
  exact Int.toNat_natCast _

/-- On the negative `int` `-(n + 1)`, whose two's-complement bits are the
complement of the bits of `n`, `maskBits` is the complement of the low `k`
bits of `n`. -/
theorem maskBits_negSucc (n k : Nat) :
    maskBits (Int.negSucc n) k = 2 ^ k - 1 - n % 2 ^ k := by
  unfold maskBits
  have hpos : (0 : Int) < 2 ^ k := by positivity
  have h2 : ((2 : Int) ^ k) = ((2 ^ k : Nat) : Int) := by push_cast; rfl
  have hlt : n % 2 ^ k < 2 ^ k := Nat.mod_lt _ (by positivity)
  have key : Int.negSucc n % 2 ^ k = ((2 ^ k - 1 - n % 2 ^ k : Nat) : Int) := by
    rw [Int.negSucc_emod _ hpos]
    rw [h2]
    have : ((n : Int) % ((2 ^ k : Nat) : Int)) = ((n % 2 ^ k : Nat) : Int) := by
      push_cast
      rfl
    rw [this]
    omega
  rw [key]
  exact Int.toNat_natCast _

/-- A store inside the instruction image succeeds and changes that slot
only. -/
theorem store_instruction_in_bounds (st : AsmState) (index : Int) (word : Nat)
    (h : 0 ≤ index ∧ index < 256) :
    store_instruction st index word =
      some { st with instruction_image :=
        fun j => if j = index.toNat then word else st.instruction_image j } := by
  simp [store_instruction, store_word, MEMORY_SIZE, h]

/-- Opcodes 4..13 take one operand. -/
theorem count_operands_one (opcode : Int) (h1 : 4 ≤ opcode) (h2 : opcode ≤ 13) :
    count_operands_for_instruction opcode = 1 := by
  interval_cases opcode <;> rfl

/-- A direct destination without source is legal for every opcode in 4..13
other than `lea` (6). -/
theorem valid_one_operand_direct (opcode : Int) (h1 : 4 ≤ opcode) (h2 : opcode ≤ 13)
    (h3 : opcode ≠ 6) : is_valid_addressing_for_instruction opcode (-1) 1 = true := by
  interval_cases opcode <;> first | rfl | exact absurd rfl h3

/-- A direct operand whose name is not in the symbol table is rejected with a
diagnostic. -/
theorem encode_direct_operand_undefined (name : String) (st : AsmState)
    (h : find_symbol st.symbol_table name = none) :
    encode_direct_operand name st = some (-1, print_error st "Undefined symbol") := by
  simp [encode_direct_operand, h]

/-- A direct operand naming an external symbol stores the word 1 and records
the usage at `IC + 1`. -/
theorem encode_direct_operand_external (name : String) (st : AsmState) (symbol : SymbolNode)
    (h : find_symbol st.symbol_table name = some symbol)
    (hattr : symbol.attr = SymbolAttribute.EXTERNAL_SYMBOL)
    (hIC : 0 ≤ st.IC - IC_INITIAL_VALUE + 1 ∧ st.IC - IC_INITIAL_VALUE + 1 < 256) :
    encode_direct_operand name st =
      some (1, { add_external_usage st name (st.IC + 1) with
        instruction_image := fun j =>
          if j = (st.IC - IC_INITIAL_VALUE + 1).toNat then 1 else st.instruction_image j }) := by
  unfold encode_direct_operand
  simp only [h, hattr, if_true, determine_are_field]
  have : (add_external_usage st name (st.IC + 1)).IC = st.IC := rfl
  rw [this, store_instruction_in_bounds _ _ _ hIC]
  rfl

/-- A direct operand naming a symbol that is not external stores its
address field with ARE = 10 and records nothing. -/
theorem encode_direct_operand_local (name : String) (st : AsmState) (symbol : SymbolNode)
    (h : find_symbol st.symbol_table name = some symbol)
    (hattr : symbol.attr ≠ SymbolAttribute.EXTERNAL_SYMBOL)
    (hIC : 0 ≤ st.IC - IC_INITIAL_VALUE + 1 ∧ st.IC - IC_INITIAL_VALUE + 1 < 256) :
    encode_direct_operand name st =
      some (1, { st with
        instruction_image := fun j =>
          if j = (st.IC - IC_INITIAL_VALUE + 1).toNat then
            (maskBits symbol.address 10 <<< 2) ||| 2
          else st.instruction_image j }) := by
  unfold encode_direct_operand
  simp only [h, hattr, if_false, determine_are_field]
  rw [store_instruction_in_bounds _ _ _ hIC]
  rfl

/-- Encoding a one-operand instruction with a direct operand stores the
instruction word and then encodes the operand. -/
theorem encode_one_operand_direct_reduces (parsed : ParsedLine) (command name : String)
    (st : AsmState)
    (hcmd : parsed.command = some command) (h1 : parsed.operand1 = some name)
    (h2 : parsed.operand2 = none)
    (hlo : 4 ≤ get_instruction_opcode command) (hhi : get_instruction_opcode command ≤ 13)
    (hlea : get_instruction_opcode command ≠ 6)
    (hmode : get_addressing_mode (some name) = 1)
    (hIC : IC_INITIAL_VALUE ≤ st.IC ∧ st.IC + 1 < IC_INITIAL_VALUE + MEMORY_SIZE) :
    ∃ st0 : AsmState, st0.IC = st.IC ∧ st0.symbol_table = st.symbol_table
      ∧ st0.externals_list = st.externals_list ∧ st0.diagnostics = st.diagnostics
      ∧ encode_instruction_parsed parsed st =
        match encode_direct_operand name st0 with
        | none => none
        | some (operand_result, st1) =>
          if operand_result = -1 then some (-1, st1) else some (1 + operand_result, st1) := by
  refine ⟨{ st with instruction_image := fun j =>
              if j = (st.IC - IC_INITIAL_VALUE).toNat then
                encode_instruction_word (get_instruction_opcode command) (-1) 1
              else st.instruction_image j }, rfl, rfl, rfl, rfl, ?_⟩
  have hneg : get_instruction_opcode command ≠ -1 := by omega
  have hcount := count_operands_one _ hlo hhi
  have hvalid := valid_one_operand_direct _ hlo hhi hlea
  have hact : actual_operands parsed = 1 := by
    simp [actual_operands, h1, h2]
  have hb : 0 ≤ st.IC - IC_INITIAL_VALUE ∧ st.IC - IC_INITIAL_VALUE < 256 := by
    simp only [IC_INITIAL_VALUE, MEMORY_SIZE] at hIC ⊢
    omega
  unfold encode_instruction_parsed
  simp only [hcmd, hneg, hcount, hact, h1, hmode, hvalid, if_true, if_false, ne_eq,
    not_true_eq_false, not_false_eq_true, store_instruction_in_bounds _ _ _ hb,
    encode_optional_operand, encode_operand]
  generalize encode_direct_operand name _ = r
  rcases r with _ | ⟨res, s1⟩
  · rfl
  · by_cases hr : res = -1 <;> simp [hr]

/-- The operand text `rN` with N in 0..7 has register addressing mode. -/
theorem get_addressing_mode_register (n : Nat) (h : n ≤ 7) :
    get_addressing_mode (some (register_name n)) = 3 := by
  interval_cases n <;> decide

/-- The shared word of `rS`, `rD` is `(S << 5) | (D << 2)`. -/
theorem encode_two_registers_value (s d : Nat) (hs : s ≤ 7) (hd : d ≤ 7) :
    encode_two_registers (register_name s) (register_name d) = ((s <<< 5) ||| (d <<< 2)) := by
  interval_cases s <;> interval_cases d <;> decide

/-- Opcodes 0..3 take two operands and accept two registers. -/
theorem valid_two_registers (opcode : Int) (h1 : 0 ≤ opcode) (h2 : opcode ≤ 3) :
    is_valid_addressing_for_instruction opcode 3 3 = true
      ∧ count_operands_for_instruction opcode = 2 := by
  interval_cases opcode <;> exact ⟨rfl, rfl⟩

/-- Handling a label never changes `IC`. -/
theorem handle_label_definition_IC (parsed : ParsedLine) (st : AsmState) :
    (handle_label_definition parsed st).2.IC = st.IC := by
  unfold handle_label_definition
  simp only [print_error]
  split_ifs <;> first | rfl | (split <;> rfl)

/-- A label that is refused raises the error flag. -/
theorem handle_label_definition_error (parsed : ParsedLine) (st : AsmState)
    (h : (handle_label_definition parsed st).1 = false) :
    (handle_label_definition parsed st).2.error_flag = 1 := by
  unfold handle_label_definition at h ⊢
  simp only [print_error] at h ⊢
  split_ifs at h ⊢ <;>
    first
    | rfl
    | (generalize add_symbol _ _ _ _ = r at h ⊢; cases r <;> simp_all)

/-- An instruction line with the wrong number of operands is rejected. -/
theorem process_instruction_parsed_wrong_arity (parsed : ParsedLine) (command : String)
    (st : AsmState) (hcmd : parsed.command = some command)
    (hop : get_instruction_opcode command ≠ -1)
    (harity : actual_operands parsed ≠
      count_operands_for_instruction (get_instruction_opcode command)) :
    process_instruction_parsed parsed st = (-1, print_error st "Wrong number of operands") := by
  unfold process_instruction_parsed
  rw [hcmd]
  simp only [hop, harity, if_false, ne_eq, not_false_eq_true, if_true]

/-- The search returns -1 exactly when the word is not in the table. -/
theorem table_index_eq_neg_one (table : List String) (word : String) (i : Int) (hi : 0 ≤ i) :
    table_index table word i = -1 ↔ word ∉ table := by
  induction table generalizing i with
  | nil => simp [table_index]
  | cons entry rest ih =>
    unfold table_index
    by_cases h : word = entry
    · simp only [h, if_true, List.mem_cons, true_or, not_true_eq_false, iff_false]
      omega
    · simp only [h, if_false, List.mem_cons, false_or]
      exact ih (i + 1) (by omega)

/-- For a word of the table the search returns an index of the table,
counted from the start index. -/
theorem table_index_bounds (table : List String) (word : String) (i : Int) (hi : 0 ≤ i)
    (hmem : word ∈ table) :
    i ≤ table_index table word i ∧ table_index table word i < i + table.length := by
  induction table generalizing i with
  | nil => simp at hmem
  | cons entry rest ih =>
    unfold table_index
    by_cases h : word = entry
    · simp only [h, if_true, List.length_cons]
      push_cast
      omega
    · simp only [h, if_false, List.length_cons]
      have hm : word ∈ rest := by
        rcases List.mem_cons.mp hmem with h1 | h1
        · exact absurd h1 h
        · exact h1
      have := ih (i + 1) (by omega) hm
      push_cast
      omega

/-- The letter of a digit below 4 has that digit as value. -/
theorem base4_value_digit (v : Nat) (h : v < 4) : base4_value (base4_digit v) = v := by
  interval_cases v <;> decide

/-- The letter of a digit below 4 is one of a, b, c, d. -/
theorem base4_digit_mem (v : Nat) (h : v < 4) : base4_digit v ∈ ['a', 'b', 'c', 'd'] := by
  interval_cases v <;> decide

/-- The five letters of `to_base4` are the base-4 digits of `n mod 1024`,
most significant first. -/
theorem to_base4_data (n : Nat) :
    (to_base4 n).data =
      [base4_digit (n % 1024 / 256 % 4), base4_digit (n % 1024 / 64 % 4),
       base4_digit (n % 1024 / 16 % 4), base4_digit (n % 1024 / 4 % 4),
       base4_digit (n % 1024 % 4)] := by
  have hmask : n &&& 0x3FF = n % 1024 := Nat.and_pow_two_sub_one_eq_mod n 10
  have h3 : ∀ x : Nat, x &&& 0x3 = x % 4 := fun x => Nat.and_pow_two_sub_one_eq_mod x 2
  have hs : ∀ x : Nat, x >>> 2 = x / 4 := fun x => Nat.shiftRight_eq_div_pow x 2
  simp only [to_base4, to_base4_loop, hmask, h3, hs]
  have e1 : n % 1024 / 4 / 4 = n % 1024 / 16 := by omega
  have e2 : n % 1024 / 4 / 4 / 4 = n % 1024 / 64 := by omega
  have e3 : n % 1024 / 4 / 4 / 4 / 4 = n % 1024 / 256 := by omega
  rw [e3, e2, e1]

/-- Inside the image the line loop writes one line per index. -/
theorem write_image_lines_some (image : Nat → Nat) (base : Int) (count start : Nat)
    (h : start + count ≤ MEMORY_SIZE) :
    write_image_lines image base start count =
      some ((List.range count).map (fun j =>
        output_line (to_base4 (to_unsigned (base + ((start + j : Nat) : Int))))
          (to_base4 (image (start + j))))) := by
  induction count generalizing start with
  | zero => rfl
  | succ n ih =>
    have hlt : start < MEMORY_SIZE := by omega
    rw [write_image_lines, load_word, if_pos hlt]
    simp only []
    rw [ih (start + 1) (by omega)]
    simp only [List.range_succ_eq_map, List.map_cons, List.map_map, Nat.add_zero]
    congr 2
    apply List.map_congr_left
    intro j _
    simp only [Function.comp]
    have : start + 1 + j = start + (j + 1) := by omega
    rw [this]

/-- Every table keeps its own symbols. -/
theorem keeps_symbols_refl (t : List SymbolNode) : keeps_symbols t t :=
  fun _ _ h => h

/-- Keeping symbols is transitive. -/
theorem keeps_symbols_trans {t t1 t2 : List SymbolNode} (h1 : keeps_symbols t t1)
    (h2 : keeps_symbols t1 t2) : keeps_symbols t t2 :=
  fun n s h => h2 n s (h1 n s h)

/-- A successful `add_symbol` keeps every symbol already in the table. -/
theorem add_symbol_keeps (head t : List SymbolNode) (name : String) (address : Int)
    (attr : SymbolAttribute) (h : add_symbol head name address attr = some t) :
    keeps_symbols head t := by
  intro n s hn
  unfold add_symbol at h
  cases hf : find_symbol head name with
  | some x => rw [hf] at h; cases h
  | none =>
    rw [hf] at h
    simp only [Option.some.injEq] at h
    subst h
    unfold find_symbol
    by_cases hname : name = n
    · subst hname; rw [hf] at hn; cases hn
    · simp only [hname, if_false]; exact hn

/-- A store in the data image changes neither the symbol table nor the
counters nor the error flag. -/
theorem store_data_table (st st1 : AsmState) (index : Int) (word : Nat)
    (h : store_data st index word = some st1) :
    st1.symbol_table = st.symbol_table ∧ st1.IC = st.IC ∧ st1.DC = st.DC
      ∧ st1.error_flag = st.error_flag := by
  unfold store_data at h
  cases hw : store_word st.data_image index word with
  | none => rw [hw] at h; cases h
  | some image =>
    rw [hw] at h
    simp only [Option.some.injEq] at h
    subst h
    exact ⟨rfl, rfl, rfl, rfl⟩

/-- Storing the characters of a string leaves the symbol table unchanged. -/
theorem store_string_chars_table (chars : List Char) (i : Int) (st st1 : AsmState)
    (h : store_string_chars chars i st = some st1) :
    st1.symbol_table = st.symbol_table := by
  induction chars generalizing i st with
  | nil => simp only [store_string_chars, Option.some.injEq] at h; rw [← h]
  | cons c rest ih =>
    unfold store_string_chars at h
    cases hs : store_data st (st.DC + i) (char_to_unsigned c) with
    | none => rw [hs] at h; cases h
    | some st2 =>
      rw [hs] at h
      rw [ih _ _ h, (store_data_table _ _ _ _ hs).1]

/-- The string directive body leaves the symbol table unchanged. -/
theorem store_string_data_table (s : List Char) (st st1 : AsmState) (r : Int)
    (h : store_string_data s st = some (r, st1)) :
    st1.symbol_table = st.symbol_table := by
  unfold store_string_data at h
  simp only [] at h
  split_ifs at h
  · simp only [Option.some.injEq, Prod.mk.injEq] at h; rw [← h.2]; rfl
  · simp only [Option.some.injEq, Prod.mk.injEq] at h; rw [← h.2]; rfl
  · cases hc : store_string_chars (List.take ((s.length : Int) - 2).toNat (List.drop 1 s)) 0 st with
    | none => rw [hc] at h; cases h
    | some st2 =>
      rw [hc] at h
      simp only [] at h
      cases hd : store_data st2 (st2.DC + ((s.length : Int) - 2)) 0 with
      | none => rw [hd] at h; cases h
      | some st3 =>
        rw [hd] at h
        simp only [Option.some.injEq, Prod.mk.injEq] at h
        rw [← h.2, (store_data_table _ _ _ _ hd).1, store_string_chars_table _ _ _ _ hc]

/-- The value loop of `.data` leaves the symbol table unchanged. -/
theorem data_values_loop_table (tokens : List (List Char)) (count : Int) (st st1 : AsmState)
    (r : Int) (h : data_values_loop tokens count st = some (r, st1)) :
    st1.symbol_table = st.symbol_table := by
  induction tokens generalizing count st with
  | nil =>
    simp only [data_values_loop, Option.some.injEq, Prod.mk.injEq] at h; rw [← h.2]
  | cons token rest ih =>
    unfold data_values_loop at h
    cases hv : is_valid_integer (trim_whitespace token) with
    | none =>
      rw [hv] at h
      simp only [Option.some.injEq, Prod.mk.injEq] at h; rw [← h.2]; rfl
    | some value =>
      rw [hv] at h
      simp only [] at h
      split_ifs at h
      · simp only [Option.some.injEq, Prod.mk.injEq] at h; rw [← h.2]; rfl
      · cases hs : store_data st (st.DC + count) (maskBits value 10) with
        | none => rw [hs] at h; cases h
        | some st2 =>
          rw [hs] at h
          rw [ih _ _ h, (store_data_table _ _ _ _ hs).1]

/-- The value loop of `.mat` leaves the symbol table unchanged. -/
theorem mat_values_loop_table (tokens : List (List Char)) (expected count : Int)
    (st st1 : AsmState) (r : Int)
    (h : mat_values_loop tokens expected count st = some (r, st1)) :
    st1.symbol_table = st.symbol_table := by
  induction tokens generalizing count st with
  | nil =>
    simp only [mat_values_loop, Option.some.injEq, Prod.mk.injEq] at h; rw [← h.2]
  | cons token rest ih =>
    unfold mat_values_loop at h
    by_cases hc : count < expected
    · simp only [hc, not_true_eq_false, if_false] at h
      cases hv : is_valid_integer (trim_whitespace token) with
      | none =>
        rw [hv] at h
        simp only [Option.some.injEq, Prod.mk.injEq] at h; rw [← h.2]; rfl
      | some value =>
        rw [hv] at h
        simp only [] at h
        by_cases hm : st.DC + count ≥ MEMORY_SIZE
        · simp only [hm, if_true, Option.some.injEq, Prod.mk.injEq] at h; rw [← h.2]; rfl
        · simp only [hm, if_false] at h
          cases hs : store_data st (st.DC + count) (maskBits value 10) with
          | none => rw [hs] at h; cases h
          | some st2 =>
            rw [hs] at h
            rw [ih _ _ h, (store_data_table _ _ _ _ hs).1]
    · simp only [hc, not_false_eq_true, if_true, Option.some.injEq, Prod.mk.injEq] at h
      rw [← h.2]

/-- The `.data` directive leaves the symbol table unchanged. -/
theorem process_data_directive_parsed_table (parsed : ParsedLine) (st st1 : AsmState) (r : Int)
    (h : process_data_directive_parsed parsed st = some (r, st1)) :
    st1.symbol_table = st.symbol_table := by
  unfold process_data_directive_parsed at h
  cases ho : parsed.operand1 with
  | none =>
    rw [ho] at h
    simp only [Option.some.injEq, Prod.mk.injEq] at h; rw [← h.2]; rfl
  | some operand1 =>
    rw [ho] at h
    exact data_values_loop_table _ _ _ _ _ h

/-- The `.string` directive leaves the symbol table unchanged. -/
theorem process_string_directive_parsed_table (parsed : ParsedLine) (st st1 : AsmState)
    (r : Int) (h : process_string_directive_parsed parsed st = some (r, st1)) :
    st1.symbol_table = st.symbol_table := by
  unfold process_string_directive_parsed at h
  cases ho : parsed.operand1 with
  | none =>
    rw [ho] at h
    simp only [Option.some.injEq, Prod.mk.injEq] at h; rw [← h.2]; rfl
  | some operand1 =>
    rw [ho] at h
    exact store_string_data_table _ _ _ _ h

/-- The `.mat` directive leaves the symbol table unchanged. -/
theorem process_mat_directive_parsed_table (parsed : ParsedLine) (st st1 : AsmState) (r : Int)
    (h : process_mat_directive_parsed parsed st = some (r, st1)) :
    st1.symbol_table = st.symbol_table := by
  unfold process_mat_directive_parsed at h
  cases ho : parsed.operand1 with
  | none =>
    rw [ho] at h
    simp only [Option.some.injEq, Prod.mk.injEq] at h; rw [← h.2]; rfl
  | some operand1 =>
    rw [ho] at h
    simp only [] at h
    cases hd : parse_matrix_dimensions operand1.data with
    | none =>
      rw [hd] at h
      simp only [Option.some.injEq, Prod.mk.injEq] at h; rw [← h.2]; rfl
    | some dims =>
      obtain ⟨rows, cols⟩ := dims
      rw [hd] at h
      simp only [] at h
      cases h2 : parsed.operand2 with
      | none =>
        rw [h2] at h
        simp only [Option.some.injEq, Prod.mk.injEq] at h; rw [← h.2]; rfl
      | some operand2 =>
        rw [h2] at h
        simp only [] at h
        cases hl : mat_values_loop (strtok_all (fun c => decide (c = ',')) [] operand2.data)
            (rows * cols) 0 st with
        | none => rw [hl] at h; cases h
        | some res =>
          obtain ⟨count, st2⟩ := res
          rw [hl] at h
          simp only [] at h
          have ht := mat_values_loop_table _ _ _ _ _ _ hl
          split_ifs at h <;>
            (simp only [Option.some.injEq, Prod.mk.injEq] at h; rw [← h.2]) <;>
            exact ht

/-- The `.extern` directive keeps every symbol already in the table. -/
theorem process_extern_directive_parsed_keeps (parsed : ParsedLine) (st : AsmState) :
    keeps_symbols st.symbol_table (process_extern_directive_parsed parsed st).2.symbol_table := by
  unfold process_extern_directive_parsed
  cases ho : parsed.operand1 with
  | none => exact keeps_symbols_refl _
  | some operand1 =>
    simp only []
    by_cases hv : is_valid_label operand1 = true
    · simp only [hv, not_true_eq_false, if_false]
      cases ha : add_symbol st.symbol_table operand1 0 SymbolAttribute.EXTERNAL_SYMBOL with
      | none => exact keeps_symbols_refl _
      | some table => exact add_symbol_keeps _ _ _ _ _ ha
    · simp only [hv, not_false_eq_true, if_true]
      exact keeps_symbols_refl _

/-- Every directive keeps the symbols already in the table. -/
theorem handle_directive_first_pass_keeps (parsed : ParsedLine) (st st1 : AsmState) (r : Int)
    (h : handle_directive_first_pass parsed st = some (r, st1)) :
    keeps_symbols st.symbol_table st1.symbol_table := by
  unfold handle_directive_first_pass at h
  split_ifs at h
  · rw [process_data_directive_parsed_table _ _ _ _ h]; exact keeps_symbols_refl _
  · rw [process_string_directive_parsed_table _ _ _ _ h]; exact keeps_symbols_refl _
  · rw [process_mat_directive_parsed_table _ _ _ _ h]; exact keeps_symbols_refl _
  · simp only [Option.some.injEq] at h
    have := process_extern_directive_parsed_keeps parsed st
    rw [h] at this
    exact this
  · simp only [Option.some.injEq, Prod.mk.injEq] at h; rw [← h.2]; exact keeps_symbols_refl _
  · simp only [Option.some.injEq, Prod.mk.injEq] at h; rw [← h.2]; exact keeps_symbols_refl _

/-- Operand validation leaves the symbol table unchanged. -/
theorem validate_instruction_operands_table (opcode : Int) (src dest : Option String)
    (st : AsmState) :
    (validate_instruction_operands opcode src dest st).2.symbol_table = st.symbol_table := by
  unfold validate_instruction_operands
  simp only []
  split_ifs <;> rfl

/-- Instruction processing in the first pass leaves the symbol table
unchanged. -/
theorem process_instruction_parsed_table (parsed : ParsedLine) (st : AsmState) :
    (process_instruction_parsed parsed st).2.symbol_table = st.symbol_table := by
  unfold process_instruction_parsed
  cases hc : parsed.command with
  | none => rfl
  | some command =>
    simp only []
    by_cases h1 : get_instruction_opcode command = -1
    · simp only [h1, if_true]; rfl
    · simp only [h1, if_false]
      by_cases h2 : actual_operands parsed ≠
          count_operands_for_instruction (get_instruction_opcode command)
      · rw [if_pos h2]; rfl
      · rw [if_neg h2]
        split
        · next st1 heq =>
          have := congrArg (fun p : Bool × AsmState => p.2.symbol_table) heq
          simp only [validate_instruction_operands_table] at this
          exact this.symm
        · next st1 heq =>
          have := congrArg (fun p : Bool × AsmState => p.2.symbol_table) heq
          simp only [validate_instruction_operands_table] at this
          exact this.symm

/-- Label handling keeps every symbol already in the table. -/
theorem handle_label_definition_keeps (parsed : ParsedLine) (st : AsmState) :
    keeps_symbols st.symbol_table (handle_label_definition parsed st).2.symbol_table := by
  unfold handle_label_definition
  simp only []
  by_cases h1 : ¬ is_valid_label (parsed.label.getD "") = true
  · rw [if_pos h1]; exact keeps_symbols_refl _
  · rw [if_neg h1]
    by_cases h2 : (find_symbol st.symbol_table (parsed.label.getD "")).isSome = true
    · rw [if_pos h2]; exact keeps_symbols_refl _
    · rw [if_neg h2]
      by_cases h3 : parsed.is_directive = true ∧ parsed.command ≠ some ".extern"
      · rw [if_pos h3]
        cases ha : add_symbol st.symbol_table (parsed.label.getD "") st.DC
            SymbolAttribute.DATA_SYMBOL with
        | none => exact keeps_symbols_refl _
        | some table => exact add_symbol_keeps _ _ _ _ _ ha
      · rw [if_neg h3]
        by_cases h4 : ¬ parsed.is_directive = true
        · rw [if_pos h4]
          cases ha : add_symbol st.symbol_table (parsed.label.getD "") st.IC
              SymbolAttribute.CODE_SYMBOL with
          | none => exact keeps_symbols_refl _
          | some table => exact add_symbol_keeps _ _ _ _ _ ha
        · rw [if_neg h4]; exact keeps_symbols_refl _

/-- A valid label that is not yet defined is pushed on the table: as DATA at
DC on a directive other than `.extern`, as CODE at IC on an instruction. -/
theorem handle_label_definition_new (parsed : ParsedLine) (st : AsmState) (l : String)
    (hlabel : parsed.label = some l) (hvalid : is_valid_label l = true)
    (hnew : find_symbol st.symbol_table l = none)
    (hkind : parsed.is_directive = false ∨ parsed.command ≠ some ".extern") :
    handle_label_definition parsed st =
      (true, { st with symbol_table :=
        { name := l,
          address := if parsed.is_directive then st.DC else st.IC,
          attr := if parsed.is_directive then SymbolAttribute.DATA_SYMBOL
                  else SymbolAttribute.CODE_SYMBOL } :: st.symbol_table }) := by
  unfold handle_label_definition
  simp only [hlabel, Option.getD_some, hvalid, not_true_eq_false, if_false, hnew,
    Option.isSome_none, Bool.false_eq_true, add_symbol]
  cases hd : parsed.is_directive with
  | false => simp
  | true =>
    rcases hkind with h | h
    · rw [hd] at h; cases h
    · simp [h]

/-- A line of the first pass keeps every symbol already in the table. -/
theorem process_line_first_pass_keeps (line : String) (st st1 : AsmState) (r : Bool)
    (h : process_line_first_pass line st = some (r, st1)) :
    keeps_symbols st.symbol_table st1.symbol_table := by
  unfold process_line_first_pass at h
  cases hp : parse_line line with
  | none => rw [hp] at h; cases h
  | some parsed =>
    rw [hp] at h
    simp only [] at h
    by_cases he : parsed.is_empty = true
    · rw [if_pos he] at h
      simp only [Option.some.injEq, Prod.mk.injEq] at h
      rw [← h.2]; exact keeps_symbols_refl _
    · rw [if_neg he] at h
      by_cases hr : parsed.is_error = true
      · rw [if_pos hr] at h
        simp only [Option.some.injEq, Prod.mk.injEq] at h
        rw [← h.2]; exact keeps_symbols_refl _
      · rw [if_neg hr] at h
        have hk : keeps_symbols st.symbol_table
            (if parsed.label.isSome = true then handle_label_definition parsed st
              else (true, st)).2.symbol_table := by
          split_ifs
          · exact handle_label_definition_keeps parsed st
          · exact keeps_symbols_refl _
        revert h hk
        generalize (if parsed.label.isSome = true then handle_label_definition parsed st
          else (true, st)) = res
        obtain ⟨b, st2⟩ := res
        intro h hk
        cases b
        · simp only [Option.some.injEq, Prod.mk.injEq] at h
          rw [← h.2]; exact hk
        · simp only [] at h
          by_cases hd : parsed.is_directive = true
          · rw [if_pos hd] at h
            cases hh : handle_directive_first_pass parsed st2 with
            | none => rw [hh] at h; cases h
            | some res2 =>
              obtain ⟨result, st3⟩ := res2
              rw [hh] at h
              simp only [Option.some.injEq, Prod.mk.injEq] at h
              have h3 := handle_directive_first_pass_keeps _ _ _ _ hh
              rw [← h.2]
              split_ifs <;> exact keeps_symbols_trans hk h3
          · rw [if_neg hd] at h
            simp only [handle_instruction_first_pass] at h
            have h3 := process_instruction_parsed_table parsed st2
            simp only [Option.some.injEq, Prod.mk.injEq] at h
            rw [← h.2]
            have h4 : (if (process_instruction_parsed parsed st2).1 > 0 then
                  { (process_instruction_parsed parsed st2).2 with
                    IC := (process_instruction_parsed parsed st2).2.IC
                      + (process_instruction_parsed parsed st2).1 }
                else (process_instruction_parsed parsed st2).2).symbol_table
                  = st2.symbol_table := by
              split_ifs <;> exact h3
            rw [h4]; exact hk

/-- The reading loop of the first pass keeps every symbol already in the
table. -/
theorem first_pass_loop_keeps (lines : List InputLine) (st st1 : AsmState)
    (h : first_pass_loop lines st = some st1) :
    keeps_symbols st.symbol_table st1.symbol_table := by
  induction lines generalizing st with
  | nil =>
    simp only [first_pass_loop, Option.some.injEq] at h
    rw [← h]; exact keeps_symbols_refl _
  | cons x rest ih =>
    cases x with
    | too_long =>
      simp only [first_pass_loop] at h
      exact ih (print_error st "Line is longer than 80 characters") h
    | text line =>
      simp only [first_pass_loop] at h
      by_cases hs : is_empty_line line.data = true ∨ is_comment_line line.data = true
      · rw [if_pos hs] at h
        exact ih st h
      · rw [if_neg hs] at h
        cases hp : process_line_first_pass line st with
        | none => rw [hp] at h; cases h
        | some res =>
          obtain ⟨r, st2⟩ := res
          rw [hp] at h
          exact keeps_symbols_trans (process_line_first_pass_keeps _ _ _ _ hp) (ih _ h)

/-- The reading loop over a concatenation runs the two parts in sequence. -/
theorem first_pass_loop_append (pre post : List InputLine) (st : AsmState) :
    first_pass_loop (pre ++ post) st =
      match first_pass_loop pre st with
      | none => none
      | some st1 => first_pass_loop post st1 := by
  induction pre generalizing st with
  | nil => rfl
  | cons x rest ih =>
    cases x with
    | too_long => simp only [List.cons_append, first_pass_loop]; exact ih _
    | text line =>
      simp only [List.cons_append, first_pass_loop]
      by_cases hs : is_empty_line line.data = true ∨ is_comment_line line.data = true
      · rw [if_pos hs, if_pos hs]; exact ih _
      · rw [if_neg hs, if_neg hs]
        cases hp : process_line_first_pass line st with
        | none => rfl
        | some res => exact ih _

/-- Relocation commutes with the search: the node found is the relocated
node. -/
theorem find_symbol_update_data_symbols (head : List SymbolNode) (icf : Int) (n : String) :
    find_symbol (update_data_symbols head icf) n =
      (find_symbol head n).map (fun s =>
        if s.attr = SymbolAttribute.DATA_SYMBOL then { s with address := s.address + icf }
        else s) := by
  induction head with
  | nil => rfl
  | cons current next ih =>
    unfold update_data_symbols at ih ⊢
    simp only [List.map_cons, find_symbol]
    by_cases hd : current.attr = SymbolAttribute.DATA_SYMBOL
    · by_cases hn : current.name = n
      · simp [hd, hn]
      · simp only [hd, if_true, hn, if_false]; exact ih
    · by_cases hn : current.name = n
      · simp [hd, hn]
      · simp only [hd, if_false, hn]; exact ih

/-- After a line with a valid new label the label is found with the address
and attribute it was given. -/
theorem process_line_first_pass_defines (line : String) (parsed : ParsedLine) (l : String)
    (st st1 : AsmState) (r : Bool)
    (hparse : parse_line line = some parsed)
    (hempty : parsed.is_empty = false) (herror : parsed.is_error = false)
    (hlabel : parsed.label = some l) (hvalid : is_valid_label l = true)
    (hnew : find_symbol st.symbol_table l = none)
    (hkind : parsed.is_directive = false ∨ parsed.command ≠ some ".extern")
    (h : process_line_first_pass line st = some (r, st1)) :
    find_symbol st1.symbol_table l =
      some { name := l,
             address := if parsed.is_directive then st.DC else st.IC,
             attr := if parsed.is_directive then SymbolAttribute.DATA_SYMBOL
                     else SymbolAttribute.CODE_SYMBOL } := by
  have hk := process_line_first_pass_keeps line st st1 r
  unfold process_line_first_pass at h
  rw [hparse] at h
  simp only [hempty, herror, Bool.false_eq_true, if_false, hlabel, Option.isSome_some, if_true,
    handle_label_definition_new parsed st l hlabel hvalid hnew hkind] at h
  have hfind : find_symbol
      ({ name := l,
         address := if parsed.is_directive then st.DC else st.IC,
         attr := if parsed.is_directive then SymbolAttribute.DATA_SYMBOL
                 else SymbolAttribute.CODE_SYMBOL } :: st.symbol_table) l =
      some { name := l,
             address := if parsed.is_directive then st.DC else st.IC,
             attr := if parsed.is_directive then SymbolAttribute.DATA_SYMBOL
                     else SymbolAttribute.CODE_SYMBOL } := by
    simp [find_symbol]
  by_cases hd : parsed.is_directive = true
  · rw [if_pos hd] at h
    cases hh : handle_directive_first_pass parsed
        { st with symbol_table :=
            { name := l,
              address := if parsed.is_directive then st.DC else st.IC,
              attr := if parsed.is_directive then SymbolAttribute.DATA_SYMBOL
                      else SymbolAttribute.CODE_SYMBOL } :: st.symbol_table } with
    | none => rw [hh] at h; cases h
    | some res2 =>
      obtain ⟨result, st3⟩ := res2
      rw [hh] at h
      simp only [Option.some.injEq, Prod.mk.injEq] at h
      have h3 := handle_directive_first_pass_keeps _ _ _ _ hh
      have h5 := h3 _ _ hfind
      rw [← h.2]
      have h6 : (if result > 0 then { st3 with DC := st3.DC + result }
          else st3).symbol_table = st3.symbol_table := by
        split_ifs <;> rfl
      rw [h6]; exact h5
  · rw [if_neg hd] at h
    simp only [handle_instruction_first_pass, Option.some.injEq, Prod.mk.injEq] at h
    rw [← h.2]
    have h3 := process_instruction_parsed_table parsed
        { st with symbol_table :=
            { name := l,
              address := if parsed.is_directive then st.DC else st.IC,
              attr := if parsed.is_directive then SymbolAttribute.DATA_SYMBOL
                      else SymbolAttribute.CODE_SYMBOL } :: st.symbol_table }
    generalize process_instruction_parsed parsed
        { st with symbol_table :=
            { name := l,
              address := if parsed.is_directive then st.DC else st.IC,
              attr := if parsed.is_directive then SymbolAttribute.DATA_SYMBOL
                      else SymbolAttribute.CODE_SYMBOL } :: st.symbol_table } = res at h3 ⊢
    have h6 : (if res.1 > 0 then { res.2 with IC := res.2.IC + res.1 }
        else res.2).symbol_table = res.2.symbol_table := by
      split_ifs <;> rfl
    rw [h6, h3]; exact hfind

/-- The externals loop writes one line per record, in list order. -/
theorem externals_lines_eq_map (l : List ExternalUsage) :
    externals_lines l =
      l.map (fun r => output_line r.symbol_name (to_base4 (to_unsigned r.address))) := by
  induction l with
  | nil => rfl
  | cons r rest ih => rw [externals_lines, ih]; rfl

/-- Successful insertions leave the inserted symbols on the head of the
table, last inserted first. -/
theorem add_symbols_reverse (head syms table : List SymbolNode)
    (h : add_symbols head syms = some table) : table = syms.reverse ++ head := by
  induction syms generalizing head with
  | nil => simp only [add_symbols, Option.some.injEq] at h; simp [h]
  | cons s rest ih =>
    unfold add_symbols at h
    cases ha : add_symbol head s.name s.address s.attr with
    | none => rw [ha] at h; cases h
    | some head1 =>
      rw [ha] at h
      have h1 := ih head1 h
      unfold add_symbol at ha
      cases hf : find_symbol head s.name with
      | some x => rw [hf] at ha; cases ha
      | none =>
        rw [hf] at ha
        simp only [Option.some.injEq] at ha
        rw [h1, ← ha]
        simp

/-- The entries loop writes one line per ENTRY symbol, in table order. -/
theorem entries_lines_eq_filter (l : List SymbolNode) :
    entries_lines l =
      (l.filter (fun s => decide (s.attr = SymbolAttribute.ENTRY_SYMBOL))).map
        (fun s => output_line s.name (to_base4 (to_unsigned s.address))) := by
  induction l with
  | nil => rfl
  | cons s rest ih =>
    unfold entries_lines
    by_cases h : s.attr = SymbolAttribute.ENTRY_SYMBOL
    · simp [h, ih]
    · simp [h, ih]

/-- The table has an entry symbol exactly when the ENTRY filter is not
empty. -/
theorem has_entry_symbols_eq (l : List SymbolNode) :
    has_entry_symbols l = true ↔
      l.filter (fun s => decide (s.attr = SymbolAttribute.ENTRY_SYMBOL)) ≠ [] := by
  induction l with
  | nil => simp [has_entry_symbols]
  | cons s rest ih =>
    unfold has_entry_symbols
    by_cases h : s.attr = SymbolAttribute.ENTRY_SYMBOL
    · simp [h]
    · simp [h, ih]

/-- Decoding the letters of `to_base4` gives back the number modulo 1024. -/
theorem from_base4_to_base4 (k : Nat) : from_base4 (to_base4 k).data = k % 1024 := by
  rw [to_base4_data]
  simp only [from_base4, List.foldl]
  rw [base4_value_digit _ (Nat.mod_lt _ (by norm_num)),
    base4_value_digit _ (Nat.mod_lt _ (by norm_num)),
    base4_value_digit _ (Nat.mod_lt _ (by norm_num)),
    base4_value_digit _ (Nat.mod_lt _ (by norm_num)),
    base4_value_digit _ (Nat.mod_lt _ (by norm_num))]
  omega

/-- A name is not found exactly when no node of the table carries it. -/
theorem find_symbol_none_iff (head : List SymbolNode) (n : String) :
    find_symbol head n = none ↔ n ∉ head.map (fun s => s.name) := by
  induction head with
  | nil => simp [find_symbol]
  | cons current next ih =>
    unfold find_symbol
    by_cases h : current.name = n
    · simp [h]
    · simp only [h, if_false, List.map_cons, List.mem_cons, ih]
      constructor
      · intro hm hc
        rcases hc with hc | hc
        · exact h hc.symm
        · exact hm hc
      · intro hm hc
        exact hm (Or.inr hc)

/-- A successful `add_symbol` keeps the names of the table pairwise distinct. -/
theorem add_symbol_nodup (head table : List SymbolNode) (name : String) (address : Int)
    (attr : SymbolAttribute) (h : add_symbol head name address attr = some table)
    (hn : (head.map (fun s => s.name)).Nodup) :
    (table.map (fun s => s.name)).Nodup := by
  unfold add_symbol at h
  cases hf : find_symbol head name with
  | some x => rw [hf] at h; cases h
  | none =>
    rw [hf] at h
    simp only [Option.some.injEq] at h
    rw [← h]
    simp only [List.map_cons, List.nodup_cons]
    exact ⟨(find_symbol_none_iff head name).mp hf, hn⟩

/-- Successive successful insertions keep the names pairwise distinct. -/
theorem add_symbols_nodup (head syms table : List SymbolNode)
    (h : add_symbols head syms = some table)
    (hn : (head.map (fun s => s.name)).Nodup) :
    (table.map (fun s => s.name)).Nodup := by
  induction syms generalizing head with
  | nil => simp only [add_symbols, Option.some.injEq] at h; rw [← h]; exact hn
  | cons s rest ih =>
    unfold add_symbols at h
    cases ha : add_symbol head s.name s.address s.attr with
    | none => rw [ha] at h; cases h
    | some head1 =>
      rw [ha] at h
      exact ih head1 h (add_symbol_nodup _ _ _ _ _ ha hn)

/-- Marking an entry rewrites the attribute of the node that `find_symbol`
returns and nothing else. -/
theorem set_entry_attribute_split (head : List SymbolNode) (name : String) (s : SymbolNode)
    (h : find_symbol head name = some s) :
    ∃ pre post, head = pre ++ s :: post ∧ (∀ x ∈ pre, x.name ≠ name) ∧ s.name = name
      ∧ set_entry_attribute head name =
          pre ++ { s with attr := SymbolAttribute.ENTRY_SYMBOL } :: post := by
  induction head with
  | nil => simp [find_symbol] at h
  | cons current next ih =>
    unfold find_symbol at h
    by_cases hc : current.name = name
    · simp only [hc, if_true, Option.some.injEq] at h
      subst h
      refine ⟨[], next, rfl, by simp, hc, ?_⟩
      simp [set_entry_attribute, hc]
    · simp only [hc, if_false] at h
      obtain ⟨pre, post, h1, h2, h3, h4⟩ := ih h
      refine ⟨current :: pre, post, by rw [h1]; rfl, ?_, h3, ?_⟩
      · intro x hx
        rcases List.mem_cons.mp hx with hx | hx
        · rw [hx]; exact hc
        · exact h2 x hx
      · simp [set_entry_attribute, hc, h4]

/-- The search skips a prefix that does not hold the name. -/
theorem find_symbol_append_skip (pre rest : List SymbolNode) (n : String)
    (h : ∀ x ∈ pre, x.name ≠ n) : find_symbol (pre ++ rest) n = find_symbol rest n := by
  induction pre with
  | nil => rfl
  | cons x xs ih =>
    have hx : ¬ x.name = n := h x (List.mem_cons_self _ _)
    simp only [List.cons_append, find_symbol, hx, if_false]
    exact ih (fun y hy => h y (List.mem_cons_of_mem _ hy))

/-- Searches that agree on two tables agree behind a common prefix. -/
theorem find_symbol_append_congr (pre r1 r2 : List SymbolNode) (n : String)
    (h : find_symbol r1 n = find_symbol r2 n) :
    find_symbol (pre ++ r1) n = find_symbol (pre ++ r2) n := by
  induction pre with
  | nil => exact h
  | cons x xs ih =>
    simp only [List.cons_append, find_symbol]
    split_ifs
    · rfl
    · exact ih

/-- Adding a valid name keeps all names valid. -/
theorem add_symbol_valid (head table : List SymbolNode) (name : String) (address : Int)
    (attr : SymbolAttribute) (h : add_symbol head name address attr = some table)
    (hv : is_valid_label name = true) (hn : valid_names head) : valid_names table := by
  unfold add_symbol at h
  cases hf : find_symbol head name with
  | some x => rw [hf] at h; cases h
  | none =>
    rw [hf] at h
    simp only [Option.some.injEq] at h
    rw [← h]
    intro s hs
    rcases List.mem_cons.mp hs with hs | hs
    · rw [hs]; exact hv
    · exact hn s hs

/-- Label handling keeps all names valid. -/
theorem handle_label_definition_valid (parsed : ParsedLine) (st : AsmState)
    (hn : valid_names st.symbol_table) :
    valid_names (handle_label_definition parsed st).2.symbol_table := by
  unfold handle_label_definition
  simp only []
  by_cases h1 : ¬ is_valid_label (parsed.label.getD "") = true
  · rw [if_pos h1]; exact hn
  · rw [if_neg h1]
    have hv : is_valid_label (parsed.label.getD "") = true := not_not.mp h1
    by_cases h2 : (find_symbol st.symbol_table (parsed.label.getD "")).isSome = true
    · rw [if_pos h2]; exact hn
    · rw [if_neg h2]
      by_cases h3 : parsed.is_directive = true ∧ parsed.command ≠ some ".extern"
      · rw [if_pos h3]
        cases ha : add_symbol st.symbol_table (parsed.label.getD "") st.DC
            SymbolAttribute.DATA_SYMBOL with
        | none => exact hn
        | some table => exact add_symbol_valid _ _ _ _ _ ha hv hn
      · rw [if_neg h3]
        by_cases h4 : ¬ parsed.is_directive = true
        · rw [if_pos h4]
          cases ha : add_symbol st.symbol_table (parsed.label.getD "") st.IC
              SymbolAttribute.CODE_SYMBOL with
          | none => exact hn
          | some table => exact add_symbol_valid _ _ _ _ _ ha hv hn
        · rw [if_neg h4]; exact hn

/-- The `.extern` directive keeps all names valid. -/
theorem process_extern_directive_parsed_valid (parsed : ParsedLine) (st : AsmState)
    (hn : valid_names st.symbol_table) :
    valid_names (process_extern_directive_parsed parsed st).2.symbol_table := by
  unfold process_extern_directive_parsed
  cases ho : parsed.operand1 with
  | none => exact hn
  | some operand1 =>
    simp only []
    by_cases hv : is_valid_label operand1 = true
    · simp only [hv, not_true_eq_false, if_false]
      cases ha : add_symbol st.symbol_table operand1 0 SymbolAttribute.EXTERNAL_SYMBOL with
      | none => exact hn
      | some table => exact add_symbol_valid _ _ _ _ _ ha hv hn
    · simp only [hv, not_false_eq_true, if_true]
      exact hn

/-- Every directive keeps all names valid. -/
theorem handle_directive_first_pass_valid (parsed : ParsedLine) (st st1 : AsmState) (r : Int)
    (h : handle_directive_first_pass parsed st = some (r, st1))
    (hn : valid_names st.symbol_table) : valid_names st1.symbol_table := by
  unfold handle_directive_first_pass at h
  split_ifs at h
  · rw [process_data_directive_parsed_table _ _ _ _ h]; exact hn
  · rw [process_string_directive_parsed_table _ _ _ _ h]; exact hn
  · rw [process_mat_directive_parsed_table _ _ _ _ h]; exact hn
  · simp only [Option.some.injEq] at h
    have := process_extern_directive_parsed_valid parsed st hn
    rw [h] at this
    exact this
  · simp only [Option.some.injEq, Prod.mk.injEq] at h; rw [← h.2]; exact hn
  · simp only [Option.some.injEq, Prod.mk.injEq] at h; rw [← h.2]; exact hn

/-- A line of the first pass keeps all names valid. -/
theorem process_line_first_pass_valid (line : String) (st st1 : AsmState) (r : Bool)
    (h : process_line_first_pass line st = some (r, st1))
    (hn : valid_names st.symbol_table) : valid_names st1.symbol_table := by
  unfold process_line_first_pass at h
  cases hp : parse_line line with
  | none => rw [hp] at h; cases h
  | some parsed =>
    rw [hp] at h
    simp only [] at h
    by_cases he : parsed.is_empty = true
    · rw [if_pos he] at h
      simp only [Option.some.injEq, Prod.mk.injEq] at h
      rw [← h.2]; exact hn
    · rw [if_neg he] at h
      by_cases hr : parsed.is_error = true
      · rw [if_pos hr] at h
        simp only [Option.some.injEq, Prod.mk.injEq] at h
        rw [← h.2]; exact hn
      · rw [if_neg hr] at h
        have hk : valid_names
            (if parsed.label.isSome = true then handle_label_definition parsed st
              else (true, st)).2.symbol_table := by
          split_ifs
          · exact handle_label_definition_valid parsed st hn
          · exact hn
        revert h hk
        generalize (if parsed.label.isSome = true then handle_label_definition parsed st
          else (true, st)) = res
        obtain ⟨b, st2⟩ := res
        intro h hk
        cases b
        · simp only [Option.some.injEq, Prod.mk.injEq] at h
          rw [← h.2]; exact hk
        · simp only [] at h
          by_cases hd : parsed.is_directive = true
          · rw [if_pos hd] at h
            cases hh : handle_directive_first_pass parsed st2 with
            | none => rw [hh] at h; cases h
            | some res2 =>
              obtain ⟨result, st3⟩ := res2
              rw [hh] at h
              simp only [Option.some.injEq, Prod.mk.injEq] at h
              have h3 := handle_directive_first_pass_valid _ _ _ _ hh hk
              rw [← h.2]
              have h6 : (if result > 0 then { st3 with DC := st3.DC + result }
                  else st3).symbol_table = st3.symbol_table := by
                split_ifs <;> rfl
              rw [h6]; exact h3
          · rw [if_neg hd] at h
            simp only [handle_instruction_first_pass] at h
            have h3 := process_instruction_parsed_table parsed st2
            simp only [Option.some.injEq, Prod.mk.injEq] at h
            rw [← h.2]
            have h4 : (if (process_instruction_parsed parsed st2).1 > 0 then
                  { (process_instruction_parsed parsed st2).2 with
                    IC := (process_instruction_parsed parsed st2).2.IC
                      + (process_instruction_parsed parsed st2).1 }
                else (process_instruction_parsed parsed st2).2).symbol_table
                  = st2.symbol_table := by
              split_ifs <;> exact h3
            rw [h4]; exact hk

/-- The reading loop of the first pass keeps all names valid. -/
theorem first_pass_loop_valid (lines : List InputLine) (st st1 : AsmState)
    (h : first_pass_loop lines st = some st1)
    (hn : valid_names st.symbol_table) : valid_names st1.symbol_table := by
  induction lines generalizing st with
  | nil =>
    simp only [first_pass_loop, Option.some.injEq] at h
    rw [← h]; exact hn
  | cons x rest ih =>
    cases x with
    | too_long =>
      simp only [first_pass_loop] at h
      exact ih (print_error st "Line is longer than 80 characters") h hn
    | text line =>
      simp only [first_pass_loop] at h
      by_cases hs : is_empty_line line.data = true ∨ is_comment_line line.data = true
      · rw [if_pos hs] at h
        exact ih st h hn
      · rw [if_neg hs] at h
        cases hp : process_line_first_pass line st with
        | none => rw [hp] at h; cases h
        | some res =>
          obtain ⟨r, st2⟩ := res
          rw [hp] at h
          exact ih st2 h (process_line_first_pass_valid _ _ _ _ hp hn)

/-- Relocation keeps all names valid. -/
theorem update_data_symbols_valid (head : List SymbolNode) (icf : Int)
    (hn : valid_names head) : valid_names (update_data_symbols head icf) := by
  intro s hs
  unfold update_data_symbols at hs
  obtain ⟨x, hx, hxs⟩ := List.mem_map.mp hs
  have := hn x hx
  rw [← hxs]
  split_ifs <;> exact this

/-- A word is reserved exactly when it is in one of the three tables. -/
theorem is_reserved_word_iff (word : String) :
    is_reserved_word word = true ↔
      word ∈ reserved_instructions ++ reserved_directives ++ reserved_registers := by
  have h1 := table_index_eq_neg_one reserved_instructions word 0 (le_refl 0)
  have h2 := table_index_eq_neg_one reserved_directives word 0 (le_refl 0)
  have h3 := table_index_eq_neg_one reserved_registers word 0 (le_refl 0)
  unfold is_reserved_word
  simp only [List.mem_append]
  by_cases a : word ∈ reserved_instructions
  · have : table_index reserved_instructions word 0 ≠ -1 := fun h => (h1.mp h) a
    simp [this, a]
  · have ha : table_index reserved_instructions word 0 = -1 := h1.mpr a
    by_cases b : word ∈ reserved_directives
    · have : table_index reserved_directives word 0 ≠ -1 := fun h => (h2.mp h) b
      simp [ha, this, b]
    · have hb : table_index reserved_directives word 0 = -1 := h2.mpr b
      by_cases c : word ∈ reserved_registers
      · have : table_index reserved_registers word 0 ≠ -1 := fun h => (h3.mp h) c
        simp [ha, hb, this, c]
      · have hc : table_index reserved_registers word 0 = -1 := h3.mpr c
        simp [ha, hb, hc, a, b, c]

/-- A valid label is not a reserved word. -/
theorem is_valid_label_not_reserved (name : String) (h : is_valid_label name = true) :
    is_reserved_word name = false := by
  unfold is_valid_label at h
  split_ifs at h
  simpa using h

/-- A store in the data image keeps a raised error flag. -/
theorem store_data_error (st st1 : AsmState) (index : Int) (word : Nat)
    (h : store_data st index word = some st1) (he : st.error_flag = 1) :
    st1.error_flag = 1 := by
  rw [(store_data_table _ _ _ _ h).2.2.2]; exact he

/-- Storing the characters of a string keeps a raised error flag. -/
theorem store_string_chars_error (chars : List Char) (i : Int) (st st1 : AsmState)
    (h : store_string_chars chars i st = some st1) (he : st.error_flag = 1) :
    st1.error_flag = 1 := by
  induction chars generalizing i st with
  | nil => simp only [store_string_chars, Option.some.injEq] at h; rw [← h]; exact he
  | cons c rest ih =>
    unfold store_string_chars at h
    cases hs : store_data st (st.DC + i) (char_to_unsigned c) with
    | none => rw [hs] at h; cases h
    | some st2 =>
      rw [hs] at h
      exact ih _ _ h (store_data_error _ _ _ _ hs he)

/-- The string directive body keeps a raised error flag. -/
theorem store_string_data_error (s : List Char) (st st1 : AsmState) (r : Int)
    (h : store_string_data s st = some (r, st1)) (he : st.error_flag = 1) :
    st1.error_flag = 1 := by
  unfold store_string_data at h
  simp only [] at h
  split_ifs at h
  · simp only [Option.some.injEq, Prod.mk.injEq] at h; rw [← h.2]; rfl
  · simp only [Option.some.injEq, Prod.mk.injEq] at h; rw [← h.2]; rfl
  · cases hc : store_string_chars (List.take ((s.length : Int) - 2).toNat (List.drop 1 s)) 0 st with
    | none => rw [hc] at h; cases h
    | some st2 =>
      rw [hc] at h
      simp only [] at h
      cases hd : store_data st2 (st2.DC + ((s.length : Int) - 2)) 0 with
      | none => rw [hd] at h; cases h
      | some st3 =>
        rw [hd] at h
        simp only [Option.some.injEq, Prod.mk.injEq] at h
        rw [← h.2]
        exact store_data_error _ _ _ _ hd (store_string_chars_error _ _ _ _ hc he)

/-- The value loop of `.data` keeps a raised error flag. -/
theorem data_values_loop_error (tokens : List (List Char)) (count : Int) (st st1 : AsmState)
    (r : Int) (h : data_values_loop tokens count st = some (r, st1))
    (he : st.error_flag = 1) : st1.error_flag = 1 := by
  induction tokens generalizing count st with
  | nil =>
    simp only [data_values_loop, Option.some.injEq, Prod.mk.injEq] at h; rw [← h.2]; exact he
  | cons token rest ih =>
    unfold data_values_loop at h
    cases hv : is_valid_integer (trim_whitespace token) with
    | none =>
      rw [hv] at h
      simp only [Option.some.injEq, Prod.mk.injEq] at h; rw [← h.2]; rfl
    | some value =>
      rw [hv] at h
      simp only [] at h
      by_cases hm : st.DC + count ≥ MEMORY_SIZE
      · rw [if_pos hm] at h
        simp only [Option.some.injEq, Prod.mk.injEq] at h; rw [← h.2]; rfl
      · rw [if_neg hm] at h
        cases hs : store_data st (st.DC + count) (maskBits value 10) with
        | none => rw [hs] at h; cases h
        | some st2 =>
          rw [hs] at h
          exact ih _ _ h (store_data_error _ _ _ _ hs he)

/-- The value loop of `.mat` keeps a raised error flag. -/
theorem mat_values_loop_error (tokens : List (List Char)) (expected count : Int)
    (st st1 : AsmState) (r : Int)
    (h : mat_values_loop tokens expected count st = some (r, st1))
    (he : st.error_flag = 1) : st1.error_flag = 1 := by
  induction tokens generalizing count st with
  | nil =>
    simp only [mat_values_loop, Option.some.injEq, Prod.mk.injEq] at h; rw [← h.2]; exact he
  | cons token rest ih =>
    unfold mat_values_loop at h
    by_cases hc : count < expected
    · simp only [hc, not_true_eq_false, if_false] at h
      cases hv : is_valid_integer (trim_whitespace token) with
      | none =>
        rw [hv] at h
        simp only [Option.some.injEq, Prod.mk.injEq] at h; rw [← h.2]; rfl
      | some value =>
        rw [hv] at h
        simp only [] at h
        by_cases hm : st.DC + count ≥ MEMORY_SIZE
        · simp only [hm, if_true, Option.some.injEq, Prod.mk.injEq] at h; rw [← h.2]; rfl
        · simp only [hm, if_false] at h
          cases hs : store_data st (st.DC + count) (maskBits value 10) with
          | none => rw [hs] at h; cases h
          | some st2 =>
            rw [hs] at h
            exact ih _ _ h (store_data_error _ _ _ _ hs he)
    · simp only [hc, not_false_eq_true, if_true, Option.some.injEq, Prod.mk.injEq] at h
      rw [← h.2]; exact he

/-- Every directive keeps a raised error flag. -/
theorem handle_directive_first_pass_error (parsed : ParsedLine) (st st1 : AsmState) (r : Int)
    (h : handle_directive_first_pass parsed st = some (r, st1))
    (he : st.error_flag = 1) : st1.error_flag = 1 := by
  unfold handle_directive_first_pass at h
  split_ifs at h
  · unfold process_data_directive_parsed at h
    cases ho : parsed.operand1 with
    | none =>
      rw [ho] at h
      simp only [Option.some.injEq, Prod.mk.injEq] at h; rw [← h.2]; rfl
    | some operand1 =>
      rw [ho] at h
      exact data_values_loop_error _ _ _ _ _ h he
  · unfold process_string_directive_parsed at h
    cases ho : parsed.operand1 with
    | none =>
      rw [ho] at h
      simp only [Option.some.injEq, Prod.mk.injEq] at h; rw [← h.2]; rfl
    | some operand1 =>
      rw [ho] at h
      exact store_string_data_error _ _ _ _ h he
  · unfold process_mat_directive_parsed at h
    cases ho : parsed.operand1 with
    | none =>
      rw [ho] at h
      simp only [Option.some.injEq, Prod.mk.injEq] at h; rw [← h.2]; rfl
    | some operand1 =>
      rw [ho] at h
      simp only [] at h
      cases hd : parse_matrix_dimensions operand1.data with
      | none =>
        rw [hd] at h
        simp only [Option.some.injEq, Prod.mk.injEq] at h; rw [← h.2]; rfl
      | some dims =>
        obtain ⟨rows, cols⟩ := dims
        rw [hd] at h
        simp only [] at h
        cases h2 : parsed.operand2 with
        | none =>
          rw [h2] at h
          simp only [Option.some.injEq, Prod.mk.injEq] at h; rw [← h.2]; rfl
        | some operand2 =>
          rw [h2] at h
          simp only [] at h
          cases hl : mat_values_loop (strtok_all (fun c => decide (c = ',')) [] operand2.data)
              (rows * cols) 0 st with
          | none => rw [hl] at h; cases h
          | some res =>
            obtain ⟨count, st2⟩ := res
            rw [hl] at h
            simp only [] at h
            have ht := mat_values_loop_error _ _ _ _ _ _ hl he
            split_ifs at h <;>
              (simp only [Option.some.injEq, Prod.mk.injEq] at h; rw [← h.2]) <;>
              first | exact ht | rfl
  · simp only [Option.some.injEq] at h
    have key : (process_extern_directive_parsed parsed st).2.error_flag = 1 := by
      unfold process_extern_directive_parsed
      cases ho : parsed.operand1 with
      | none => rfl
      | some operand1 =>
        simp only []
        by_cases hv : is_valid_label operand1 = true
        · simp only [hv, not_true_eq_false, if_false]
          cases ha : add_symbol st.symbol_table operand1 0 SymbolAttribute.EXTERNAL_SYMBOL with
          | none => rfl
          | some table => exact he
        · simp only [hv, not_false_eq_true, if_true]
          rfl
    rw [h] at key
    exact key
  · simp only [Option.some.injEq, Prod.mk.injEq] at h; rw [← h.2]; exact he
  · simp only [Option.some.injEq, Prod.mk.injEq] at h; rw [← h.2]; rfl

/-- Operand validation keeps a raised error flag. -/
theorem validate_instruction_operands_error (opcode : Int) (src dest : Option String)
    (st : AsmState) (he : st.error_flag = 1) :
    (validate_instruction_operands opcode src dest st).2.error_flag = 1 := by
  unfold validate_instruction_operands
  simp only []
  split_ifs <;> first | rfl | exact he

/-- Instruction processing in the first pass keeps a raised error flag. -/
theorem process_instruction_parsed_error (parsed : ParsedLine) (st : AsmState)
    (he : st.error_flag = 1) : (process_instruction_parsed parsed st).2.error_flag = 1 := by
  unfold process_instruction_parsed
  cases hc : parsed.command with
  | none => rfl
  | some command =>
    simp only []
    by_cases h1 : get_instruction_opcode command = -1
    · simp only [h1, if_true]; rfl
    · simp only [h1, if_false]
      by_cases h2 : actual_operands parsed ≠
          count_operands_for_instruction (get_instruction_opcode command)
      · rw [if_pos h2]; rfl
      · rw [if_neg h2]
        split
        · next st1 heq =>
          have := congrArg (fun p : Bool × AsmState => p.2.error_flag) heq
          simp only [validate_instruction_operands_error _ _ _ _ he] at this
          exact this.symm
        · next st1 heq =>
          have := congrArg (fun p : Bool × AsmState => p.2.error_flag) heq
          simp only [validate_instruction_operands_error _ _ _ _ he] at this
          exact this.symm

/-- Label handling keeps a raised error flag. -/
theorem handle_label_definition_error_kept (parsed : ParsedLine) (st : AsmState)
    (he : st.error_flag = 1) : (handle_label_definition parsed st).2.error_flag = 1 := by
  unfold handle_label_definition
  simp only []
  by_cases h1 : ¬ is_valid_label (parsed.label.getD "") = true
  · rw [if_pos h1]; rfl
  · rw [if_neg h1]
    by_cases h2 : (find_symbol st.symbol_table (parsed.label.getD "")).isSome = true
    · rw [if_pos h2]; rfl
    · rw [if_neg h2]
      by_cases h3 : parsed.is_directive = true ∧ parsed.command ≠ some ".extern"
      · rw [if_pos h3]
        cases ha : add_symbol st.symbol_table (parsed.label.getD "") st.DC
            SymbolAttribute.DATA_SYMBOL with
        | none => rfl
        | some table => exact he
      · rw [if_neg h3]
        by_cases h4 : ¬ parsed.is_directive = true
        · rw [if_pos h4]
          cases ha : add_symbol st.symbol_table (parsed.label.getD "") st.IC
              SymbolAttribute.CODE_SYMBOL with
          | none => rfl
          | some table => exact he
        · rw [if_neg h4]; exact he

/-- A line of the first pass keeps a raised error flag. -/
theorem process_line_first_pass_error (line : String) (st st1 : AsmState) (r : Bool)
    (h : process_line_first_pass line st = some (r, st1))
    (he : st.error_flag = 1) : st1.error_flag = 1 := by
  unfold process_line_first_pass at h
  cases hp : parse_line line with
  | none => rw [hp] at h; cases h
  | some parsed =>
    rw [hp] at h
    simp only [] at h
    by_cases hem : parsed.is_empty = true
    · rw [if_pos hem] at h
      simp only [Option.some.injEq, Prod.mk.injEq] at h
      rw [← h.2]; exact he
    · rw [if_neg hem] at h
      by_cases hr : parsed.is_error = true
      · rw [if_pos hr] at h
        simp only [Option.some.injEq, Prod.mk.injEq] at h
        rw [← h.2]; rfl
      · rw [if_neg hr] at h
        have hk : (if parsed.label.isSome = true then handle_label_definition parsed st
              else (true, st)).2.error_flag = 1 := by
          split_ifs
          · exact handle_label_definition_error_kept parsed st he
          · exact he
        revert h hk
        generalize (if parsed.label.isSome = true then handle_label_definition parsed st
          else (true, st)) = res
        obtain ⟨b, st2⟩ := res
        intro h hk
        cases b
        · simp only [Option.some.injEq, Prod.mk.injEq] at h
          rw [← h.2]; exact hk
        · simp only [] at h
          by_cases hd : parsed.is_directive = true
          · rw [if_pos hd] at h
            cases hh : handle_directive_first_pass parsed st2 with
            | none => rw [hh] at h; cases h
            | some res2 =>
              obtain ⟨result, st3⟩ := res2
              rw [hh] at h
              simp only [Option.some.injEq, Prod.mk.injEq] at h
              have h3 := handle_directive_first_pass_error _ _ _ _ hh hk
              rw [← h.2]
              have h6 : (if result > 0 then { st3 with DC := st3.DC + result }
                  else st3).error_flag = st3.error_flag := by
                split_ifs <;> rfl
              rw [h6]; exact h3
          · rw [if_neg hd] at h
            simp only [handle_instruction_first_pass] at h
            have h3 := process_instruction_parsed_error parsed st2 hk
            simp only [Option.some.injEq, Prod.mk.injEq] at h
            rw [← h.2]
            have h4 : (if (process_instruction_parsed parsed st2).1 > 0 then
                  { (process_instruction_parsed parsed st2).2 with
                    IC := (process_instruction_parsed parsed st2).2.IC
                      + (process_instruction_parsed parsed st2).1 }
                else (process_instruction_parsed parsed st2).2).error_flag = 1 := by
              split_ifs <;> exact h3
            exact h4

/-- The reading loop of the first pass keeps a raised error flag. -/
theorem first_pass_loop_error (lines : List InputLine) (st st1 : AsmState)
    (h : first_pass_loop lines st = some st1)
    (he : st.error_flag = 1) : st1.error_flag = 1 := by
  induction lines generalizing st with
  | nil =>
    simp only [first_pass_loop, Option.some.injEq] at h
    rw [← h]; exact he
  | cons x rest ih =>
    cases x with
    | too_long =>
      simp only [first_pass_loop] at h
      exact ih (print_error st "Line is longer than 80 characters") h rfl
    | text line =>
      simp only [first_pass_loop] at h
      by_cases hs : is_empty_line line.data = true ∨ is_comment_line line.data = true
      · rw [if_pos hs] at h
        exact ih st h he
      · rw [if_neg hs] at h
        cases hp : process_line_first_pass line st with
        | none => rw [hp] at h; cases h
        | some res =>
          obtain ⟨r, st2⟩ := res
          rw [hp] at h
          exact ih st2 h (process_line_first_pass_error _ _ _ _ hp he)

/-- A label that is already in the table is refused with a diagnostic and
the state is otherwise unchanged. -/
theorem handle_label_definition_defined (parsed : ParsedLine) (st : AsmState) (l : String)
    (s : SymbolNode) (hlabel : parsed.label = some l)
    (hdef : find_symbol st.symbol_table l = some s) :
    handle_label_definition parsed st =
      (false, print_error st
        (if is_valid_label l = true then "Label already defined" else "Invalid label name")) := by
  unfold handle_label_definition
  simp only [hlabel, Option.getD_some]
  by_cases hv : is_valid_label l = true
  · simp [hv, hdef]
  · simp [hv]

/-- A store inside the data image succeeds and changes that slot only. -/
theorem store_data_in_bounds (st : AsmState) (index : Int) (word : Nat)
    (h : 0 ≤ index ∧ index < 256) :
    store_data st index word =
      some { st with data_image :=
        fun j => if j = index.toNat then word else st.data_image j } := by
  simp [store_data, store_word, MEMORY_SIZE, h]

/-- Inside the data image the character loop stores the converted
characters at consecutive slots and changes nothing else. -/
theorem store_string_chars_spec (chars : List Char) (i : Int) (st : AsmState)
    (h0 : 0 ≤ st.DC + i) (h1 : st.DC + i + chars.length ≤ 256) :
    ∃ st1, store_string_chars chars i st = some st1
      ∧ st1.DC = st.DC ∧ st1.IC = st.IC ∧ st1.error_flag = st.error_flag
      ∧ st1.diagnostics = st.diagnostics ∧ st1.symbol_table = st.symbol_table
      ∧ (∀ k, k < chars.length →
          st1.data_image ((st.DC + i).toNat + k) =
            char_to_unsigned (chars.getD k (Char.ofNat 0)))
      ∧ (∀ j, (j < (st.DC + i).toNat ∨ (st.DC + i).toNat + chars.length ≤ j) →
          st1.data_image j = st.data_image j) := by
  induction chars generalizing i st with
  | nil =>
    refine ⟨st, rfl, rfl, rfl, rfl, rfl, rfl, ?_, ?_⟩
    · intro k hk; simp at hk
    · intro j _; rfl
  | cons c rest ih =>
    simp only [List.length_cons, Nat.cast_add, Nat.cast_one] at h1
    have hb : 0 ≤ st.DC + i ∧ st.DC + i < 256 := ⟨h0, by omega⟩
    obtain ⟨st1, hs, hDC, hIC, herr, hdiag, hsym, hin, hout⟩ :=
      ih (i + 1) { st with data_image :=
        fun j => if j = (st.DC + i).toNat then char_to_unsigned c else st.data_image j }
        (by simp only []; omega) (by simp only []; omega)
    refine ⟨st1, ?_, hDC, hIC, herr, hdiag, hsym, ?_, ?_⟩
    · rw [store_string_chars, store_data_in_bounds st _ _ hb]
      exact hs
    · intro k hk
      cases k with
      | zero =>
        have := hout (st.DC + i).toNat (Or.inl (by simp only []; omega))
        simp only [Nat.add_zero, List.getD_cons_zero]
        rw [this]
        simp
      | succ k =>
        have hk2 : k < rest.length := by simpa using hk
        have := hin k hk2
        simp only [] at this
        have e : (st.DC + (i + 1)).toNat + k = (st.DC + i).toNat + (k + 1) := by omega
        rw [e] at this
        rw [this]
        simp
    · intro j hj
      simp only [List.length_cons] at hj
      have := hout j (by simp only []; omega)
      rw [this]
      have hne : j ≠ (st.DC + i).toNat := by omega
      simp [hne]

/-- `isalpha` accepts exactly the ASCII letters. -/
theorem isalpha_iff (c : Char) : isalpha c = true ↔ is_ascii_letter c := by
  unfold isalpha Char.isAlpha Char.isUpper Char.isLower is_ascii_letter
  simp only [Bool.or_eq_true, Bool.and_eq_true, decide_eq_true_eq, ge_iff_le]
  simp only [UInt32.le_def, Char.toNat, UInt32.toNat]
  rfl

/-- `isdigit` accepts exactly the ASCII digits. -/
theorem isdigit_iff (c : Char) : isdigit c = true ↔ is_ascii_digit c := by
  unfold isdigit Char.isDigit is_ascii_digit
  simp only [Bool.and_eq_true, decide_eq_true_eq, ge_iff_le]
  simp only [UInt32.le_def, Char.toNat, UInt32.toNat]
  rfl

/-- `isalnum` accepts exactly the ASCII letters and digits. -/
theorem isalnum_iff (c : Char) :
    isalnum c = true ↔ is_ascii_letter c ∨ is_ascii_digit c := by
  unfold isalnum Char.isAlphanum
  have h1 := isalpha_iff c
  have h2 := isdigit_iff c
  unfold isalpha at h1
  unfold isdigit at h2
  simp only [Bool.or_eq_true, h1, h2]

/-- Value of a run of digits, by the positional formula. -/
theorem digits_value_ofDigits (l : List Char) (h : ∀ c ∈ l, is_ascii_digit c) (acc : Int) :
    digits_value acc l =
      acc * 10 ^ l.length
        + ((Nat.ofDigits 10 (l.reverse.map (fun c => c.toNat - 48)) : Nat) : Int) := by
  induction l generalizing acc with
  | nil => simp [digits_value, Nat.ofDigits]
  | cons c rest ih =>
    have hc : 48 ≤ c.toNat := (h c (List.mem_cons_self _ _)).1
    rw [digits_value, ih (fun x hx => h x (List.mem_cons_of_mem _ hx))]
    rw [List.reverse_cons, List.map_append, Nat.ofDigits_append]
    simp only [List.map_cons, List.map_nil, Nat.ofDigits_singleton, List.length_map,
      List.length_reverse, List.length_cons]
    push_cast
    rw [Nat.cast_sub hc]
    push_cast
    ring

/-- The clamp of `strtol` does not change whether a value lies in [-512,
511], nor the value when it does. -/
theorem clamp_long_range (v : Int) :
    ((clamp_long v ≥ -512 ∧ clamp_long v ≤ 511) ↔ (-512 ≤ v ∧ v ≤ 511))
    ∧ ((-512 ≤ v ∧ v ≤ 511) → clamp_long v = v) := by
  unfold clamp_long
  constructor
  · split_ifs <;> constructor <;> intro h <;> constructor <;> omega
  · intro h
    split_ifs <;> omega

/-- A non-empty list whose longest prefix of `p` is empty does not satisfy `p`
everywhere. -/
theorem takeWhile_nil_not_all (p : Char → Bool) (l : List Char) (hl : l ≠ [])
    (h : l.takeWhile p = []) : ¬ ∀ c ∈ l, p c = true := by
  intro hall
  cases l with
  | nil => exact hl rfl
  | cons c rest =>
    have hc := hall c (List.mem_cons_self _ _)
    simp [List.takeWhile, hc] at h

/-- The digits `strtol` reads are the whole text exactly when the text holds
digits only. -/
theorem dropWhile_isdigit_nil (l : List Char) :
    l.dropWhile isdigit = [] ↔ ∀ c ∈ l, is_ascii_digit c := by
  rw [List.dropWhile_eq_nil_iff]
  constructor
  · intro h c hc
    exact (isdigit_iff c).mp (h c hc)
  · intro h c hc
    exact (isdigit_iff c).mpr (h c hc)

/-- The longest prefix of `p` of a list that satisfies `p` everywhere is the
list. -/
theorem takeWhile_all (p : Char → Bool) (l : List Char) (h : ∀ c ∈ l, p c = true) :
    l.takeWhile p = l := by
  induction l with
  | nil => rfl
  | cons c rest ih =>
    simp only [List.takeWhile, h c (List.mem_cons_self _ _)]
    rw [ih (fun x hx => h x (List.mem_cons_of_mem _ hx))]

/-- The successive results of `strtok` are the non-empty pieces between
separators. -/
theorem strtok_all_eq_filter (d : Char → Bool) (current text : List Char) :
    strtok_all d current text =
      (((text.splitOnP d).modifyHead (fun t => current.reverse ++ t)).filter
        (fun t => t ≠ [])) := by
  induction text generalizing current with
  | nil =>
    simp only [strtok_all, List.splitOnP_nil, List.modifyHead_cons, List.append_nil]
    by_cases h : current = []
    · simp [h]
    · have : current.reverse ≠ [] := by simpa using h
      simp [h, this]
  | cons c rest ih =>
    rw [strtok_all, List.splitOnP_cons]
    by_cases hd : d c = true
    · rw [if_pos hd, if_pos hd, ih []]
      simp only [List.reverse_nil, List.nil_append, List.modifyHead_cons]
      have hid : (List.splitOnP d rest).modifyHead (fun t => t) = List.splitOnP d rest := by
        cases List.splitOnP d rest <;> rfl
      rw [hid]
      by_cases h : current = []
      · simp [h]
      · have : current.reverse ≠ [] := by simpa using h
        simp [h, this]
    · rw [if_neg hd, if_neg hd, ih (c :: current)]
      congr 1
      cases List.splitOnP d rest with
      | nil => rfl
      | cons t ts => simp

/-- Started on an empty run, `strtok` returns the tokens of the text. -/
theorem strtok_all_eq_split_tokens (d : Char → Bool) (text : List Char) :
    strtok_all d [] text = split_tokens d text := by
  rw [strtok_all_eq_filter, split_tokens]
  congr 1
  cases List.splitOnP d text <;> rfl

/-- The tokenizer returns the first `max_tokens` tokens of the line when
each of them fits its buffer of `MAX_SYMBOL_NAME` characters. -/
theorem tokenize_line_eq (line : List Char) (max_tokens : Nat)
    (h : ∀ t ∈ (line_tokens line).take max_tokens, t.data.length ≤ 30) :
    tokenize_line line max_tokens = some ((line_tokens line).take max_tokens) := by
  unfold tokenize_line
  simp only []
  rw [strtok_all_eq_split_tokens]
  have hmap : List.map String.mk
      (List.map trim_whitespace (List.take max_tokens
        (split_tokens is_line_delimiter (trim_whitespace line)))) =
      (line_tokens line).take max_tokens := by
    unfold line_tokens
    simp only [List.map_take, List.map_map]
    rfl
  have hall : (List.map trim_whitespace (List.take max_tokens
      (split_tokens is_line_delimiter (trim_whitespace line)))).all
      (fun token => decide (token.length < MAX_SYMBOL_NAME)) = true := by
    rw [List.all_eq_true]
    intro t ht
    have hm : String.mk t ∈ (line_tokens line).take max_tokens := by
      rw [← hmap]
      exact List.mem_map_of_mem String.mk ht
    have := h _ hm
    simp only [MAX_SYMBOL_NAME, decide_eq_true_eq]
    simp only at this
    omega
  rw [if_pos hall, hmap]

/-- Reading below the cut of a truncated list reads the list. -/
theorem get?_take_lt (l : List String) (n i : Nat) (h : i < n) :
    (l.take n).get? i = l.get? i := by
  simp only [List.get?_eq_getElem?, List.getElem?_take, h, if_true]

/-- The reading loop of `build_macro_content` over body lines followed by
the line `mcroend`: the new macro holds the gathered text followed by the
body lines, and the loop of `process_file` reads on after `mcroend`. -/
theorem build_macro_content_body (name eline : String) (body : List String)
    (rest : List InputLine) (st : PreState) (content : List Char)
    (hnew : find_macro st.macro_table name = none)
    (hbody : ∀ l ∈ body, is_macro_end l.data = some false)
    (hend : is_macro_end eline.data = some true) :
    build_macro_content name content
        (body.map InputLine.text ++ InputLine.text eline :: rest) st =
      process_file_loop rest
        { st with macro_table :=
            { name := name,
              content := String.mk (content ++ (body.map String.data).flatten) }
              :: st.macro_table } := by
  induction body generalizing content with
  | nil =>
    simp only [List.map_nil, List.nil_append, List.flatten_nil, List.append_nil]
    rw [build_macro_content, hend]
    simp only [ add_macro, hnew]
  | cons l ls ih =>
    simp only [List.map_cons, List.cons_append, List.flatten_cons]
    rw [build_macro_content, hbody l (List.mem_cons_self _ _)]
    simp only []
    rw [ih (content ++ l.data) (fun x hx => hbody x (List.mem_cons_of_mem _ hx)),
      List.append_assoc]

/-- While the rest of an over-length line is discarded, reading resumes
after the next newline. -/
theorem fgets_lines_skip (size : Nat) (line rest : List Char)
    (hline : ∀ c ∈ line, c.toNat ≠ 10) :
    fgets_lines size [] true (line ++ Char.ofNat 10 :: rest) = fgets_lines size [] false rest := by
  induction line with
  | nil =>
    rw [List.nil_append, fgets_lines]
    simp
  | cons c cs ih =>
    rw [List.cons_append, fgets_lines]
    simp only [if_true]
    rw [if_neg (hline c (List.mem_cons_self _ _))]
    exact ih (fun x hx => hline x (List.mem_cons_of_mem _ hx))

/-- The reading loop on one physical line: with `buffer` already read, a line
that brings the buffer to at most 79 characters before its newline is
returned whole; a longer one is reported as over-length and reading resumes
at the next line. With the buffer of `MAX_LINE_LENGTH` = 81 characters a line
of exactly 80 characters is over-length. -/
theorem fgets_lines_line (buffer line rest : List Char)
    (hline : ∀ c ∈ line, c.toNat ≠ 10) (hb : buffer.length ≤ 79) :
    fgets_lines MAX_LINE_LENGTH buffer false (line ++ Char.ofNat 10 :: rest) =
      (if buffer.length + line.length ≤ 79 then
        InputLine.text (String.mk (buffer.reverse ++ line ++ [Char.ofNat 10]))
      else InputLine.too_long) :: fgets_lines MAX_LINE_LENGTH [] false rest := by
  induction line generalizing buffer with
  | nil =>
    rw [List.nil_append, fgets_lines]
    simp only [Bool.false_eq_true, if_false]
    rw [if_pos (by decide), if_pos (by simpa using hb)]
    simp
  | cons c cs ih =>
    rw [List.cons_append, fgets_lines]
    simp only [Bool.false_eq_true, if_false]
    rw [if_neg (hline c (List.mem_cons_self _ _))]
    have hcs : ∀ x ∈ cs, x.toNat ≠ 10 := fun x hx => hline x (List.mem_cons_of_mem _ hx)
    by_cases hfull : (c :: buffer).length = MAX_LINE_LENGTH - 1
    · rw [if_pos hfull, fgets_lines_skip _ cs rest hcs]
      simp only [List.length_cons, MAX_LINE_LENGTH] at hfull
      have : ¬ buffer.length + (c :: cs).length ≤ 79 := by
        simp only [List.length_cons]; omega
      rw [if_neg this]
    · rw [if_neg hfull]
      simp only [List.length_cons, MAX_LINE_LENGTH] at hfull
      rw [ih (c :: buffer) hcs (by simp only [List.length_cons]; omega)]
      simp only [List.length_cons, List.reverse_cons, List.append_assoc, List.singleton_append]
      have : buffer.length + 1 + cs.length ≤ 79 ↔ buffer.length + (cs.length + 1) ≤ 79 := by
        omega
      simp only [this]

/-- An instruction has at least one word. -/
theorem calculate_instruction_length_pos (opcode src_mode dest_mode : Int) :
    0 < calculate_instruction_length opcode src_mode dest_mode := by
  have hL : ∀ L : Int, 1 ≤ L →
      1 ≤ (if dest_mode ≠ -1 then
            if dest_mode = 0 ∨ dest_mode = 1 then L + 1
            else if dest_mode = 2 then L + 2
            else if dest_mode = 3 then L + 1
            else L
          else L) := by
    intro L hL
    split_ifs <;> omega
  have hS : (1 : Int) ≤ (if src_mode ≠ -1 then
        if src_mode = 0 ∨ src_mode = 1 then (1 : Int) + 1
        else if src_mode = 2 then 1 + 2
        else if src_mode = 3 then (if dest_mode ≠ 3 then 1 + 1 else 1)
        else 1
      else 1) := by
    split_ifs <;> omega
  exact lt_of_lt_of_le one_pos (hL _ hS)

/-- The operand count of an opcode is 0, 1 or 2. -/
theorem count_operands_cases (opcode : Int) :
    count_operands_for_instruction opcode = 0 ∨ count_operands_for_instruction opcode = 1
      ∨ count_operands_for_instruction opcode = 2 := by
  unfold count_operands_for_instruction
  split_ifs <;> simp

/-- Operand validation returns the state unchanged when it succeeds and
raises the error flag when it fails. -/
theorem validate_instruction_operands_cases (opcode : Int) (src dest : Option String)
    (st : AsmState) :
    validate_instruction_operands opcode src dest st = (true, st)
      ∨ ((validate_instruction_operands opcode src dest st).1 = false
          ∧ (validate_instruction_operands opcode src dest st).2.error_flag = 1
          ∧ (validate_instruction_operands opcode src dest st).2.IC = st.IC) := by
  unfold validate_instruction_operands
  simp only []
  by_cases h1 : src.isSome = true ∧ (if src.isSome = true then get_addressing_mode src else -1) = -1
  · rw [if_pos h1]
    exact Or.inr ⟨rfl, rfl, rfl⟩
  · rw [if_neg h1]
    by_cases h2 : dest.isSome = true
        ∧ (if dest.isSome = true then get_addressing_mode dest else -1) = -1
    · rw [if_pos h2]
      exact Or.inr ⟨rfl, rfl, rfl⟩
    · rw [if_neg h2]
      by_cases h3 : ¬ is_valid_addressing_for_instruction opcode
          (if src.isSome = true then get_addressing_mode src else -1)
          (if dest.isSome = true then get_addressing_mode dest else -1) = true
      · rw [if_pos h3]
        exact Or.inr ⟨rfl, rfl, rfl⟩
      · rw [if_neg h3]
        exact Or.inl rfl

/-- The first pass either rejects an instruction line with a diagnostic or
returns the length of the instruction and leaves the state unchanged. -/
theorem process_instruction_parsed_cases (parsed : ParsedLine) (st : AsmState) :
    ((process_instruction_parsed parsed st).1 = -1
        ∧ (process_instruction_parsed parsed st).2.error_flag = 1
        ∧ (process_instruction_parsed parsed st).2.IC = st.IC)
    ∨ (process_instruction_parsed parsed st = (instruction_length parsed, st)
        ∧ 0 < instruction_length parsed) := by
  unfold process_instruction_parsed instruction_length
  cases hc : parsed.command with
  | none => exact Or.inl ⟨rfl, rfl, rfl⟩
  | some command =>
    simp only []
    by_cases h1 : get_instruction_opcode command = -1
    · rw [if_pos h1]
      exact Or.inl ⟨rfl, rfl, rfl⟩
    · rw [if_neg h1]
      by_cases h2 : actual_operands parsed ≠
          count_operands_for_instruction (get_instruction_opcode command)
      · rw [if_pos h2]
        exact Or.inl ⟨rfl, rfl, rfl⟩
      · rw [if_neg h2]
        rcases validate_instruction_operands_cases (get_instruction_opcode command)
          (if count_operands_for_instruction (get_instruction_opcode command) = 1 then none
            else if count_operands_for_instruction (get_instruction_opcode command) = 2
              then parsed.operand1 else none)
          (if count_operands_for_instruction (get_instruction_opcode command) = 1
              then parsed.operand1
            else if count_operands_for_instruction (get_instruction_opcode command) = 2
              then parsed.operand2 else none) st with hv | hv
        · rw [hv]
          simp only []
          right
          rcases count_operands_cases (get_instruction_opcode command) with h | h | h <;>
            simp only [h] <;> norm_num <;>
            exact calculate_instruction_length_pos _ _ _
        · left
          obtain ⟨hv1, hv2, hv3⟩ := hv
          revert hv1 hv2 hv3
          generalize validate_instruction_operands (get_instruction_opcode command)
            (if count_operands_for_instruction (get_instruction_opcode command) = 1 then none
              else if count_operands_for_instruction (get_instruction_opcode command) = 2
                then parsed.operand1 else none)
            (if count_operands_for_instruction (get_instruction_opcode command) = 1
                then parsed.operand1
              else if count_operands_for_instruction (get_instruction_opcode command) = 2
                then parsed.operand2 else none) st = res
          obtain ⟨b, st1⟩ := res
          intro hv1 hv2 hv3
          simp only [] at hv1 hv2 hv3
          subst hv1
          exact ⟨rfl, hv2, hv3⟩

/-- A store in the instruction image changes neither the counters nor the
error flag. -/
theorem store_instruction_counts (st st1 : AsmState) (index : Int) (word : Nat)
    (h : store_instruction st index word = some st1) :
    st1.IC = st.IC ∧ st1.DC = st.DC ∧ st1.error_flag = st.error_flag := by
  unfold store_instruction at h
  cases hw : store_word st.instruction_image index word with
  | none => rw [hw] at h; cases h
  | some image =>
    rw [hw] at h
    simp only [Option.some.injEq] at h
    subst h
    exact ⟨rfl, rfl, rfl⟩

/-- An addressing mode is -1, 0, 1, 2 or 3. -/
theorem get_addressing_mode_range (operand : Option String) :
    get_addressing_mode operand = -1 ∨ get_addressing_mode operand = 0
      ∨ get_addressing_mode operand = 1 ∨ get_addressing_mode operand = 2
      ∨ get_addressing_mode operand = 3 := by
  unfold get_addressing_mode
  cases operand with
  | none => simp
  | some text =>
    simp only []
    split_ifs <;> simp

/-- The immediate encoder leaves IC unchanged and either fails with a
diagnostic or writes one word. -/
theorem encode_immediate_operand_cases (operand : String) (st st1 : AsmState) (r : Int)
    (h : encode_immediate_operand operand st = some (r, st1)) :
    st1.IC = st.IC
      ∧ ((r = -1 ∧ st1.error_flag = 1) ∨ (r = 1 ∧ st1.error_flag = st.error_flag)) := by
  unfold encode_immediate_operand at h
  cases hv : is_valid_integer (operand.data.drop 1) with
  | none =>
    rw [hv] at h
    simp only [Option.some.injEq, Prod.mk.injEq] at h
    rw [← h.1, ← h.2]
    exact ⟨rfl, Or.inl ⟨rfl, rfl⟩⟩
  | some value =>
    rw [hv] at h
    simp only [] at h
    cases hs : store_instruction st (st.IC - IC_INITIAL_VALUE + 1)
        (maskBits value 10 <<< 2 ||| 0) with
    | none => rw [hs] at h; cases h
    | some st2 =>
      rw [hs] at h
      simp only [Option.some.injEq, Prod.mk.injEq] at h
      have hc := store_instruction_counts _ _ _ _ hs
      rw [← h.1, ← h.2]
      exact ⟨hc.1, Or.inr ⟨rfl, hc.2.2⟩⟩

/-- The direct encoder leaves IC unchanged and either fails with a
diagnostic or writes one word. -/
theorem encode_direct_operand_cases (operand : String) (st st1 : AsmState) (r : Int)
    (h : encode_direct_operand operand st = some (r, st1)) :
    st1.IC = st.IC
      ∧ ((r = -1 ∧ st1.error_flag = 1) ∨ (r = 1 ∧ st1.error_flag = st.error_flag)) := by
  unfold encode_direct_operand at h
  cases hf : find_symbol st.symbol_table operand with
  | none =>
    rw [hf] at h
    simp only [Option.some.injEq, Prod.mk.injEq] at h
    rw [← h.1, ← h.2]
    exact ⟨rfl, Or.inl ⟨rfl, rfl⟩⟩
  | some symbol =>
    rw [hf] at h
    simp only [] at h
    have hst : ∀ st0 : AsmState, st0.IC = st.IC → st0.error_flag = st.error_flag →
        ∀ w, (match store_instruction st0 (st0.IC - IC_INITIAL_VALUE + 1) w with
          | none => none
          | some st2 => some ((1 : Int), st2)) = some (r, st1) →
        st1.IC = st.IC
          ∧ ((r = -1 ∧ st1.error_flag = 1) ∨ (r = 1 ∧ st1.error_flag = st.error_flag)) := by
      intro st0 h1 h2 w hm
      cases hs : store_instruction st0 (st0.IC - IC_INITIAL_VALUE + 1) w with
      | none => rw [hs] at hm; cases hm
      | some st2 =>
        rw [hs] at hm
        simp only [Option.some.injEq, Prod.mk.injEq] at hm
        have hc := store_instruction_counts _ _ _ _ hs
        rw [← hm.1, ← hm.2]
        exact ⟨hc.1.trans h1, Or.inr ⟨rfl, hc.2.2.trans h2⟩⟩
    by_cases he : symbol.attr = SymbolAttribute.EXTERNAL_SYMBOL
    · simp only [he, if_true] at h
      exact hst (add_external_usage st operand (st.IC + 1)) rfl rfl _ h
    · simp only [he, if_false] at h
      exact hst st rfl rfl _ h

/-- The matrix encoder leaves IC unchanged and either fails with a
diagnostic or writes two words. -/
theorem encode_matrix_operand_cases (operand : String) (st st1 : AsmState) (r : Int)
    (h : encode_matrix_operand operand st = some (r, st1)) :
    st1.IC = st.IC
      ∧ ((r = -1 ∧ st1.error_flag = 1) ∨ (r = 2 ∧ st1.error_flag = st.error_flag)) := by
  unfold encode_matrix_operand at h
  cases hp : parse_matrix_operand operand.data with
  | none =>
    rw [hp] at h
    simp only [Option.some.injEq, Prod.mk.injEq] at h
    rw [← h.1, ← h.2]
    exact ⟨rfl, Or.inl ⟨rfl, rfl⟩⟩
  | some res =>
    obtain ⟨label, row, col⟩ := res
    rw [hp] at h
    simp only [] at h
    cases hf : find_symbol st.symbol_table label with
    | none =>
      rw [hf] at h
      simp only [Option.some.injEq, Prod.mk.injEq] at h
      rw [← h.1, ← h.2]
      exact ⟨rfl, Or.inl ⟨rfl, rfl⟩⟩
    | some symbol =>
      rw [hf] at h
      simp only [] at h
      have hst : ∀ st0 : AsmState, st0.IC = st.IC → st0.error_flag = st.error_flag →
          ∀ w1 w2, (match store_instruction st0 (st0.IC - IC_INITIAL_VALUE + 1) w1 with
            | none => none
            | some st2 =>
              match store_instruction st2 (st2.IC - IC_INITIAL_VALUE + 2) w2 with
              | none => none
              | some st3 => some ((2 : Int), st3)) = some (r, st1) →
          st1.IC = st.IC
            ∧ ((r = -1 ∧ st1.error_flag = 1) ∨ (r = 2 ∧ st1.error_flag = st.error_flag)) := by
        intro st0 h1 h2 w1 w2 hm
        cases hs : store_instruction st0 (st0.IC - IC_INITIAL_VALUE + 1) w1 with
        | none => rw [hs] at hm; cases hm
        | some st2 =>
          rw [hs] at hm
          simp only [] at hm
          cases hs2 : store_instruction st2 (st2.IC - IC_INITIAL_VALUE + 2) w2 with
          | none => rw [hs2] at hm; cases hm
          | some st3 =>
            rw [hs2] at hm
            simp only [Option.some.injEq, Prod.mk.injEq] at hm
            have hc := store_instruction_counts _ _ _ _ hs
            have hc2 := store_instruction_counts _ _ _ _ hs2
            rw [← hm.1, ← hm.2]
            exact ⟨hc2.1.trans (hc.1.trans h1),
              Or.inr ⟨rfl, hc2.2.2.trans (hc.2.2.trans h2)⟩⟩
      by_cases he : symbol.attr = SymbolAttribute.EXTERNAL_SYMBOL
      · simp only [he, if_true] at h
        exact hst (add_external_usage st label (st.IC + 1)) rfl rfl _ _ h
      · simp only [he, if_false] at h
        exact hst st rfl rfl _ _ h

/-- An operand of mode 0..3 is encoded with IC unchanged: the encoder either
fails with a diagnostic or writes the words of the mode (2 for a matrix, 1
otherwise). -/
theorem encode_operand_cases (operand : String) (mode : Int) (st st1 : AsmState) (r : Int)
    (hm : 0 ≤ mode ∧ mode ≤ 3)
    (h : encode_operand operand mode st = some (r, st1)) :
    st1.IC = st.IC
      ∧ ((r = -1 ∧ st1.error_flag = 1)
          ∨ (r = spec_operand_words mode ∧ st1.error_flag = st.error_flag)) := by
  unfold encode_operand at h
  unfold spec_operand_words
  by_cases h0 : mode = 0
  · rw [if_pos h0] at h
    subst h0
    simpa using encode_immediate_operand_cases _ _ _ _ h
  · rw [if_neg h0] at h
    by_cases h1 : mode = 1
    · rw [if_pos h1] at h
      subst h1
      simpa using encode_direct_operand_cases _ _ _ _ h
    · rw [if_neg h1] at h
      by_cases h2 : mode = 2
      · rw [if_pos h2] at h
        subst h2
        simpa using encode_matrix_operand_cases _ _ _ _ h
      · rw [if_neg h2] at h
        have h3 : mode = 3 := by omega
        rw [if_pos h3] at h
        subst h3
        cases hs : store_instruction st (st.IC - IC_INITIAL_VALUE + 1)
            (encode_register_operand operand 0) with
        | none => rw [hs] at h; cases h
        | some st2 =>
          rw [hs] at h
          simp only [Option.some.injEq, Prod.mk.injEq] at h
          have hc := store_instruction_counts _ _ _ _ hs
          rw [← h.1, ← h.2]
          refine ⟨hc.1, Or.inr ⟨?_, hc.2.2⟩⟩
          simp

/-- The optional-operand step leaves IC unchanged; for an operand of mode
0..3 it either stops with -1 and a diagnostic or adds the words of the mode;
without operand it adds nothing. -/
theorem encode_optional_operand_cases (operand : Option String) (mode words_used : Int)
    (st st1 : AsmState) (b : Bool) (r : Int)
    (hm : operand.isSome = true → 0 ≤ mode ∧ mode ≤ 3)
    (h : encode_optional_operand operand mode words_used st = some ((b, r), st1)) :
    st1.IC = st.IC
      ∧ ((b = true ∧ r = -1 ∧ st1.error_flag = 1)
          ∨ (b = false ∧ st1.error_flag = st.error_flag
              ∧ r = words_used + (if operand.isSome = true then spec_operand_words mode
                  else 0))) := by
  unfold encode_optional_operand at h
  cases operand with
  | none =>
    simp only [Option.some.injEq, Prod.mk.injEq] at h
    obtain ⟨⟨hb, hr⟩, hst⟩ := h
    subst hb; subst hr; subst hst
    exact ⟨rfl, Or.inr ⟨rfl, rfl, by simp⟩⟩
  | some text =>
    simp only [] at h
    cases he : encode_operand text mode st with
    | none => rw [he] at h; cases h
    | some res =>
      obtain ⟨operand_result, st2⟩ := res
      rw [he] at h
      simp only [] at h
      have hc := encode_operand_cases text mode st st2 operand_result (hm rfl) he
      have hw : spec_operand_words mode ≠ -1 := by
        unfold spec_operand_words
        split_ifs <;> decide
      by_cases hr : operand_result = -1
      · rw [if_pos hr] at h
        simp only [Option.some.injEq, Prod.mk.injEq] at h
        obtain ⟨⟨hb, hr2⟩, hst⟩ := h
        subst hb; subst hr2; subst hst
        refine ⟨hc.1, Or.inl ⟨rfl, rfl, ?_⟩⟩
        rcases hc.2 with h1 | h1
        · exact h1.2
        · exact absurd (h1.1.symm.trans hr) hw
      · rw [if_neg hr] at h
        simp only [Option.some.injEq, Prod.mk.injEq] at h
        obtain ⟨⟨hb, hr2⟩, hst⟩ := h
        subst hb; subst hr2; subst hst
        refine ⟨hc.1, Or.inr ⟨rfl, ?_, ?_⟩⟩
        · rcases hc.2 with h1 | h1
          · exact absurd h1.1 hr
          · exact h1.2
        · rcases hc.2 with h1 | h1
          · exact absurd h1.1 hr
          · simp [h1.1]

/-- An accepted combination of addressing modes has a mode for each operand
the opcode takes. -/
theorem valid_modes_present (opcode src_mode dest_mode : Int)
    (h : is_valid_addressing_for_instruction opcode src_mode dest_mode = true) :
    (count_operands_for_instruction opcode = 2 → src_mode ≠ -1 ∧ dest_mode ≠ -1)
    ∧ (count_operands_for_instruction opcode = 1 → dest_mode ≠ -1) := by
  unfold is_valid_addressing_for_instruction at h
  by_cases hr : opcode < 0 ∨ opcode > 15
  · rw [if_pos hr] at h; cases h
  · rw [if_neg hr] at h
    have h0 : 0 ≤ opcode := by omega
    have h15 : opcode ≤ 15 := by omega
    have hsrc : count_operands_for_instruction opcode = 2 → src_mode ≠ -1 := by
      intro hc hs
      subst hs
      unfold count_operands_for_instruction at hc
      interval_cases opcode <;> simp at hc <;>
        simp [valid_src_modes, mode_allowed] at h
    have hdest : count_operands_for_instruction opcode ≠ 0 → dest_mode ≠ -1 := by
      intro hc hd
      subst hd
      unfold count_operands_for_instruction at hc
      interval_cases opcode <;> simp at hc <;>
        simp [valid_src_modes, valid_dest_modes, mode_allowed] at h
    exact ⟨fun hc => ⟨hsrc hc, hdest (by omega)⟩, fun hc => hdest (by omega)⟩

/-- The length of an instruction is one word plus the words of its
operands, two registers sharing one word. -/
theorem calculate_instruction_length_words (opcode s d : Int)
    (hs : s = -1 ∨ s = 0 ∨ s = 1 ∨ s = 2 ∨ s = 3)
    (hd : d = -1 ∨ d = 0 ∨ d = 1 ∨ d = 2 ∨ d = 3) :
    calculate_instruction_length opcode s d =
      if s = 3 ∧ d = 3 then 2 else 1 + spec_operand_words s + spec_operand_words d := by
  rcases hs with rfl | rfl | rfl | rfl | rfl <;>
    rcases hd with rfl | rfl | rfl | rfl | rfl <;>
    simp [calculate_instruction_length, spec_operand_words]

/-- The second pass leaves IC to its caller; it either rejects an
instruction line with -1 (with a diagnostic, or silently when the line has no
command) or reports the length of the instruction. -/
theorem encode_instruction_parsed_cases (parsed : ParsedLine) (st st1 : AsmState) (r : Int)
    (h : encode_instruction_parsed parsed st = some (r, st1)) :
    st1.IC = st.IC
      ∧ ((r = -1 ∧ (st1.error_flag = 1
            ∨ (parsed.command = none ∧ st1.error_flag = st.error_flag)))
          ∨ (r = instruction_length parsed ∧ st1.error_flag = st.error_flag ∧ 0 < r)) := by
  unfold encode_instruction_parsed at h
  unfold instruction_length
  cases hc : parsed.command with
  | none =>
    rw [hc] at h
    simp only [Option.some.injEq, Prod.mk.injEq] at h
    rw [← h.1, ← h.2]
    exact ⟨rfl, Or.inl ⟨rfl, Or.inr ⟨rfl, rfl⟩⟩⟩
  | some command =>
    rw [hc] at h
    simp only [] at h ⊢
    by_cases h1 : get_instruction_opcode command = -1
    · rw [if_pos h1] at h
      simp only [Option.some.injEq, Prod.mk.injEq] at h
      rw [← h.1, ← h.2]
      exact ⟨rfl, Or.inl ⟨rfl, Or.inl rfl⟩⟩
    · rw [if_neg h1] at h
      by_cases h2 : actual_operands parsed ≠
          count_operands_for_instruction (get_instruction_opcode command)
      · rw [if_pos h2] at h
        simp only [Option.some.injEq, Prod.mk.injEq] at h
        rw [← h.1, ← h.2]
        exact ⟨rfl, Or.inl ⟨rfl, Or.inl rfl⟩⟩
      · rw [if_neg h2] at h
        generalize hE : count_operands_for_instruction (get_instruction_opcode command) = E
          at h ⊢
        generalize hsrc : (if E = 1 then (none : Option String)
          else if E = 2 then parsed.operand1 else none) = src_operand at h
        generalize hdest : (if E = 1 then parsed.operand1
          else if E = 2 then parsed.operand2 else none) = dest_operand at h
        have hsm : (if E = 1 then (-1 : Int)
            else if E = 2 then get_addressing_mode src_operand else -1) =
            (if E = 2 then get_addressing_mode parsed.operand1 else -1) := by
          rw [← hsrc]
          by_cases e1 : E = 1
          · have e2 : ¬ E = 2 := by omega
            simp [e1]
          · by_cases e2 : E = 2
            · simp [e2]
            · simp [e1, e2]
        have hdm : (if E = 1 then get_addressing_mode dest_operand
            else if E = 2 then get_addressing_mode dest_operand else -1) =
            (if E = 1 then get_addressing_mode parsed.operand1
              else if E = 2 then get_addressing_mode parsed.operand2 else -1) := by
          rw [← hdest]
          by_cases e1 : E = 1
          · simp [e1]
          · by_cases e2 : E = 2
            · simp [e2]
            · simp [e1, e2]
        rw [hsm, hdm] at h
        generalize hS : (if E = 2 then get_addressing_mode parsed.operand1 else -1) = src_mode
          at h ⊢
        generalize hD : (if E = 1 then get_addressing_mode parsed.operand1
          else if E = 2 then get_addressing_mode parsed.operand2 else -1) = dest_mode at h ⊢
        by_cases h3 : ¬ is_valid_addressing_for_instruction (get_instruction_opcode command)
            src_mode dest_mode = true
        · rw [if_pos h3] at h
          simp only [Option.some.injEq, Prod.mk.injEq] at h
          rw [← h.1, ← h.2]
          exact ⟨rfl, Or.inl ⟨rfl, Or.inl rfl⟩⟩
        · rw [if_neg h3] at h
          have hvalid := valid_modes_present _ _ _ (not_not.mp h3)
          rw [hE] at hvalid
          have hSr : src_mode = -1 ∨ src_mode = 0 ∨ src_mode = 1 ∨ src_mode = 2
              ∨ src_mode = 3 := by
            rw [← hS]
            split_ifs
            · exact get_addressing_mode_range _
            · exact Or.inl rfl
          have hDr : dest_mode = -1 ∨ dest_mode = 0 ∨ dest_mode = 1 ∨ dest_mode = 2
              ∨ dest_mode = 3 := by
            rw [← hD]
            split_ifs
            · exact get_addressing_mode_range _
            · exact get_addressing_mode_range _
            · exact Or.inl rfl
          have hlen := calculate_instruction_length_words (get_instruction_opcode command)
            src_mode dest_mode hSr hDr
          have hEc : E = 0 ∨ E = 1 ∨ E = 2 := by
            rw [← hE]; exact count_operands_cases _
          -- an operand that is present has a mode, an absent one has mode -1
          have hsP : src_operand.isSome = true → 0 ≤ src_mode ∧ src_mode ≤ 3 := by
            intro hp
            have e2 : E = 2 := by
              by_contra hne
              rw [← hsrc] at hp
              by_cases e1 : E = 1
              · simp [e1] at hp
              · simp [e1, hne] at hp
            have := (hvalid.1 e2).1
            omega
          have hsA : src_operand.isSome = false → src_mode = -1 := by
            intro hp
            rw [← hS]
            by_cases e2 : E = 2
            · rw [if_pos e2]
              rw [← hsrc] at hp
              have e1 : ¬ E = 1 := by omega
              simp only [e1, e2, if_true, if_false] at hp
              cases ho : parsed.operand1 with
              | none => rfl
              | some x => rw [ho] at hp; cases hp
            · rw [if_neg e2]
          have hdP : dest_operand.isSome = true → 0 ≤ dest_mode ∧ dest_mode ≤ 3 := by
            intro hp
            have e0 : E ≠ 0 := by
              intro hne
              rw [← hdest] at hp
              simp [hne] at hp
            have : dest_mode ≠ -1 := by
              rcases hEc with e | e | e
              · exact absurd e e0
              · exact hvalid.2 e
              · exact (hvalid.1 e).2
            omega
          have hdA : dest_operand.isSome = false → dest_mode = -1 := by
            intro hp
            rw [← hD]
            rw [← hdest] at hp
            by_cases e1 : E = 1
            · simp only [e1, if_true] at hp ⊢
              cases ho : parsed.operand1 with
              | none => rfl
              | some x => rw [ho] at hp; cases hp
            · by_cases e2 : E = 2
              · simp only [e1, e2, if_true, if_false] at hp ⊢
                cases ho : parsed.operand2 with
                | none => rfl
                | some x => rw [ho] at hp; cases hp
              · simp only [e1, e2, if_false]
          cases hs0 : store_instruction st (st.IC - IC_INITIAL_VALUE)
              (encode_instruction_word (get_instruction_opcode command) src_mode dest_mode) with
          | none => rw [hs0] at h; cases h
          | some st0 =>
            rw [hs0] at h
            simp only [] at h
            have hc0 := store_instruction_counts _ _ _ _ hs0
            by_cases htwo : E = 2 ∧ src_mode = 3 ∧ dest_mode = 3
            · rw [if_pos htwo] at h
              cases hs1 : store_instruction st0 (st0.IC - IC_INITIAL_VALUE + 1)
                  (encode_two_registers (src_operand.getD "") (dest_operand.getD "")) with
              | none => rw [hs1] at h; cases h
              | some st2 =>
                rw [hs1] at h
                simp only [Option.some.injEq, Prod.mk.injEq] at h
                have hc1 := store_instruction_counts _ _ _ _ hs1
                rw [← h.1, ← h.2]
                refine ⟨hc1.1.trans hc0.1, Or.inr ⟨?_, hc1.2.2.trans hc0.2.2, by norm_num⟩⟩
                rw [hlen, if_pos ⟨htwo.2.1, htwo.2.2⟩]
                norm_num
            · rw [if_neg htwo] at h
              have hnot : ¬ (src_mode = 3 ∧ dest_mode = 3) := by
                intro h33
                apply htwo
                refine ⟨?_, h33.1, h33.2⟩
                by_contra hne
                have : src_mode = -1 := by
                  rw [← hS, if_neg hne]
                omega
              rw [if_neg hnot] at hlen
              cases ho1 : encode_optional_operand src_operand src_mode 1 st0 with
              | none => rw [ho1] at h; cases h
              | some res1 =>
                obtain ⟨⟨b1, r1⟩, st2⟩ := res1
                rw [ho1] at h
                have hc1 := encode_optional_operand_cases _ _ _ _ _ _ _ hsP ho1
                cases b1
                · simp only [] at h
                  cases ho2 : encode_optional_operand dest_operand dest_mode r1 st2 with
                  | none => rw [ho2] at h; cases h
                  | some res2 =>
                    obtain ⟨⟨b2, r2⟩, st3⟩ := res2
                    rw [ho2] at h
                    have hc2 := encode_optional_operand_cases _ _ _ _ _ _ _ hdP ho2
                    have hf1 : st2.error_flag = st0.error_flag
                        ∧ r1 = 1 + (if src_operand.isSome = true
                            then spec_operand_words src_mode else 0) := by
                      rcases hc1.2 with hx | hx
                      · exact absurd hx.1 (by decide)
                      · exact ⟨hx.2.1, hx.2.2⟩
                    have hsw : (if src_operand.isSome = true
                        then spec_operand_words src_mode else 0) = spec_operand_words src_mode := by
                      cases hp : src_operand.isSome with
                      | true => simp
                      | false =>
                        rw [hsA hp]
                        simp [spec_operand_words]
                    have hdw : (if dest_operand.isSome = true
                        then spec_operand_words dest_mode else 0)
                        = spec_operand_words dest_mode := by
                      cases hp : dest_operand.isSome with
                      | true => simp
                      | false =>
                        rw [hdA hp]
                        simp [spec_operand_words]
                    cases b2
                    · simp only [Option.some.injEq, Prod.mk.injEq] at h
                      rw [← h.1, ← h.2]
                      rcases hc2.2 with hx | hx
                      · exact absurd hx.1 (by decide)
                      · refine ⟨hc2.1.trans (hc1.1.trans hc0.1), Or.inr ⟨?_, ?_, ?_⟩⟩
                        · rw [hlen, hx.2.2, hf1.2, hsw, hdw]
                        · exact hx.2.1.trans (hf1.1.trans hc0.2.2)
                        · rw [hx.2.2, hf1.2, hsw, hdw, ← hlen]
                          exact calculate_instruction_length_pos _ _ _
                    · simp only [Option.some.injEq, Prod.mk.injEq] at h
                      rw [← h.1, ← h.2]
                      rcases hc2.2 with hx | hx
                      · exact ⟨hc2.1.trans (hc1.1.trans hc0.1),
                          Or.inl ⟨hx.2.1, Or.inl hx.2.2⟩⟩
                      · exact absurd hx.1 (by decide)
                · simp only [Option.some.injEq, Prod.mk.injEq] at h
                  rw [← h.1, ← h.2]
                  rcases hc1.2 with hx | hx
                  · exact ⟨hc1.1.trans hc0.1, Or.inl ⟨hx.2.1, Or.inl hx.2.2⟩⟩
                  · exact absurd hx.1 (by decide)

/-- Storing the characters of a string changes neither IC nor the error
flag. -/
theorem store_string_chars_counts (chars : List Char) (i : Int) (st st1 : AsmState)
    (h : store_string_chars chars i st = some st1) :
    st1.IC = st.IC ∧ st1.error_flag = st.error_flag := by
  induction chars generalizing i st with
  | nil => simp only [store_string_chars, Option.some.injEq] at h; rw [← h]; exact ⟨rfl, rfl⟩
  | cons c rest ih =>
    unfold store_string_chars at h
    cases hs : store_data st (st.DC + i) (char_to_unsigned c) with
    | none => rw [hs] at h; cases h
    | some st2 =>
      rw [hs] at h
      have h1 := store_data_table _ _ _ _ hs
      have h2 := ih _ _ h
      exact ⟨h2.1.trans h1.2.1, h2.2.trans h1.2.2.2⟩

/-- The string directive body leaves IC unchanged and raises the error flag
or leaves it unchanged. -/
theorem store_string_data_counts (s : List Char) (st st1 : AsmState) (r : Int)
    (h : store_string_data s st = some (r, st1)) :
    st1.IC = st.IC ∧ (st1.error_flag = 1 ∨ st1.error_flag = st.error_flag) := by
  unfold store_string_data at h
  simp only [] at h
  split_ifs at h
  · simp only [Option.some.injEq, Prod.mk.injEq] at h; rw [← h.2]; exact ⟨rfl, Or.inl rfl⟩
  · simp only [Option.some.injEq, Prod.mk.injEq] at h; rw [← h.2]; exact ⟨rfl, Or.inl rfl⟩
  · cases hc : store_string_chars (List.take ((s.length : Int) - 2).toNat (List.drop 1 s)) 0 st with
    | none => rw [hc] at h; cases h
    | some st2 =>
      rw [hc] at h
      simp only [] at h
      cases hd : store_data st2 (st2.DC + ((s.length : Int) - 2)) 0 with
      | none => rw [hd] at h; cases h
      | some st3 =>
        rw [hd] at h
        simp only [Option.some.injEq, Prod.mk.injEq] at h
        rw [← h.2]
        have h1 := store_string_chars_counts _ _ _ _ hc
        have h2 := store_data_table _ _ _ _ hd
        exact ⟨h2.2.1.trans h1.1, Or.inr (h2.2.2.2.trans h1.2)⟩

/-- The value loop of `.data` leaves IC unchanged and raises the error flag
or leaves it unchanged. -/
theorem data_values_loop_counts (tokens : List (List Char)) (count : Int) (st st1 : AsmState)
    (r : Int) (h : data_values_loop tokens count st = some (r, st1)) :
    st1.IC = st.IC ∧ (st1.error_flag = 1 ∨ st1.error_flag = st.error_flag) := by
  induction tokens generalizing count st with
  | nil =>
    simp only [data_values_loop, Option.some.injEq, Prod.mk.injEq] at h
    rw [← h.2]; exact ⟨rfl, Or.inr rfl⟩
  | cons token rest ih =>
    unfold data_values_loop at h
    cases hv : is_valid_integer (trim_whitespace token) with
    | none =>
      rw [hv] at h
      simp only [Option.some.injEq, Prod.mk.injEq] at h; rw [← h.2]; exact ⟨rfl, Or.inl rfl⟩
    | some value =>
      rw [hv] at h
      simp only [] at h
      by_cases hm : st.DC + count ≥ MEMORY_SIZE
      · rw [if_pos hm] at h
        simp only [Option.some.injEq, Prod.mk.injEq] at h; rw [← h.2]; exact ⟨rfl, Or.inl rfl⟩
      · rw [if_neg hm] at h
        cases hs : store_data st (st.DC + count) (maskBits value 10) with
        | none => rw [hs] at h; cases h
        | some st2 =>
          rw [hs] at h
          have h1 := store_data_table _ _ _ _ hs
          have h2 := ih _ _ h
          rw [h1.2.1, h1.2.2.2] at h2
          exact h2

/-- The value loop of `.mat` leaves IC unchanged and raises the error flag or
leaves it unchanged. -/
theorem mat_values_loop_counts (tokens : List (List Char)) (expected count : Int)
    (st st1 : AsmState) (r : Int)
    (h : mat_values_loop tokens expected count st = some (r, st1)) :
    st1.IC = st.IC ∧ (st1.error_flag = 1 ∨ st1.error_flag = st.error_flag) := by
  induction tokens generalizing count st with
  | nil =>
    simp only [mat_values_loop, Option.some.injEq, Prod.mk.injEq] at h
    rw [← h.2]; exact ⟨rfl, Or.inr rfl⟩
  | cons token rest ih =>
    unfold mat_values_loop at h
    by_cases hc : count < expected
    · simp only [hc, not_true_eq_false, if_false] at h
      cases hv : is_valid_integer (trim_whitespace token) with
      | none =>
        rw [hv] at h
        simp only [Option.some.injEq, Prod.mk.injEq] at h; rw [← h.2]; exact ⟨rfl, Or.inl rfl⟩
      | some value =>
        rw [hv] at h
        simp only [] at h
        by_cases hm : st.DC + count ≥ MEMORY_SIZE
        · simp only [hm, if_true, Option.some.injEq, Prod.mk.injEq] at h
          rw [← h.2]; exact ⟨rfl, Or.inl rfl⟩
        · simp only [hm, if_false] at h
          cases hs : store_data st (st.DC + count) (maskBits value 10) with
          | none => rw [hs] at h; cases h
          | some st2 =>
            rw [hs] at h
            have h1 := store_data_table _ _ _ _ hs
            have h2 := ih _ _ h
            rw [h1.2.1, h1.2.2.2] at h2
            exact h2
    · simp only [hc, not_false_eq_true, if_true, Option.some.injEq, Prod.mk.injEq] at h
      rw [← h.2]; exact ⟨rfl, Or.inr rfl⟩

/-- Every directive of the first pass leaves IC unchanged and raises the
error flag or leaves it unchanged. -/
theorem handle_directive_first_pass_counts (parsed : ParsedLine) (st st1 : AsmState) (r : Int)
    (h : handle_directive_first_pass parsed st = some (r, st1)) :
    st1.IC = st.IC ∧ (st1.error_flag = 1 ∨ st1.error_flag = st.error_flag) := by
  unfold handle_directive_first_pass at h
  split_ifs at h
  · unfold process_data_directive_parsed at h
    cases ho : parsed.operand1 with
    | none =>
      rw [ho] at h
      simp only [Option.some.injEq, Prod.mk.injEq] at h; rw [← h.2]; exact ⟨rfl, Or.inl rfl⟩
    | some operand1 =>
      rw [ho] at h
      exact data_values_loop_counts _ _ _ _ _ h
  · unfold process_string_directive_parsed at h
    cases ho : parsed.operand1 with
    | none =>
      rw [ho] at h
      simp only [Option.some.injEq, Prod.mk.injEq] at h; rw [← h.2]; exact ⟨rfl, Or.inl rfl⟩
    | some operand1 =>
      rw [ho] at h
      exact store_string_data_counts _ _ _ _ h
  · unfold process_mat_directive_parsed at h
    cases ho : parsed.operand1 with
    | none =>
      rw [ho] at h
      simp only [Option.some.injEq, Prod.mk.injEq] at h; rw [← h.2]; exact ⟨rfl, Or.inl rfl⟩
    | some operand1 =>
      rw [ho] at h
      simp only [] at h
      cases hd : parse_matrix_dimensions operand1.data with
      | none =>
        rw [hd] at h
        simp only [Option.some.injEq, Prod.mk.injEq] at h; rw [← h.2]; exact ⟨rfl, Or.inl rfl⟩
      | some dims =>
        obtain ⟨rows, cols⟩ := dims
        rw [hd] at h
        simp only [] at h
        cases h2 : parsed.operand2 with
        | none =>
          rw [h2] at h
          simp only [Option.some.injEq, Prod.mk.injEq] at h
          rw [← h.2]; exact ⟨rfl, Or.inl rfl⟩
        | some operand2 =>
          rw [h2] at h
          simp only [] at h
          cases hl : mat_values_loop (strtok_all (fun c => decide (c = ',')) [] operand2.data)
              (rows * cols) 0 st with
          | none => rw [hl] at h; cases h
          | some res =>
            obtain ⟨count, st2⟩ := res
            rw [hl] at h
            simp only [] at h
            have ht := mat_values_loop_counts _ _ _ _ _ _ hl
            split_ifs at h <;>
              (simp only [Option.some.injEq, Prod.mk.injEq] at h; rw [← h.2]) <;>
              first | exact ht | exact ⟨ht.1, Or.inl rfl⟩
  · simp only [Option.some.injEq] at h
    have key : (process_extern_directive_parsed parsed st).2.IC = st.IC
        ∧ ((process_extern_directive_parsed parsed st).2.error_flag = 1
          ∨ (process_extern_directive_parsed parsed st).2.error_flag = st.error_flag) := by
      unfold process_extern_directive_parsed
      cases ho : parsed.operand1 with
      | none => exact ⟨rfl, Or.inl rfl⟩
      | some operand1 =>
        simp only []
        by_cases hv : is_valid_label operand1 = true
        · simp only [hv, not_true_eq_false, if_false]
          cases ha : add_symbol st.symbol_table operand1 0 SymbolAttribute.EXTERNAL_SYMBOL with
          | none => exact ⟨rfl, Or.inl rfl⟩
          | some table => exact ⟨rfl, Or.inr rfl⟩
        · simp only [hv, not_false_eq_true, if_true]
          exact ⟨rfl, Or.inl rfl⟩
    rw [h] at key
    exact key
  · simp only [Option.some.injEq, Prod.mk.injEq] at h; rw [← h.2]; exact ⟨rfl, Or.inr rfl⟩
  · simp only [Option.some.injEq, Prod.mk.injEq] at h; rw [← h.2]; exact ⟨rfl, Or.inl rfl⟩

/-- Label handling that succeeds leaves the error flag unchanged. -/
theorem handle_label_definition_flag (parsed : ParsedLine) (st : AsmState)
    (h : (handle_label_definition parsed st).1 = true) :
    (handle_label_definition parsed st).2.error_flag = st.error_flag := by
  unfold handle_label_definition at h ⊢
  simp only [] at h ⊢
  by_cases h1 : ¬ is_valid_label (parsed.label.getD "") = true
  · rw [if_pos h1] at h; cases h
  · rw [if_neg h1] at h ⊢
    by_cases h2 : (find_symbol st.symbol_table (parsed.label.getD "")).isSome = true
    · rw [if_pos h2] at h; cases h
    · rw [if_neg h2] at h ⊢
      by_cases h3 : parsed.is_directive = true ∧ parsed.command ≠ some ".extern"
      · rw [if_pos h3] at h ⊢
        cases ha : add_symbol st.symbol_table (parsed.label.getD "") st.DC
            SymbolAttribute.DATA_SYMBOL with
        | none => rw [ha] at h; cases h
        | some table => rfl
      · rw [if_neg h3] at h ⊢
        by_cases h4 : ¬ parsed.is_directive = true
        · rw [if_pos h4] at h ⊢
          cases ha : add_symbol st.symbol_table (parsed.label.getD "") st.IC
              SymbolAttribute.CODE_SYMBOL with
          | none => rw [ha] at h; cases h
          | some table => rfl
        · rw [if_neg h4]

/-- A line of the first pass either raises the error flag or leaves it
unchanged and advances IC by the code words of the line. -/
theorem process_line_first_pass_words (line : String) (st st1 : AsmState) (b : Bool)
    (h : process_line_first_pass line st = some (b, st1)) :
    st1.error_flag = 1
      ∨ (st1.error_flag = st.error_flag ∧ st1.IC = st.IC + line_words line) := by
  unfold process_line_first_pass at h
  unfold line_words
  cases hp : parse_line line with
  | none => rw [hp] at h; cases h
  | some parsed =>
    rw [hp] at h
    simp only [] at h ⊢
    by_cases hem : parsed.is_empty = true
    · rw [if_pos hem] at h
      simp only [Option.some.injEq, Prod.mk.injEq] at h
      rw [← h.2, if_pos (Or.inl hem)]
      exact Or.inr ⟨rfl, by omega⟩
    · rw [if_neg hem] at h
      by_cases hr : parsed.is_error = true
      · rw [if_pos hr] at h
        simp only [Option.some.injEq, Prod.mk.injEq] at h
        rw [← h.2]
        exact Or.inl rfl
      · rw [if_neg hr] at h
        have hk : ((if parsed.label.isSome = true then handle_label_definition parsed st
              else (true, st)).1 = false
            ∧ (if parsed.label.isSome = true then handle_label_definition parsed st
              else (true, st)).2.error_flag = 1)
          ∨ ((if parsed.label.isSome = true then handle_label_definition parsed st
              else (true, st)).1 = true
            ∧ (if parsed.label.isSome = true then handle_label_definition parsed st
              else (true, st)).2.error_flag = st.error_flag
            ∧ (if parsed.label.isSome = true then handle_label_definition parsed st
              else (true, st)).2.IC = st.IC) := by
          split_ifs
          · cases hb : (handle_label_definition parsed st).1 with
            | false => exact Or.inl ⟨rfl, handle_label_definition_error parsed st hb⟩
            | true =>
              exact Or.inr ⟨rfl, handle_label_definition_flag parsed st hb,
                handle_label_definition_IC parsed st⟩
          · exact Or.inr ⟨rfl, rfl, rfl⟩
        revert h hk
        generalize (if parsed.label.isSome = true then handle_label_definition parsed st
          else (true, st)) = res
        obtain ⟨b0, st2⟩ := res
        intro h hk
        simp only [] at hk
        cases b0
        · simp only [Option.some.injEq, Prod.mk.injEq] at h
          rw [← h.2]
          rcases hk with hk | hk
          · exact Or.inl hk.2
          · exact absurd hk.1 (by decide)
        · have hk2 : st2.error_flag = st.error_flag ∧ st2.IC = st.IC := by
            rcases hk with hk | hk
            · exact absurd hk.1 (by decide)
            · exact hk.2
          simp only [] at h
          by_cases hd : parsed.is_directive = true
          · rw [if_pos hd] at h
            rw [if_pos (Or.inr (Or.inr hd))]
            cases hh : handle_directive_first_pass parsed st2 with
            | none => rw [hh] at h; cases h
            | some res2 =>
              obtain ⟨result, st3⟩ := res2
              rw [hh] at h
              simp only [Option.some.injEq, Prod.mk.injEq] at h
              have h3 := handle_directive_first_pass_counts _ _ _ _ hh
              rw [← h.2]
              have h6 : (if result > 0 then { st3 with DC := st3.DC + result }
                  else st3).error_flag = st3.error_flag
                  ∧ (if result > 0 then { st3 with DC := st3.DC + result }
                  else st3).IC = st3.IC := by
                split_ifs <;> exact ⟨rfl, rfl⟩
              rw [h6.1, h6.2]
              rcases h3.2 with h7 | h7
              · exact Or.inl h7
              · exact Or.inr ⟨h7.trans hk2.1, by rw [h3.1, hk2.2]; omega⟩
          · rw [if_neg hd] at h
            have hnot : ¬ (parsed.is_empty = true ∨ parsed.is_error = true
                ∨ parsed.is_directive = true) := by
              intro hx
              rcases hx with hx | hx | hx
              · exact hem hx
              · exact hr hx
              · exact hd hx
            rw [if_neg hnot]
            simp only [handle_instruction_first_pass, Option.some.injEq, Prod.mk.injEq] at h
            rw [← h.2]
            rcases process_instruction_parsed_cases parsed st2 with hc | hc
            · left
              have hneg : ¬ (process_instruction_parsed parsed st2).1 > 0 := by
                rw [hc.1]; decide
              rw [if_neg hneg]
              exact hc.2.1
            · right
              rw [hc.1]
              simp only []
              rw [if_pos hc.2]
              exact ⟨hk2.1, by simp only []; rw [hk2.2]⟩

/-- A line of the second pass either raises the error flag or leaves it
unchanged and advances IC by the code words of the line. -/
theorem process_line_second_pass_words (line : String) (st st1 : AsmState) (b : Bool)
    (h : process_line_second_pass line st = some (b, st1)) :
    st1.error_flag = 1
      ∨ (st1.error_flag = st.error_flag ∧ st1.IC = st.IC + line_words line) := by
  unfold process_line_second_pass at h
  unfold line_words
  cases hp : parse_line line with
  | none => rw [hp] at h; cases h
  | some parsed =>
    rw [hp] at h
    simp only [] at h ⊢
    by_cases hem : parsed.is_empty = true
    · rw [if_pos hem] at h
      simp only [Option.some.injEq, Prod.mk.injEq] at h
      rw [← h.2, if_pos (Or.inl hem)]
      exact Or.inr ⟨rfl, by omega⟩
    · rw [if_neg hem] at h
      by_cases hr : parsed.is_error = true
      · rw [if_pos hr] at h
        simp only [Option.some.injEq, Prod.mk.injEq] at h
        rw [← h.2]
        exact Or.inl rfl
      · rw [if_neg hr] at h
        by_cases hd : parsed.is_directive = true
        · rw [if_pos hd] at h
          rw [if_pos (Or.inr (Or.inr hd))]
          by_cases hen : parsed.command = some ".entry"
          · rw [if_pos hen] at h
            simp only [Option.some.injEq, Prod.mk.injEq] at h
            rw [← h.2]
            unfold process_entry_directive_parsed
            cases ho : parsed.operand1 with
            | none => exact Or.inl rfl
            | some operand1 =>
              simp only []
              cases hf : find_symbol st.symbol_table operand1 with
              | none => exact Or.inl rfl
              | some symbol =>
                simp only []
                by_cases hx : symbol.attr = SymbolAttribute.EXTERNAL_SYMBOL
                · rw [if_pos hx]; exact Or.inl rfl
                · rw [if_neg hx]
                  exact Or.inr ⟨rfl, by simp⟩
          · rw [if_neg hen] at h
            simp only [Option.some.injEq, Prod.mk.injEq] at h
            rw [← h.2]
            exact Or.inr ⟨rfl, by omega⟩
        · rw [if_neg hd] at h
          have hnot : ¬ (parsed.is_empty = true ∨ parsed.is_error = true
              ∨ parsed.is_directive = true) := by
            intro hx
            rcases hx with hx | hx | hx
            · exact hem hx
            · exact hr hx
            · exact hd hx
          rw [if_neg hnot]
          cases hen : encode_instruction_parsed parsed st with
          | none => rw [hen] at h; cases h
          | some res =>
            obtain ⟨result, st2⟩ := res
            rw [hen] at h
            simp only [Option.some.injEq, Prod.mk.injEq] at h
            rw [← h.2]
            have hc := encode_instruction_parsed_cases _ _ _ _ hen
            rcases hc.2 with hx | hx
            · have hneg : ¬ result > 0 := by rw [hx.1]; decide
              rw [if_neg hneg]
              rcases hx.2 with hy | hy
              · exact Or.inl hy
              · refine Or.inr ⟨hy.2, ?_⟩
                rw [hc.1]
                unfold instruction_length
                rw [hy.1]
                simp
            · rw [if_pos hx.2.2]
              refine Or.inr ⟨hx.2.1, ?_⟩
              simp only []
              rw [hc.1, hx.1]

/-- The reading loop of the first pass either ends with the error flag
raised or leaves it unchanged and advances IC by the code words of the lines. -/
theorem first_pass_loop_words (lines : List InputLine) (st st1 : AsmState)
    (h : first_pass_loop lines st = some st1) :
    st1.error_flag = 1
      ∨ (st1.error_flag = st.error_flag ∧ st1.IC = st.IC + total_words lines) := by
  induction lines generalizing st with
  | nil =>
    simp only [first_pass_loop, Option.some.injEq] at h
    rw [← h]
    exact Or.inr ⟨rfl, by simp [total_words]⟩
  | cons x rest ih =>
    cases x with
    | too_long =>
      simp only [first_pass_loop] at h
      exact Or.inl (first_pass_loop_error _ _ _ h rfl)
    | text line =>
      simp only [first_pass_loop, total_words] at h ⊢
      by_cases hs : is_empty_line line.data = true ∨ is_comment_line line.data = true
      · rw [if_pos hs] at h ⊢
        exact ih st h
      · rw [if_neg hs] at h ⊢
        cases hp : process_line_first_pass line st with
        | none => rw [hp] at h; cases h
        | some res =>
          obtain ⟨r, st2⟩ := res
          rw [hp] at h
          rcases process_line_first_pass_words _ _ _ _ hp with h1 | h1
          · exact Or.inl (first_pass_loop_error _ _ _ h h1)
          · rcases ih st2 h with h2 | h2
            · exact Or.inl h2
            · exact Or.inr ⟨h2.1.trans h1.1, by rw [h2.2, h1.2]; omega⟩

/-- The reading loop of the second pass keeps a raised error flag. -/
theorem second_pass_loop_error (lines : List InputLine) (st st1 : AsmState)
    (h : second_pass_loop lines st = some st1)
    (he : st.error_flag = 1) : st1.error_flag = 1 := by
  induction lines generalizing st with
  | nil =>
    simp only [second_pass_loop, Option.some.injEq] at h
    rw [← h]; exact he
  | cons x rest ih =>
    cases x with
    | too_long =>
      simp only [second_pass_loop] at h
      exact ih (print_error st "Line is longer than 80 characters") h rfl
    | text line =>
      simp only [second_pass_loop] at h
      by_cases hs : is_empty_line line.data = true ∨ is_comment_line line.data = true
      · rw [if_pos hs] at h
        exact ih st h he
      · rw [if_neg hs] at h
        cases hp : process_line_second_pass line st with
        | none => rw [hp] at h; cases h
        | some res =>
          obtain ⟨r, st2⟩ := res
          rw [hp] at h
          apply ih st2 h
          rcases process_line_second_pass_words _ _ _ _ hp with h1 | h1
          · exact h1
          · exact h1.1.trans he

/-- The reading loop of the second pass either ends with the error flag
raised or leaves it unchanged and advances IC by the code words of the lines. -/
theorem second_pass_loop_words (lines : List InputLine) (st st1 : AsmState)
    (h : second_pass_loop lines st = some st1) :
    st1.error_flag = 1
      ∨ (st1.error_flag = st.error_flag ∧ st1.IC = st.IC + total_words lines) := by
  induction lines generalizing st with
  | nil =>
    simp only [second_pass_loop, Option.some.injEq] at h
    rw [← h]
    exact Or.inr ⟨rfl, by simp [total_words]⟩
  | cons x rest ih =>
    cases x with
    | too_long =>
      simp only [second_pass_loop] at h
      exact Or.inl (second_pass_loop_error _ _ _ h rfl)
    | text line =>
      simp only [second_pass_loop, total_words] at h ⊢
      by_cases hs : is_empty_line line.data = true ∨ is_comment_line line.data = true
      · rw [if_pos hs] at h ⊢
        exact ih st h
      · rw [if_neg hs] at h ⊢
        cases hp : process_line_second_pass line st with
        | none => rw [hp] at h; cases h
        | some res =>
          obtain ⟨r, st2⟩ := res
          rw [hp] at h
          rcases process_line_second_pass_words _ _ _ _ hp with h1 | h1
          · exact Or.inl (second_pass_loop_error _ _ _ h h1)
          · rcases ih st2 h with h2 | h2
            · exact Or.inl h2
            · exact Or.inr ⟨h2.1.trans h1.1, by rw [h2.2, h1.2]; omega⟩

/-- With `DC + count` inside the image bounds, the value loop of `.data`
makes no store outside the data image: it returns, leaves DC unchanged and
reports either -1 or a number of words that fits behind DC. -/
theorem data_values_loop_total (tokens : List (List Char)) (count : Int) (st : AsmState)
    (h0 : 0 ≤ st.DC) (hc : 0 ≤ count) (h1 : st.DC + count ≤ 256) :
    ∃ r st1, data_values_loop tokens count st = some (r, st1) ∧ st1.DC = st.DC
      ∧ (r = -1 ∨ (count ≤ r ∧ st.DC + r ≤ 256)) := by
  induction tokens generalizing count st with
  | nil => exact ⟨count, st, rfl, rfl, Or.inr ⟨le_refl _, h1⟩⟩
  | cons token rest ih =>
    rw [data_values_loop]
    cases hv : is_valid_integer (trim_whitespace token) with
    | none => exact ⟨-1, _, rfl, rfl, Or.inl rfl⟩
    | some value =>
      simp only []
      by_cases hm : st.DC + count ≥ MEMORY_SIZE
      · rw [if_pos hm]
        exact ⟨-1, _, rfl, rfl, Or.inl rfl⟩
      · rw [if_neg hm]
        simp only [MEMORY_SIZE, ge_iff_le, not_le] at hm
        have hm' : st.DC + count < 256 := by exact_mod_cast hm
        rw [store_data_in_bounds st _ _ ⟨by omega, hm'⟩]
        simp only []
        obtain ⟨r, st1, hr, hd, hres⟩ := ih (count + 1)
          { st with data_image :=
              fun j => if j = (st.DC + count).toNat then maskBits value 10 else st.data_image j }
          h0 (by omega) (by simp only []; omega)
        refine ⟨r, st1, hr, hd, ?_⟩
        rcases hres with h | h
        · exact Or.inl h
        · exact Or.inr ⟨by omega, h.2⟩

/-- The same for the value loop of `.mat`. -/
theorem mat_values_loop_total (tokens : List (List Char)) (expected count : Int)
    (st : AsmState) (h0 : 0 ≤ st.DC) (hc : 0 ≤ count) (h1 : st.DC + count ≤ 256) :
    ∃ r st1, mat_values_loop tokens expected count st = some (r, st1) ∧ st1.DC = st.DC
      ∧ (r = -1 ∨ (count ≤ r ∧ st.DC + r ≤ 256)) := by
  induction tokens generalizing count st with
  | nil => exact ⟨count, st, rfl, rfl, Or.inr ⟨le_refl _, h1⟩⟩
  | cons token rest ih =>
    rw [mat_values_loop]
    by_cases he : count < expected
    · rw [if_neg (not_not.mpr he)]
      cases hv : is_valid_integer (trim_whitespace token) with
      | none => exact ⟨-1, _, rfl, rfl, Or.inl rfl⟩
      | some value =>
        simp only []
        by_cases hm : st.DC + count ≥ MEMORY_SIZE
        · rw [if_pos hm]
          exact ⟨-1, _, rfl, rfl, Or.inl rfl⟩
        · rw [if_neg hm]
          simp only [MEMORY_SIZE, ge_iff_le, not_le] at hm
          have hm' : st.DC + count < 256 := by exact_mod_cast hm
          rw [store_data_in_bounds st _ _ ⟨by omega, hm'⟩]
          simp only []
          obtain ⟨r, st1, hr, hd, hres⟩ := ih (count + 1)
            { st with data_image :=
                fun j => if j = (st.DC + count).toNat then maskBits value 10
                  else st.data_image j }
            h0 (by omega) (by simp only []; omega)
          refine ⟨r, st1, hr, hd, ?_⟩
          rcases hres with h | h
          · exact Or.inl h
          · exact Or.inr ⟨by omega, h.2⟩
    · rw [if_pos he]
      exact ⟨count, st, rfl, rfl, Or.inr ⟨le_refl _, h1⟩⟩

/-- With DC inside the image bounds, `store_string_data` makes no store
outside the data image: it returns, leaves DC unchanged and reports either -1
or a positive number of words that fits behind DC. -/
theorem store_string_data_total (lit : List Char) (st : AsmState)
    (h0 : 0 ≤ st.DC) :
    ∃ r st1, store_string_data lit st = some (r, st1) ∧ st1.DC = st.DC
      ∧ (r = -1 ∨ (0 < r ∧ st.DC + r ≤ 256)) := by
  unfold store_string_data
  simp only []
  by_cases hbad : (lit.length : Int) < 2 ∨ lit.head? ≠ some (Char.ofNat 34)
      ∨ lit.getLast? ≠ some (Char.ofNat 34)
  · rw [if_pos hbad]
    exact ⟨-1, _, rfl, rfl, Or.inl rfl⟩
  · rw [if_neg hbad]
    by_cases hm : st.DC + ((lit.length : Int) - 2) + 1 ≥ (MEMORY_SIZE : Int)
    · rw [if_pos hm]
      exact ⟨-1, _, rfl, rfl, Or.inl rfl⟩
    · rw [if_neg hm]
      simp only [MEMORY_SIZE, ge_iff_le, not_le] at hm
      have hm' : st.DC + ((lit.length : Int) - 2) + 1 < 256 := by exact_mod_cast hm
      have hlen : (2 : Int) ≤ lit.length := by
        by_contra hc
        exact hbad (Or.inl (by omega))
      have hn : ((lit.length : Int) - 2).toNat = lit.length - 2 := by omega
      have hclen : (List.take (lit.length - 2) (List.drop 1 lit)).length = lit.length - 2 := by
        simp only [List.length_take, List.length_drop]
        omega
      obtain ⟨st1, hs, hDC1, _, _, _, _, _, _⟩ :=
        store_string_chars_spec (List.take (lit.length - 2) (List.drop 1 lit)) 0 st
          (by omega) (by rw [hclen]; omega)
      rw [hn, hs]
      simp only []
      rw [store_data_in_bounds st1 _ _ ⟨by rw [hDC1]; omega, by rw [hDC1]; omega⟩]
      exact ⟨_, _, rfl, hDC1, Or.inr ⟨by omega, by omega⟩⟩

/-- The `.extern` directive leaves DC unchanged and returns 0 or -1. -/
theorem process_extern_directive_parsed_DC (parsed : ParsedLine) (st : AsmState) :
    (process_extern_directive_parsed parsed st).2.DC = st.DC
      ∧ (process_extern_directive_parsed parsed st).1 ≤ 0 := by
  unfold process_extern_directive_parsed
  cases ho : parsed.operand1 with
  | none => exact ⟨rfl, by simp⟩
  | some operand1 =>
    simp only []
    by_cases hv : is_valid_label operand1 = true
    · simp only [hv, not_true_eq_false, if_false]
      cases ha : add_symbol st.symbol_table operand1 0 SymbolAttribute.EXTERNAL_SYMBOL with
      | none => exact ⟨rfl, by simp⟩
      | some table => exact ⟨rfl, by simp⟩
    · simp only [hv, not_false_eq_true, if_true]
      exact ⟨rfl, by simp⟩

/-- With DC inside the image bounds, every directive of the first pass
returns without a store outside the data image, leaves DC unchanged, and a
positive result fits behind DC. -/
theorem handle_directive_first_pass_total (parsed : ParsedLine) (st : AsmState)
    (h0 : 0 ≤ st.DC) (h1 : st.DC ≤ 256) :
    ∃ r st1, handle_directive_first_pass parsed st = some (r, st1) ∧ st1.DC = st.DC
      ∧ (0 < r → st.DC + r ≤ 256) := by
  unfold handle_directive_first_pass
  split_ifs
  · unfold process_data_directive_parsed
    cases ho : parsed.operand1 with
    | none => exact ⟨-1, _, rfl, rfl, fun h => absurd h (by decide)⟩
    | some operand1 =>
      simp only []
      obtain ⟨r, st1, hr, hd, hres⟩ := data_values_loop_total
        (strtok_all (fun c => decide (c = ',')) []
          (match parsed.operand2 with
            | none => operand1.data
            | some operand2 => operand1.data ++ [','] ++ operand2.data)) 0 st h0 (le_refl 0)
        (by omega)
      refine ⟨r, st1, hr, hd, ?_⟩
      intro hpos
      rcases hres with h | h
      · omega
      · exact h.2
  · unfold process_string_directive_parsed
    cases ho : parsed.operand1 with
    | none => exact ⟨-1, _, rfl, rfl, fun h => absurd h (by decide)⟩
    | some operand1 =>
      simp only []
      obtain ⟨r, st1, hr, hd, hres⟩ := store_string_data_total operand1.data st h0
      refine ⟨r, st1, hr, hd, ?_⟩
      intro hpos
      rcases hres with h | h
      · omega
      · exact h.2
  · unfold process_mat_directive_parsed
    cases ho : parsed.operand1 with
    | none => exact ⟨-1, _, rfl, rfl, fun h => absurd h (by decide)⟩
    | some operand1 =>
      simp only []
      cases hd : parse_matrix_dimensions operand1.data with
      | none => exact ⟨-1, _, rfl, rfl, fun h => absurd h (by decide)⟩
      | some dims =>
        obtain ⟨rows, cols⟩ := dims
        simp only []
        cases h2 : parsed.operand2 with
        | none => exact ⟨-1, _, rfl, rfl, fun h => absurd h (by decide)⟩
        | some operand2 =>
          simp only []
          obtain ⟨r, st1, hr, hdc, hres⟩ := mat_values_loop_total
            (strtok_all (fun c => decide (c = ',')) [] operand2.data) (rows * cols) 0 st h0
            (le_refl 0) (by omega)
          rw [hr]
          simp only []
          by_cases hm1 : r = -1
          · rw [if_pos hm1]
            exact ⟨-1, _, rfl, hdc, fun h => absurd h (by decide)⟩
          · rw [if_neg hm1]
            by_cases hne : r ≠ rows * cols
            · rw [if_pos hne]
              exact ⟨-1, _, rfl, hdc, fun h => absurd h (by decide)⟩
            · rw [if_neg hne]
              refine ⟨r, st1, rfl, hdc, ?_⟩
              intro _
              rcases hres with h | h
              · exact absurd h hm1
              · exact h.2
  · have h := process_extern_directive_parsed_DC parsed st
    refine ⟨(process_extern_directive_parsed parsed st).1,
      (process_extern_directive_parsed parsed st).2, rfl, h.1, ?_⟩
    intro hpos
    omega
  · exact ⟨0, st, rfl, rfl, fun h => absurd h (by decide)⟩
  · exact ⟨-1, _, rfl, rfl, fun h => absurd h (by decide)⟩

/-- Label handling leaves DC unchanged. -/
theorem handle_label_definition_DC (parsed : ParsedLine) (st : AsmState) :
    (handle_label_definition parsed st).2.DC = st.DC := by
  unfold handle_label_definition
  simp only [print_error]
  split_ifs <;> first | rfl | (split <;> rfl)

/-- Operand validation leaves DC unchanged. -/
theorem validate_instruction_operands_DC (opcode : Int) (src dest : Option String)
    (st : AsmState) :
    (validate_instruction_operands opcode src dest st).2.DC = st.DC := by
  unfold validate_instruction_operands
  simp only []
  split_ifs <;> rfl

/-- Instruction processing in the first pass leaves DC unchanged. -/
theorem process_instruction_parsed_DC (parsed : ParsedLine) (st : AsmState) :
    (process_instruction_parsed parsed st).2.DC = st.DC := by
  unfold process_instruction_parsed
  cases hc : parsed.command with
  | none => rfl
  | some command =>
    simp only []
    by_cases h1 : get_instruction_opcode command = -1
    · simp only [h1, if_true]; rfl
    · simp only [h1, if_false]
      by_cases h2 : actual_operands parsed ≠
          count_operands_for_instruction (get_instruction_opcode command)
      · rw [if_pos h2]; rfl
      · rw [if_neg h2]
        split
        · next st1 heq =>
          have := congrArg (fun p : Bool × AsmState => p.2.DC) heq
          simp only [validate_instruction_operands_DC] at this
          exact this.symm
        · next st1 heq =>
          have := congrArg (fun p : Bool × AsmState => p.2.DC) heq
          simp only [validate_instruction_operands_DC] at this
          exact this.symm

/-- With DC inside the image bounds, a line of the first pass is processed
without a store outside the data image (the line function is undefined only
where the parser is), DC stays inside the bounds, and a rejected line leaves
DC unchanged. -/
theorem process_line_first_pass_DC (line : String) (st : AsmState)
    (h0 : 0 ≤ st.DC) (h1 : st.DC ≤ 256) :
    (process_line_first_pass line st = none ↔ parse_line line = none)
    ∧ (∀ b st1, process_line_first_pass line st = some (b, st1) →
        0 ≤ st1.DC ∧ st1.DC ≤ 256 ∧ st.DC ≤ st1.DC ∧ (b = false → st1.DC = st.DC)) := by
  unfold process_line_first_pass
  cases hp : parse_line line with
  | none => simp
  | some parsed =>
    simp only []
    by_cases hem : parsed.is_empty = true
    · rw [if_pos hem]
      simp only [reduceCtorEq, Option.some.injEq, Prod.mk.injEq, false_iff, not_false_eq_true,
        true_and]
      rintro b st1 ⟨_, rfl⟩
      exact ⟨h0, h1, le_refl _, fun _ => rfl⟩
    · rw [if_neg hem]
      by_cases hr : parsed.is_error = true
      · rw [if_pos hr]
        simp only [reduceCtorEq, Option.some.injEq, Prod.mk.injEq, false_iff,
          not_false_eq_true, true_and]
        rintro b st1 ⟨_, rfl⟩
        exact ⟨h0, h1, le_refl _, fun _ => rfl⟩
      · rw [if_neg hr]
        have hk : (if parsed.label.isSome = true then handle_label_definition parsed st
              else (true, st)).2.DC = st.DC := by
          split_ifs
          · exact handle_label_definition_DC parsed st
          · rfl
        revert hk
        generalize (if parsed.label.isSome = true then handle_label_definition parsed st
          else (true, st)) = res
        obtain ⟨b0, st2⟩ := res
        intro hk
        simp only [] at hk
        cases b0
        · simp only [reduceCtorEq, Option.some.injEq, Prod.mk.injEq, false_iff,
            not_false_eq_true, true_and]
          rintro b st1 ⟨_, rfl⟩
          rw [hk]
          exact ⟨h0, h1, le_refl _, fun _ => rfl⟩
        · simp only []
          by_cases hd : parsed.is_directive = true
          · rw [if_pos hd]
            obtain ⟨r, st3, hr3, hdc, hfit⟩ :=
              handle_directive_first_pass_total parsed st2 (by rw [hk]; exact h0)
                (by rw [hk]; exact h1)
            rw [hr3]
            simp only [reduceCtorEq, Option.some.injEq, Prod.mk.injEq, false_iff,
              not_false_eq_true, true_and]
            rintro b st1 ⟨hb, rfl⟩
            by_cases hpos : r > 0
            · rw [if_pos hpos]
              simp only []
              have := hfit hpos
              refine ⟨by omega, by omega, by omega, ?_⟩
              intro hbf
              rw [hbf] at hb
              simp only [ge_iff_le, decide_eq_false_iff_not, not_le] at hb
              omega
            · rw [if_neg hpos]
              rw [hdc, hk]
              exact ⟨h0, h1, le_refl _, fun _ => rfl⟩
          · rw [if_neg hd]
            simp only [handle_instruction_first_pass, reduceCtorEq, Option.some.injEq,
              Prod.mk.injEq, false_iff, not_false_eq_true, true_and]
            rintro b st1 ⟨_, rfl⟩
            have h3 := process_instruction_parsed_DC parsed st2
            have h4 : (if (process_instruction_parsed parsed st2).1 > 0 then
                  { (process_instruction_parsed parsed st2).2 with
                    IC := (process_instruction_parsed parsed st2).2.IC
                      + (process_instruction_parsed parsed st2).1 }
                else (process_instruction_parsed parsed st2).2).DC = st.DC := by
              split_ifs
              · show (process_instruction_parsed parsed st2).2.DC = st.DC
                rw [h3, hk]
              · rw [h3, hk]
            rw [h4]
            exact ⟨h0, h1, le_refl _, fun _ => rfl⟩

/-- The reading loop of the first pass keeps DC inside the image bounds. -/
theorem first_pass_loop_DC (lines : List InputLine) (st st1 : AsmState)
    (h : first_pass_loop lines st = some st1) (h0 : 0 ≤ st.DC) (h1 : st.DC ≤ 256) :
    0 ≤ st1.DC ∧ st1.DC ≤ 256 := by
  induction lines generalizing st with
  | nil =>
    simp only [first_pass_loop, Option.some.injEq] at h
    rw [← h]; exact ⟨h0, h1⟩
  | cons x rest ih =>
    cases x with
    | too_long =>
      simp only [first_pass_loop] at h
      exact ih (print_error st "Line is longer than 80 characters") h h0 h1
    | text line =>
      simp only [first_pass_loop] at h
      by_cases hs : is_empty_line line.data = true ∨ is_comment_line line.data = true
      · rw [if_pos hs] at h
        exact ih st h h0 h1
      · rw [if_neg hs] at h
        cases hp : process_line_first_pass line st with
        | none => rw [hp] at h; cases h
        | some res =>
          obtain ⟨r, st2⟩ := res
          rw [hp] at h
          have := (process_line_first_pass_DC line st h0 h1).2 r st2 hp
          exact ih st2 h this.1 this.2.1

/-- A string token with fewer than 2 characters, or not starting and ending
with a double quote, makes `store_string_data` fail with the diagnostic
"String must be enclosed in quotes" and return -1; otherwise, when DC + n + 1
is below 256 for n the number of characters between the quotes, it stores the
converted character i at `data_image[DC + i]` for i < n, which is the byte
value of the character when the character is ASCII, and 0 at
`data_image[DC + n]`, changes no other word, and returns n + 1. -/
theorem store_string_data_stores (lit : List Char) (st : AsmState) :
    (((lit.length : Int) < 2 ∨ lit.head? ≠ some (Char.ofNat 34)
        ∨ lit.getLast? ≠ some (Char.ofNat 34)) →
      store_string_data lit st =
        some (-1, print_error st "String must be enclosed in quotes"))
    ∧ (¬ ((lit.length : Int) < 2 ∨ lit.head? ≠ some (Char.ofNat 34)
        ∨ lit.getLast? ≠ some (Char.ofNat 34)) →
      0 ≤ st.DC → st.DC + ((lit.length : Int) - 2) + 1 < MEMORY_SIZE →
      ∃ st1, store_string_data lit st = some ((lit.length : Int) - 2 + 1, st1)
        ∧ (∀ k, k < lit.length - 2 →
            st1.data_image (st.DC.toNat + k) =
              char_to_unsigned (lit.getD (k + 1) (Char.ofNat 0)))
        ∧ (∀ k, k < lit.length - 2 → (lit.getD (k + 1) (Char.ofNat 0)).toNat < 128 →
            st1.data_image (st.DC.toNat + k) = (lit.getD (k + 1) (Char.ofNat 0)).toNat)
        ∧ st1.data_image (st.DC.toNat + (lit.length - 2)) = 0
        ∧ (∀ j, (j < st.DC.toNat ∨ st.DC.toNat + (lit.length - 2) < j) →
            st1.data_image j = st.data_image j)
        ∧ st1.DC = st.DC ∧ st1.error_flag = st.error_flag
        ∧ st1.diagnostics = st.diagnostics) := by
  constructor
  · intro hbad
    unfold store_string_data
    simp only []
    rw [if_pos hbad]
  · intro hgood hDC hmem
    have hlen : (2 : Int) ≤ lit.length := by
      by_contra hc
      exact hgood (Or.inl (by omega))
    have hlenN : 2 ≤ lit.length := by exact_mod_cast hlen
    simp only [MEMORY_SIZE] at hmem
    have hn : ((lit.length : Int) - 2).toNat = lit.length - 2 := by omega
    have hclen : (List.take (lit.length - 2) (List.drop 1 lit)).length = lit.length - 2 := by
      simp only [List.length_take, List.length_drop]
      omega
    obtain ⟨st1, hs, hDC1, hIC1, herr1, hdiag1, hsym1, hin, hout⟩ :=
      store_string_chars_spec (List.take (lit.length - 2) (List.drop 1 lit)) 0 st
        (by omega) (by rw [hclen]; omega)
    have hb : 0 ≤ st1.DC + ((lit.length : Int) - 2) ∧ st1.DC + ((lit.length : Int) - 2) < 256 := by
      rw [hDC1]; constructor <;> omega
    have hidx : (st1.DC + ((lit.length : Int) - 2)).toNat = st.DC.toNat + (lit.length - 2) := by
      rw [hDC1]; omega
    have hbase : (st.DC + 0).toNat = st.DC.toNat := by simp
    have hstored : ∀ k, k < lit.length - 2 →
        (if st.DC.toNat + k = (st1.DC + ((lit.length : Int) - 2)).toNat then 0
          else st1.data_image (st.DC.toNat + k)) =
          char_to_unsigned (lit.getD (k + 1) (Char.ofNat 0)) := by
      intro k hk
      have h1 := hin k (by rw [hclen]; exact hk)
      rw [hbase] at h1
      have hne : st.DC.toNat + k ≠ (st1.DC + ((lit.length : Int) - 2)).toNat := by
        rw [hidx]; omega
      simp only [hne, if_false]
      rw [h1]
      congr 1
      simp only [List.getD_eq_getElem?_getD, List.getElem?_take, hk, if_true,
        List.getElem?_drop]
      rw [Nat.add_comm 1 k]
    refine ⟨{ st1 with data_image :=
        fun j => if j = (st1.DC + ((lit.length : Int) - 2)).toNat then 0
          else st1.data_image j }, ?_, ?_, ?_, ?_, ?_, hDC1, herr1, hdiag1⟩
    · unfold store_string_data
      simp only []
      have hmem2 : ¬ st.DC + ((lit.length : Int) - 2) + 1 ≥ (MEMORY_SIZE : Int) := by
        simp only [MEMORY_SIZE]; omega
      rw [if_neg hgood, if_neg hmem2, hn, hs]
      simp only []
      rw [store_data_in_bounds st1 _ _ hb]
    · exact hstored
    · intro k hk hascii
      refine (hstored k hk).trans ?_
      unfold char_to_unsigned
      rw [if_pos hascii]
    · rw [hidx]
      simp
    · intro j hj
      have hne : j ≠ (st1.DC + ((lit.length : Int) - 2)).toNat := by
        rw [hidx]; omega
      simp only [hne, if_false]
      exact hout j (by rw [hbase, hclen]; omega)

/-- When the line loop of `create_object_file` returns, it has written one
line per index, with the address `base + i` and the word `image[i]`. -/
theorem write_image_lines_eq (image : Nat → Nat) (base : Int) (count start : Nat)
    (lines : List String) (h : write_image_lines image base start count = some lines) :
    lines = (List.range count).map (fun j =>
      output_line (to_base4 (to_unsigned (base + ((start + j : Nat) : Int))))
        (to_base4 (image (start + j)))) := by
  induction count generalizing start lines with
  | zero =>
    rw [write_image_lines] at h
    simp only [Option.some.injEq] at h
    rw [← h]
    rfl
  | succ n ih =>
    rw [write_image_lines, load_word] at h
    by_cases hlt : start < MEMORY_SIZE
    · rw [if_pos hlt] at h
      simp only [] at h
      cases hr : write_image_lines image base (start + 1) n with
      | none => rw [hr] at h; cases h
      | some rest =>
        rw [hr] at h
        simp only [Option.some.injEq] at h
        rw [← h, ih (start + 1) rest hr]
        simp only [List.range_succ_eq_map, List.map_cons, List.map_map, Nat.add_zero]
        congr 1
        apply List.map_congr_left
        intro j _
        simp only [Function.comp]
        have : start + 1 + j = start + (j + 1) := by omega
        rw [this]
    · rw [if_neg hlt] at h
      cases h

/-- A store in the instruction image changes neither the symbol table nor
the externals list. -/
theorem store_instruction_lists (st st1 : AsmState) (index : Int) (word : Nat)
    (h : store_instruction st index word = some st1) :
    st1.symbol_table = st.symbol_table ∧ st1.externals_list = st.externals_list := by
  unfold store_instruction at h
  cases hw : store_word st.instruction_image index word with
  | none => rw [hw] at h; cases h
  | some image =>
    rw [hw] at h
    simp only [Option.some.injEq] at h
    rw [← h]
    exact ⟨rfl, rfl⟩

/-- An operand makes at most one reference, so its references read the same
in both directions. -/
theorem operand_usages_reverse (table : List SymbolNode) (IC : Int) (operand : Option String) :
    (operand_usages table IC operand).reverse = operand_usages table IC operand := by
  unfold operand_usages
  cases operand with
  | none => rfl
  | some text =>
    simp only []
    split_ifs
    · rfl
    · rfl
    · cases parse_matrix_operand text.data with
      | none => rfl
      | some res =>
        obtain ⟨label, row, col⟩ := res
        simp only []
        split_ifs <;> rfl
    · rfl

/-- The references of an operand depend on the table only through the names
it holds as EXTERNAL symbols. -/
theorem operand_usages_congr (t T : List SymbolNode) (IC : Int) (operand : Option String)
    (hext : ∀ n, is_external_name t n = is_external_name T n) :
    operand_usages t IC operand = operand_usages T IC operand := by
  unfold operand_usages
  cases operand with
  | none => rfl
  | some text =>
    simp only [hext]

/-- The references of a line depend on the table only through the names it
holds as EXTERNAL symbols. -/
theorem line_usages_congr (t T : List SymbolNode) (IC : Int) (line : String)
    (hext : ∀ n, is_external_name t n = is_external_name T n) :
    line_usages t IC line = line_usages T IC line := by
  unfold line_usages instruction_usages
  simp only [operand_usages_congr t T _ _ hext]

/-- Marking a symbol that is not EXTERNAL as an entry changes no name's being
EXTERNAL. -/
theorem set_entry_attribute_external (head : List SymbolNode) (name : String)
    (symbol : SymbolNode) (hf : find_symbol head name = some symbol)
    (hne : symbol.attr ≠ SymbolAttribute.EXTERNAL_SYMBOL) (n : String) :
    is_external_name (set_entry_attribute head name) n = is_external_name head n := by
  induction head with
  | nil => rfl
  | cons current next ih =>
    unfold find_symbol at hf
    unfold set_entry_attribute
    by_cases hc : current.name = name
    · rw [if_pos hc] at hf
      simp only [Option.some.injEq] at hf
      rw [if_pos hc]
      unfold is_external_name find_symbol
      simp only []
      by_cases hn : current.name = n
      · rw [if_pos hn, if_pos hn]
        simp only []
        rw [hf]
        simp [hne]
      · rw [if_neg hn, if_neg hn]
    · rw [if_neg hc] at hf
      rw [if_neg hc]
      have h1 := ih hf
      unfold is_external_name at h1 ⊢
      rw [find_symbol, find_symbol]
      by_cases hn : current.name = n
      · rw [if_pos hn, if_pos hn]
      · rw [if_neg hn, if_neg hn]
        exact h1

/-- The immediate encoder changes neither the symbol table nor the externals
list. -/
theorem encode_immediate_operand_lists (operand : String) (st st1 : AsmState) (r : Int)
    (h : encode_immediate_operand operand st = some (r, st1)) :
    st1.symbol_table = st.symbol_table ∧ st1.externals_list = st.externals_list := by
  unfold encode_immediate_operand at h
  cases hv : is_valid_integer (operand.data.drop 1) with
  | none =>
    rw [hv] at h
    simp only [Option.some.injEq, Prod.mk.injEq] at h
    rw [← h.2]
    exact ⟨rfl, rfl⟩
  | some value =>
    rw [hv] at h
    simp only [] at h
    cases hs : store_instruction st (st.IC - IC_INITIAL_VALUE + 1)
        (maskBits value 10 <<< 2 ||| 0) with
    | none => rw [hs] at h; cases h
    | some st2 =>
      rw [hs] at h
      simp only [Option.some.injEq, Prod.mk.injEq] at h
      rw [← h.2]
      exact store_instruction_lists _ _ _ _ hs

/-- The direct encoder leaves the symbol table unchanged and puts one record,
with the operand and the address IC + 1, in front of the externals list when
the operand names an EXTERNAL symbol; otherwise it leaves the list unchanged. -/
theorem encode_direct_operand_usages (operand : String) (st st1 : AsmState) (r : Int)
    (h : encode_direct_operand operand st = some (r, st1)) :
    st1.symbol_table = st.symbol_table
    ∧ st1.externals_list =
        (if is_external_name st.symbol_table operand = true then
          [{ symbol_name := operand, address := st.IC + 1 }] else []) ++ st.externals_list := by
  unfold encode_direct_operand at h
  unfold is_external_name
  cases hf : find_symbol st.symbol_table operand with
  | none =>
    rw [hf] at h
    simp only [Option.some.injEq, Prod.mk.injEq] at h
    rw [← h.2]
    exact ⟨rfl, rfl⟩
  | some symbol =>
    rw [hf] at h
    simp only [] at h ⊢
    by_cases he : symbol.attr = SymbolAttribute.EXTERNAL_SYMBOL
    · simp only [he, if_true] at h
      cases hs : store_instruction (add_external_usage st operand (st.IC + 1))
          ((add_external_usage st operand (st.IC + 1)).IC - IC_INITIAL_VALUE + 1)
          (maskBits 0 10 <<< 2 |||
            maskBits (determine_are_field operand 1 st.symbol_table) 2) with
      | none => rw [hs] at h; cases h
      | some st2 =>
        rw [hs] at h
        simp only [Option.some.injEq, Prod.mk.injEq] at h
        have hl := store_instruction_lists _ _ _ _ hs
        rw [← h.2, hl.1, hl.2]
        simp [he, add_external_usage]
    · simp only [he, if_false] at h
      cases hs : store_instruction st (st.IC - IC_INITIAL_VALUE + 1)
          (maskBits symbol.address 10 <<< 2 |||
            maskBits (determine_are_field operand 1 st.symbol_table) 2) with
      | none => rw [hs] at h; cases h
      | some st2 =>
        rw [hs] at h
        simp only [Option.some.injEq, Prod.mk.injEq] at h
        have hl := store_instruction_lists _ _ _ _ hs
        rw [← h.2, hl.1, hl.2]
        simp [he]

/-- The matrix encoder leaves the symbol table unchanged and puts one record,
with the label of the operand and the address IC + 1, in front of the
externals list when the label names an EXTERNAL symbol; otherwise it leaves
the list unchanged. -/
theorem encode_matrix_operand_usages (operand : String) (st st1 : AsmState) (r : Int)
    (h : encode_matrix_operand operand st = some (r, st1)) :
    st1.symbol_table = st.symbol_table
    ∧ st1.externals_list =
        (match parse_matrix_operand operand.data with
          | none => []
          | some (label, _, _) =>
            if is_external_name st.symbol_table label = true then
              [{ symbol_name := label, address := st.IC + 1 }] else []) ++ st.externals_list := by
  unfold encode_matrix_operand at h
  cases hp : parse_matrix_operand operand.data with
  | none =>
    rw [hp] at h
    simp only [Option.some.injEq, Prod.mk.injEq] at h
    rw [← h.2]
    exact ⟨rfl, rfl⟩
  | some res =>
    obtain ⟨label, row, col⟩ := res
    rw [hp] at h
    simp only [] at h ⊢
    unfold is_external_name
    cases hf : find_symbol st.symbol_table label with
    | none =>
      rw [hf] at h
      simp only [Option.some.injEq, Prod.mk.injEq] at h
      rw [← h.2]
      exact ⟨rfl, rfl⟩
    | some symbol =>
      rw [hf] at h
      simp only [] at h ⊢
      have hst : ∀ st0 : AsmState,
          ∀ w1 w2, (match store_instruction st0 (st0.IC - IC_INITIAL_VALUE + 1) w1 with
            | none => none
            | some st2 =>
              match store_instruction st2 (st2.IC - IC_INITIAL_VALUE + 2) w2 with
              | none => none
              | some st3 => some ((2 : Int), st3)) = some (r, st1) →
          st1.symbol_table = st0.symbol_table ∧ st1.externals_list = st0.externals_list := by
        intro st0 w1 w2 hm
        cases hs : store_instruction st0 (st0.IC - IC_INITIAL_VALUE + 1) w1 with
        | none => rw [hs] at hm; cases hm
        | some st2 =>
          rw [hs] at hm
          simp only [] at hm
          cases hs2 : store_instruction st2 (st2.IC - IC_INITIAL_VALUE + 2) w2 with
          | none => rw [hs2] at hm; cases hm
          | some st3 =>
            rw [hs2] at hm
            simp only [Option.some.injEq, Prod.mk.injEq] at hm
            have hl := store_instruction_lists _ _ _ _ hs
            have hl2 := store_instruction_lists _ _ _ _ hs2
            rw [← hm.2]
            exact ⟨hl2.1.trans hl.1, hl2.2.trans hl.2⟩
      by_cases he : symbol.attr = SymbolAttribute.EXTERNAL_SYMBOL
      · simp only [he, if_true] at h
        have hl := hst (add_external_usage st label (st.IC + 1)) _ _ h
        rw [hl.1, hl.2]
        simp [he, add_external_usage]
      · simp only [he, if_false] at h
        have hl := hst st _ _ h
        rw [hl.1, hl.2]
        simp [he]

/-- Encoding an operand with its own addressing mode leaves the symbol table
unchanged and puts the references of the operand in front of the externals
list. -/
theorem encode_operand_usages (text : String) (st st1 : AsmState) (r : Int)
    (h : encode_operand text (get_addressing_mode (some text)) st = some (r, st1)) :
    st1.IC = st.IC
    ∧ st1.symbol_table = st.symbol_table
    ∧ st1.externals_list =
        operand_usages st.symbol_table st.IC (some text) ++ st.externals_list := by
  unfold encode_operand at h
  unfold operand_usages
  simp only []
  generalize get_addressing_mode (some text) = mode at h ⊢
  by_cases h0 : mode = 0
  · rw [if_pos h0] at h
    subst h0
    refine ⟨(encode_immediate_operand_cases _ _ _ _ h).1, ?_⟩
    simpa using encode_immediate_operand_lists _ _ _ _ h
  · rw [if_neg h0] at h
    by_cases h1 : mode = 1
    · rw [if_pos h1] at h
      subst h1
      refine ⟨(encode_direct_operand_cases _ _ _ _ h).1, ?_⟩
      simpa using encode_direct_operand_usages _ _ _ _ h
    · rw [if_neg h1] at h
      by_cases h2 : mode = 2
      · rw [if_pos h2] at h
        subst h2
        refine ⟨(encode_matrix_operand_cases _ _ _ _ h).1, ?_⟩
        have := encode_matrix_operand_usages _ _ _ _ h
        simpa using this
      · rw [if_neg h2] at h
        rw [if_neg h1, if_neg h2]
        by_cases h3 : mode = 3
        · rw [if_pos h3] at h
          cases hs : store_instruction st (st.IC - IC_INITIAL_VALUE + 1)
              (encode_register_operand text 0) with
          | none => rw [hs] at h; cases h
          | some st2 =>
            rw [hs] at h
            simp only [Option.some.injEq, Prod.mk.injEq] at h
            rw [← h.2]
            refine ⟨(store_instruction_counts _ _ _ _ hs).1, ?_⟩
            simpa using store_instruction_lists _ _ _ _ hs
        · rw [if_neg h3] at h
          simp only [Option.some.injEq, Prod.mk.injEq] at h
          rw [← h.2]
          exact ⟨rfl, rfl, rfl⟩

/-- The optional-operand step, on an operand with its own addressing mode,
leaves the symbol table unchanged and puts the references of the operand in
front of the externals list. -/
theorem encode_optional_operand_usages (operand : Option String) (mode words_used : Int)
    (st st1 : AsmState) (b : Bool) (r : Int)
    (hm : operand.isSome = true → mode = get_addressing_mode operand)
    (h : encode_optional_operand operand mode words_used st = some ((b, r), st1)) :
    (b = true → r = -1)
    ∧ st1.IC = st.IC
    ∧ st1.symbol_table = st.symbol_table
    ∧ st1.externals_list = operand_usages st.symbol_table st.IC operand ++ st.externals_list := by
  unfold encode_optional_operand at h
  cases operand with
  | none =>
    simp only [Option.some.injEq, Prod.mk.injEq] at h
    rw [← h.2, ← h.1.1]
    exact ⟨fun hb => absurd hb (by decide), rfl, rfl, rfl⟩
  | some text =>
    simp only [] at h
    rw [hm rfl] at h
    cases he : encode_operand text (get_addressing_mode (some text)) st with
    | none => rw [he] at h; cases h
    | some res =>
      obtain ⟨operand_result, st2⟩ := res
      rw [he] at h
      simp only [] at h
      have hu := encode_operand_usages text st st2 operand_result he
      by_cases hr : operand_result = -1
      · rw [if_pos hr] at h
        simp only [Option.some.injEq, Prod.mk.injEq] at h
        rw [← h.2, ← h.1.2]
        exact ⟨fun _ => rfl, hu⟩
      · rw [if_neg hr] at h
        simp only [Option.some.injEq, Prod.mk.injEq] at h
        rw [← h.2, ← h.1.1]
        exact ⟨fun hb => absurd hb (by decide), hu⟩

/-- An operand whose addressing mode is neither direct nor matrix makes no
reference. -/
theorem operand_usages_other_mode (table : List SymbolNode) (IC : Int)
    (operand : Option String) (h1 : get_addressing_mode operand ≠ 1)
    (h2 : get_addressing_mode operand ≠ 2) : operand_usages table IC operand = [] := by
  unfold operand_usages
  cases operand with
  | none => rfl
  | some text =>
    simp only []
    rw [if_neg h1, if_neg h2]

/-- An instruction that the second pass encodes, or a line without command,
leaves the symbol table unchanged and puts the references of the instruction
in front of the externals list, the last one first. -/
theorem encode_instruction_parsed_usages (parsed : ParsedLine) (st st1 : AsmState) (r : Int)
    (h : encode_instruction_parsed parsed st = some (r, st1))
    (hr : 0 < r ∨ parsed.command = none) :
    st1.symbol_table = st.symbol_table
    ∧ st1.externals_list =
        (instruction_usages st.symbol_table st.IC parsed).reverse ++ st.externals_list := by
  unfold encode_instruction_parsed at h
  unfold instruction_usages
  cases hc : parsed.command with
  | none =>
    rw [hc] at h
    simp only [Option.some.injEq, Prod.mk.injEq] at h
    rw [← h.2]
    exact ⟨rfl, rfl⟩
  | some command =>
    have hpos : 0 < r := by
      rcases hr with hr | hr
      · exact hr
      · rw [hc] at hr; cases hr
    have hne : r ≠ -1 := by omega
    rw [hc] at h
    simp only [] at h ⊢
    by_cases h1 : get_instruction_opcode command = -1
    · rw [if_pos h1] at h
      simp only [Option.some.injEq, Prod.mk.injEq] at h
      exact absurd h.1.symm hne
    · rw [if_neg h1] at h
      by_cases h2 : actual_operands parsed ≠
          count_operands_for_instruction (get_instruction_opcode command)
      · rw [if_pos h2] at h
        simp only [Option.some.injEq, Prod.mk.injEq] at h
        exact absurd h.1.symm hne
      · rw [if_neg h2] at h
        generalize hE : count_operands_for_instruction (get_instruction_opcode command) = E
          at h ⊢
        have hsrc : (if E = 1 then (none : Option String)
            else if E = 2 then parsed.operand1 else none) =
            (if E = 2 then parsed.operand1 else none) := by
          by_cases e1 : E = 1
          · have e2 : ¬ E = 2 := by omega
            simp [e1]
          · simp [e1]
        rw [hsrc] at h
        generalize hS : (if E = 2 then parsed.operand1 else none) = src_operand at h ⊢
        generalize hD : (if E = 1 then parsed.operand1
          else if E = 2 then parsed.operand2 else none) = dest_operand at h ⊢
        have hsm : src_operand.isSome = true ∨ E = 2 →
            (if E = 1 then (-1 : Int)
              else if E = 2 then get_addressing_mode src_operand else -1) =
              get_addressing_mode src_operand := by
          intro hp
          have e2 : E = 2 := by
            rcases hp with hp | hp
            · by_contra hne2
              rw [← hS, if_neg hne2] at hp
              cases hp
            · exact hp
          have e1 : ¬ E = 1 := by omega
          rw [if_neg e1, if_pos e2]
        have hdm : dest_operand.isSome = true ∨ E = 2 →
            (if E = 1 then get_addressing_mode dest_operand
              else if E = 2 then get_addressing_mode dest_operand else -1) =
              get_addressing_mode dest_operand := by
          intro hp
          by_cases e1 : E = 1
          · rw [if_pos e1]
          · rw [if_neg e1]
            by_cases e2 : E = 2
            · rw [if_pos e2]
            · rcases hp with hp | hp
              · rw [← hD, if_neg e1, if_neg e2] at hp
                cases hp
              · exact absurd hp e2
        generalize (if E = 1 then (-1 : Int)
          else if E = 2 then get_addressing_mode src_operand else -1) = src_mode at h hsm
        generalize (if E = 1 then get_addressing_mode dest_operand
          else if E = 2 then get_addressing_mode dest_operand else -1) = dest_mode at h hdm
        by_cases h3 : ¬ is_valid_addressing_for_instruction (get_instruction_opcode command)
            src_mode dest_mode = true
        · rw [if_pos h3] at h
          simp only [Option.some.injEq, Prod.mk.injEq] at h
          exact absurd h.1.symm hne
        · rw [if_neg h3] at h
          cases hs0 : store_instruction st (st.IC - IC_INITIAL_VALUE)
              (encode_instruction_word (get_instruction_opcode command) src_mode dest_mode) with
          | none => rw [hs0] at h; cases h
          | some st0 =>
            rw [hs0] at h
            simp only [] at h
            have hc0 := store_instruction_counts _ _ _ _ hs0
            have hl0 := store_instruction_lists _ _ _ _ hs0
            by_cases htwo : E = 2 ∧ src_mode = 3 ∧ dest_mode = 3
            · rw [if_pos htwo] at h
              cases hs1 : store_instruction st0 (st0.IC - IC_INITIAL_VALUE + 1)
                  (encode_two_registers (src_operand.getD "") (dest_operand.getD "")) with
              | none => rw [hs1] at h; cases h
              | some st2 =>
                rw [hs1] at h
                simp only [Option.some.injEq, Prod.mk.injEq] at h
                have hl1 := store_instruction_lists _ _ _ _ hs1
                have hms : get_addressing_mode src_operand = 3 := by
                  rw [← hsm (Or.inr htwo.1)]; exact htwo.2.1
                have hmd : get_addressing_mode dest_operand = 3 := by
                  rw [← hdm (Or.inr htwo.1)]; exact htwo.2.2
                rw [operand_usages_other_mode _ _ src_operand (by rw [hms]; decide)
                    (by rw [hms]; decide),
                  operand_usages_other_mode _ _ dest_operand (by rw [hmd]; decide)
                    (by rw [hmd]; decide)]
                rw [← h.2]
                exact ⟨hl1.1.trans hl0.1, hl1.2.trans hl0.2⟩
            · rw [if_neg htwo] at h
              cases ho1 : encode_optional_operand src_operand src_mode 1 st0 with
              | none => rw [ho1] at h; cases h
              | some res1 =>
                obtain ⟨⟨b1, r1⟩, st2⟩ := res1
                rw [ho1] at h
                have hu1 := encode_optional_operand_usages _ _ _ _ _ _ _
                  (fun hp => hsm (Or.inl hp)) ho1
                cases b1
                · simp only [] at h
                  cases ho2 : encode_optional_operand dest_operand dest_mode r1 st2 with
                  | none => rw [ho2] at h; cases h
                  | some res2 =>
                    obtain ⟨⟨b2, r2⟩, st3⟩ := res2
                    rw [ho2] at h
                    have hu2 := encode_optional_operand_usages _ _ _ _ _ _ _
                      (fun hp => hdm (Or.inl hp)) ho2
                    cases b2
                    · simp only [Option.some.injEq, Prod.mk.injEq] at h
                      rw [← h.2]
                      refine ⟨hu2.2.2.1.trans (hu1.2.2.1.trans hl0.1), ?_⟩
                      rw [hu2.2.2.2, hu1.2.2.2, hu1.2.2.1, hu1.2.1, hl0.1,
                        hl0.2, hc0.1, List.reverse_append, operand_usages_reverse,
                        operand_usages_reverse, List.append_assoc]
                    · simp only [Option.some.injEq, Prod.mk.injEq] at h
                      exact absurd (h.1.symm.trans (hu2.1 rfl)) hne
                · simp only [Option.some.injEq, Prod.mk.injEq] at h
                  exact absurd (h.1.symm.trans (hu1.1 rfl)) hne

/-- A line of the second pass either raises the error flag or puts the
references of the line in front of the externals list, the last one first,
and changes no name's being EXTERNAL in the symbol table. -/
theorem process_line_second_pass_usages (line : String) (st st1 : AsmState) (b : Bool)
    (h : process_line_second_pass line st = some (b, st1)) :
    st1.error_flag = 1
      ∨ (st1.externals_list =
            (line_usages st.symbol_table st.IC line).reverse ++ st.externals_list
          ∧ ∀ n, is_external_name st1.symbol_table n = is_external_name st.symbol_table n) := by
  unfold process_line_second_pass at h
  unfold line_usages
  cases hp : parse_line line with
  | none => rw [hp] at h; cases h
  | some parsed =>
    rw [hp] at h
    simp only [] at h ⊢
    by_cases h1 : parsed.is_empty = true
    · rw [if_pos h1] at h
      simp only [Option.some.injEq, Prod.mk.injEq] at h
      rw [← h.2, if_pos (Or.inl h1)]
      exact Or.inr ⟨rfl, fun _ => rfl⟩
    · rw [if_neg h1] at h
      by_cases h2 : parsed.is_error = true
      · rw [if_pos h2] at h
        simp only [Option.some.injEq, Prod.mk.injEq] at h
        rw [← h.2]
        exact Or.inl rfl
      · rw [if_neg h2] at h
        by_cases h3 : parsed.is_directive = true
        · rw [if_pos h3] at h
          rw [if_pos (Or.inr (Or.inr h3))]
          by_cases h4 : parsed.command = some ".entry"
          · rw [if_pos h4] at h
            simp only [Option.some.injEq, Prod.mk.injEq] at h
            rw [← h.2]
            unfold process_entry_directive_parsed
            cases ho : parsed.operand1 with
            | none => exact Or.inl rfl
            | some operand1 =>
              simp only []
              cases hf : find_symbol st.symbol_table operand1 with
              | none => exact Or.inl rfl
              | some symbol =>
                simp only []
                by_cases he : symbol.attr = SymbolAttribute.EXTERNAL_SYMBOL
                · rw [if_pos he]
                  exact Or.inl rfl
                · rw [if_neg he]
                  exact Or.inr ⟨rfl, set_entry_attribute_external _ _ _ hf he⟩
          · rw [if_neg h4] at h
            simp only [Option.some.injEq, Prod.mk.injEq] at h
            rw [← h.2]
            exact Or.inr ⟨rfl, fun _ => rfl⟩
        · rw [if_neg h3] at h
          have hn : ¬ (parsed.is_empty = true ∨ parsed.is_error = true
              ∨ parsed.is_directive = true) := by
            intro hx
            rcases hx with hx | hx | hx
            · exact h1 hx
            · exact h2 hx
            · exact h3 hx
          rw [if_neg hn]
          cases he : encode_instruction_parsed parsed st with
          | none => rw [he] at h; cases h
          | some res =>
            obtain ⟨result, st2⟩ := res
            rw [he] at h
            simp only [Option.some.injEq, Prod.mk.injEq] at h
            have hc := encode_instruction_parsed_cases _ _ _ _ he
            rcases hc.2 with hx | hx
            · have hneg : ¬ result > 0 := by omega
              rw [if_neg hneg] at h
              rw [← h.2]
              rcases hx.2 with hy | hy
              · exact Or.inl hy
              · have hu := encode_instruction_parsed_usages _ _ _ _ he (Or.inr hy.1)
                exact Or.inr ⟨hu.2, fun n => by rw [hu.1]⟩
            · have hpos : result > 0 := hx.2.2
              rw [if_pos hpos] at h
              rw [← h.2]
              have hu := encode_instruction_parsed_usages _ _ _ _ he (Or.inl hx.2.2)
              exact Or.inr ⟨hu.2, fun n => by show is_external_name st2.symbol_table n = _; rw [hu.1]⟩

/-- The reading loop of the second pass either ends with the error flag
raised or has put the references of the lines in front of the externals list,
the last one first. The references are those to the names that the symbol
table holds as EXTERNAL symbols when the loop starts. -/
theorem second_pass_loop_usages (table : List SymbolNode) (lines : List InputLine)
    (st st1 : AsmState) (h : second_pass_loop lines st = some st1)
    (hext : ∀ n, is_external_name st.symbol_table n = is_external_name table n) :
    st1.error_flag = 1
      ∨ st1.externals_list = (program_usages table st.IC lines).reverse ++ st.externals_list := by
  induction lines generalizing st with
  | nil =>
    simp only [second_pass_loop, Option.some.injEq] at h
    rw [← h]
    exact Or.inr rfl
  | cons x rest ih =>
    cases x with
    | too_long =>
      simp only [second_pass_loop] at h
      exact Or.inl (second_pass_loop_error _ _ _ h rfl)
    | text line =>
      simp only [second_pass_loop, program_usages] at h ⊢
      by_cases hs : is_empty_line line.data = true ∨ is_comment_line line.data = true
      · rw [if_pos hs] at h ⊢
        exact ih st h hext
      · rw [if_neg hs] at h ⊢
        cases hp : process_line_second_pass line st with
        | none => rw [hp] at h; cases h
        | some res =>
          obtain ⟨r, st2⟩ := res
          rw [hp] at h
          rcases process_line_second_pass_words _ _ _ _ hp with h1 | h1
          · exact Or.inl (second_pass_loop_error _ _ _ h h1)
          · rcases process_line_second_pass_usages _ _ _ _ hp with h2 | h2
            · exact Or.inl (second_pass_loop_error _ _ _ h h2)
            · rcases ih st2 h (fun n => (h2.2 n).trans (hext n)) with h3 | h3
              · exact Or.inl h3
              · refine Or.inr ?_
                rw [h3, h2.1, h1.2, line_usages_congr _ table _ _ hext, List.reverse_append,
                  List.append_assoc]

/-- A store in the data image leaves the externals list unchanged. -/
theorem store_data_externals (st st1 : AsmState) (index : Int) (word : Nat)
    (h : store_data st index word = some st1) :
    st1.externals_list = st.externals_list := by
  unfold store_data at h
  cases hw : store_word st.data_image index word with
  | none => rw [hw] at h; cases h
  | some image =>
    rw [hw] at h
    simp only [Option.some.injEq] at h
    rw [← h]

/-- Storing the characters of a string leaves the externals list unchanged. -/
theorem store_string_chars_externals (chars : List Char) (i : Int) (st st1 : AsmState)
    (h : store_string_chars chars i st = some st1) :
    st1.externals_list = st.externals_list := by
  induction chars generalizing i st with
  | nil => simp only [store_string_chars, Option.some.injEq] at h; rw [← h]
  | cons c rest ih =>
    unfold store_string_chars at h
    cases hs : store_data st (st.DC + i) (char_to_unsigned c) with
    | none => rw [hs] at h; cases h
    | some st2 =>
      rw [hs] at h
      exact (ih _ _ h).trans (store_data_externals _ _ _ _ hs)

/-- The string directive body leaves the externals list unchanged. -/
theorem store_string_data_externals (s : List Char) (st st1 : AsmState) (r : Int)
    (h : store_string_data s st = some (r, st1)) :
    st1.externals_list = st.externals_list := by
  unfold store_string_data at h
  simp only [] at h
  split_ifs at h
  · simp only [Option.some.injEq, Prod.mk.injEq] at h; rw [← h.2]; rfl
  · simp only [Option.some.injEq, Prod.mk.injEq] at h; rw [← h.2]; rfl
  · cases hc : store_string_chars (List.take ((s.length : Int) - 2).toNat (List.drop 1 s)) 0 st with
    | none => rw [hc] at h; cases h
    | some st2 =>
      rw [hc] at h
      simp only [] at h
      cases hd : store_data st2 (st2.DC + ((s.length : Int) - 2)) 0 with
      | none => rw [hd] at h; cases h
      | some st3 =>
        rw [hd] at h
        simp only [Option.some.injEq, Prod.mk.injEq] at h
        rw [← h.2]
        exact (store_data_externals _ _ _ _ hd).trans (store_string_chars_externals _ _ _ _ hc)

/-- The value loop of `.data` leaves the externals list unchanged. -/
theorem data_values_loop_externals (tokens : List (List Char)) (count : Int)
    (st st1 : AsmState) (r : Int) (h : data_values_loop tokens count st = some (r, st1)) :
    st1.externals_list = st.externals_list := by
  induction tokens generalizing count st with
  | nil =>
    simp only [data_values_loop, Option.some.injEq, Prod.mk.injEq] at h
    rw [← h.2]
  | cons token rest ih =>
    unfold data_values_loop at h
    cases hv : is_valid_integer (trim_whitespace token) with
    | none =>
      rw [hv] at h
      simp only [Option.some.injEq, Prod.mk.injEq] at h; rw [← h.2]; rfl
    | some value =>
      rw [hv] at h
      simp only [] at h
      by_cases hm : st.DC + count ≥ MEMORY_SIZE
      · rw [if_pos hm] at h
        simp only [Option.some.injEq, Prod.mk.injEq] at h; rw [← h.2]; rfl
      · rw [if_neg hm] at h
        cases hs : store_data st (st.DC + count) (maskBits value 10) with
        | none => rw [hs] at h; cases h
        | some st2 =>
          rw [hs] at h
          exact (ih _ _ h).trans (store_data_externals _ _ _ _ hs)

/-- The value loop of `.mat` leaves the externals list unchanged. -/
theorem mat_values_loop_externals (tokens : List (List Char)) (expected count : Int)
    (st st1 : AsmState) (r : Int)
    (h : mat_values_loop tokens expected count st = some (r, st1)) :
    st1.externals_list = st.externals_list := by
  induction tokens generalizing count st with
  | nil =>
    simp only [mat_values_loop, Option.some.injEq, Prod.mk.injEq] at h
    rw [← h.2]
  | cons token rest ih =>
    unfold mat_values_loop at h
    by_cases hc : count < expected
    · simp only [hc, not_true_eq_false, if_false] at h
      cases hv : is_valid_integer (trim_whitespace token) with
      | none =>
        rw [hv] at h
        simp only [Option.some.injEq, Prod.mk.injEq] at h; rw [← h.2]; rfl
      | some value =>
        rw [hv] at h
        simp only [] at h
        by_cases hm : st.DC + count ≥ MEMORY_SIZE
        · simp only [hm, if_true, Option.some.injEq, Prod.mk.injEq] at h
          rw [← h.2]; rfl
        · simp only [hm, if_false] at h
          cases hs : store_data st (st.DC + count) (maskBits value 10) with
          | none => rw [hs] at h; cases h
          | some st2 =>
            rw [hs] at h
            exact (ih _ _ h).trans (store_data_externals _ _ _ _ hs)
    · simp only [hc, not_false_eq_true, if_true, Option.some.injEq, Prod.mk.injEq] at h
      rw [← h.2]

/-- Every directive of the first pass leaves the externals list unchanged. -/
theorem handle_directive_first_pass_externals (parsed : ParsedLine) (st st1 : AsmState)
    (r : Int) (h : handle_directive_first_pass parsed st = some (r, st1)) :
    st1.externals_list = st.externals_list := by
  unfold handle_directive_first_pass at h
  split_ifs at h
  · unfold process_data_directive_parsed at h
    cases ho : parsed.operand1 with
    | none =>
      rw [ho] at h
      simp only [Option.some.injEq, Prod.mk.injEq] at h; rw [← h.2]; rfl
    | some operand1 =>
      rw [ho] at h
      exact data_values_loop_externals _ _ _ _ _ h
  · unfold process_string_directive_parsed at h
    cases ho : parsed.operand1 with
    | none =>
      rw [ho] at h
      simp only [Option.some.injEq, Prod.mk.injEq] at h; rw [← h.2]; rfl
    | some operand1 =>
      rw [ho] at h
      exact store_string_data_externals _ _ _ _ h
  · unfold process_mat_directive_parsed at h
    cases ho : parsed.operand1 with
    | none =>
      rw [ho] at h
      simp only [Option.some.injEq, Prod.mk.injEq] at h; rw [← h.2]; rfl
    | some operand1 =>
      rw [ho] at h
      simp only [] at h
      cases hd : parse_matrix_dimensions operand1.data with
      | none =>
        rw [hd] at h
        simp only [Option.some.injEq, Prod.mk.injEq] at h; rw [← h.2]; rfl
      | some dims =>
        obtain ⟨rows, cols⟩ := dims
        rw [hd] at h
        simp only [] at h
        cases h2 : parsed.operand2 with
        | none =>
          rw [h2] at h
          simp only [Option.some.injEq, Prod.mk.injEq] at h
          rw [← h.2]; rfl
        | some operand2 =>
          rw [h2] at h
          simp only [] at h
          cases hl : mat_values_loop (strtok_all (fun c => decide (c = ',')) [] operand2.data)
              (rows * cols) 0 st with
          | none => rw [hl] at h; cases h
          | some res =>
            obtain ⟨count, st2⟩ := res
            rw [hl] at h
            simp only [] at h
            have ht := mat_values_loop_externals _ _ _ _ _ _ hl
            split_ifs at h <;>
              (simp only [Option.some.injEq, Prod.mk.injEq] at h; rw [← h.2]) <;>
              exact ht
  · simp only [Option.some.injEq] at h
    have key : (process_extern_directive_parsed parsed st).2.externals_list
        = st.externals_list := by
      unfold process_extern_directive_parsed
      cases ho : parsed.operand1 with
      | none => rfl
      | some operand1 =>
        simp only []
        by_cases hv : is_valid_label operand1 = true
        · simp only [hv, not_true_eq_false, if_false]
          cases ha : add_symbol st.symbol_table operand1 0 SymbolAttribute.EXTERNAL_SYMBOL with
          | none => rfl
          | some table => rfl
        · simp only [hv, not_false_eq_true, if_true]
          rfl
    rw [h] at key
    exact key
  · simp only [Option.some.injEq, Prod.mk.injEq] at h; rw [← h.2]
  · simp only [Option.some.injEq, Prod.mk.injEq] at h; rw [← h.2]; rfl

/-- Label handling leaves the externals list unchanged. -/
theorem handle_label_definition_externals (parsed : ParsedLine) (st : AsmState) :
    (handle_label_definition parsed st).2.externals_list = st.externals_list := by
  unfold handle_label_definition
  simp only []
  split_ifs
  all_goals first | rfl | (split <;> rfl)

/-- The check of an instruction line in the first pass leaves the externals
list unchanged. -/
theorem process_instruction_parsed_externals (parsed : ParsedLine) (st : AsmState) :
    (process_instruction_parsed parsed st).2.externals_list = st.externals_list := by
  have hv : ∀ (opcode : Int) (src dest : Option String),
      (validate_instruction_operands opcode src dest st).2.externals_list
        = st.externals_list := by
    intro opcode src dest
    unfold validate_instruction_operands
    simp only []
    split_ifs <;> rfl
  unfold process_instruction_parsed
  cases parsed.command with
  | none => rfl
  | some command =>
    simp only []
    by_cases h1 : get_instruction_opcode command = -1
    · rw [if_pos h1]
      rfl
    · rw [if_neg h1]
      by_cases h2 : actual_operands parsed ≠
          count_operands_for_instruction (get_instruction_opcode command)
      · rw [if_pos h2]
        rfl
      · rw [if_neg h2]
        split
        · rename_i st1 heq
          have h := congrArg (fun p => p.2.externals_list) heq
          simp only [] at h
          rw [hv] at h
          exact h.symm
        · rename_i st1 heq
          have h := congrArg (fun p => p.2.externals_list) heq
          simp only [] at h
          rw [hv] at h
          exact h.symm

/-- A line of the first pass leaves the externals list unchanged. -/
theorem process_line_first_pass_externals (line : String) (st st1 : AsmState) (b : Bool)
    (h : process_line_first_pass line st = some (b, st1)) :
    st1.externals_list = st.externals_list := by
  unfold process_line_first_pass at h
  cases hp : parse_line line with
  | none => rw [hp] at h; cases h
  | some parsed =>
    rw [hp] at h
    simp only [] at h
    by_cases hem : parsed.is_empty = true
    · rw [if_pos hem] at h
      simp only [Option.some.injEq, Prod.mk.injEq] at h
      rw [← h.2]
    · rw [if_neg hem] at h
      by_cases hr : parsed.is_error = true
      · rw [if_pos hr] at h
        simp only [Option.some.injEq, Prod.mk.injEq] at h
        rw [← h.2]
        rfl
      · rw [if_neg hr] at h
        have hk : (if parsed.label.isSome = true then handle_label_definition parsed st
            else (true, st)).2.externals_list = st.externals_list := by
          split_ifs
          · exact handle_label_definition_externals parsed st
          · rfl
        revert h hk
        generalize (if parsed.label.isSome = true then handle_label_definition parsed st
          else (true, st)) = res
        obtain ⟨b0, st2⟩ := res
        intro h hk
        simp only [] at hk
        cases b0
        · simp only [Option.some.injEq, Prod.mk.injEq] at h
          rw [← h.2]
          exact hk
        · simp only [] at h
          by_cases hd : parsed.is_directive = true
          · rw [if_pos hd] at h
            cases hh : handle_directive_first_pass parsed st2 with
            | none => rw [hh] at h; cases h
            | some res2 =>
              obtain ⟨result, st3⟩ := res2
              rw [hh] at h
              simp only [Option.some.injEq, Prod.mk.injEq] at h
              have h3 := handle_directive_first_pass_externals _ _ _ _ hh
              rw [← h.2]
              have h6 : (if result > 0 then { st3 with DC := st3.DC + result }
                  else st3).externals_list = st3.externals_list := by
                split_ifs <;> rfl
              rw [h6, h3, hk]
          · rw [if_neg hd] at h
            simp only [handle_instruction_first_pass, Option.some.injEq, Prod.mk.injEq] at h
            rw [← h.2]
            have h6 : (if (process_instruction_parsed parsed st2).1 > 0 then
                  { (process_instruction_parsed parsed st2).2 with
                    IC := (process_instruction_parsed parsed st2).2.IC
                      + (process_instruction_parsed parsed st2).1 }
                else (process_instruction_parsed parsed st2).2).externals_list
                = (process_instruction_parsed parsed st2).2.externals_list := by
              split_ifs <;> rfl
            rw [h6, process_instruction_parsed_externals, hk]

/-- The reading loop of the first pass leaves the externals list unchanged. -/
theorem first_pass_loop_externals (lines : List InputLine) (st st1 : AsmState)
    (h : first_pass_loop lines st = some st1) :
    st1.externals_list = st.externals_list := by
  induction lines generalizing st with
  | nil =>
    simp only [first_pass_loop, Option.some.injEq] at h
    rw [← h]
  | cons x rest ih =>
    cases x with
    | too_long =>
      simp only [first_pass_loop] at h
      exact ih (print_error st "Line is longer than 80 characters") h
    | text line =>
      simp only [first_pass_loop] at h
      by_cases hs : is_empty_line line.data = true ∨ is_comment_line line.data = true
      · rw [if_pos hs] at h
        exact ih st h
      · rw [if_neg hs] at h
        cases hp : process_line_first_pass line st with
        | none => rw [hp] at h; cases h
        | some res =>
          obtain ⟨r, st2⟩ := res
          rw [hp] at h
          exact (ih st2 h).trans (process_line_first_pass_externals _ _ _ _ hp)

/-- The first pass leaves the externals list unchanged. -/
theorem first_pass_externals (content : String) (st st1 : AsmState) (b : Bool)
    (h : first_pass content st = some (b, st1)) :
    st1.externals_list = st.externals_list := by
  unfold first_pass at h
  cases hl : first_pass_loop (fgets_lines MAX_LINE_LENGTH [] false content.data)
      (reset_memory_images (reset_counters st)) with
  | none => rw [hl] at h; cases h
  | some st0 =>
    rw [hl] at h
    simp only [] at h
    have h0 := first_pass_loop_externals _ _ _ hl
    split_ifs at h <;>
      (simp only [Option.some.injEq, Prod.mk.injEq] at h; rw [← h.2]; exact h0)

/-- A definition block `mcro NAME`, body lines, `mcroend` with a valid
name not yet in the macro table is consumed without any output and adds the
macro whose content is the body lines put end to end; the macro is then found
under its name; and a later line whose only token is the name of a macro in
the table writes the content of that macro to the output, after which the
loop reads the next line of the file. -/
theorem macro_definition_block_stored (name mline eline : String) (body : List String)
    (rest : List InputLine) (st : PreState)
    (hm : ¬ (is_empty_line mline.data = true ∨ is_comment_line mline.data = true))
    (hstart : tokenize_line mline.data MAX_TOKENS = some ["mcro", name])
    (hvalid : is_valid_label name = true)
    (hnew : find_macro st.macro_table name = none)
    (hbody : ∀ l ∈ body, is_macro_end l.data = some false)
    (hend : is_macro_end eline.data = some true) :
    process_file_loop
        (InputLine.text mline :: (body.map InputLine.text ++ InputLine.text eline :: rest)) st =
      process_file_loop rest
        { st with macro_table :=
            { name := name, content := String.join body } :: st.macro_table }
    ∧ find_macro ({ name := name, content := String.join body } :: st.macro_table) name =
        some { name := name, content := String.join body }
    ∧ (∀ (cline : String) (later : List InputLine) (st1 : PreState) (m : MacroNode),
        ¬ (is_empty_line cline.data = true ∨ is_comment_line cline.data = true) →
        tokenize_line cline.data MAX_TOKENS = some [name] →
        find_macro st1.macro_table name = some m →
        process_file_loop (InputLine.text cline :: later) st1 =
          process_file_loop later { st1 with output := st1.output ++ [m.content] }) := by
  refine ⟨?_, ?_, ?_⟩
  · have hs : is_macro_start mline.data = some (some name) := by
      unfold is_macro_start
      rw [hstart]
      rfl
    have hv : validate_macro_name name = true := by
      unfold validate_macro_name
      rw [hvalid, is_valid_label_not_reserved name hvalid]
      rfl
    rw [process_file_loop, if_neg hm, hs]
    simp only [hv, not_true_eq_false, if_false]
    rw [build_macro_content_body name eline body rest st [] hnew hbody hend]
    rw [List.nil_append, String.join_eq]
  · simp [ find_macro]
  · intro cline later st1 m hc htok hfind
    have hs : is_macro_start cline.data = some none := by
      unfold is_macro_start
      rw [htok]
      rfl
    have hcall : is_macro_call cline.data st1.macro_table = some (some name) := by
      unfold is_macro_call
      rw [htok]
      simp only [List.length_singleton, if_true, List.headD_cons, hfind, Option.isSome_some,
        List.head?_cons]
    rw [process_file_loop, if_neg hc, hs]
    simp only []
    rw [hcall]
    simp only [expand_macro_call, hfind, fputs]

/-! ### Claims -/

/-- C1: for every opcode in 0..15 and modes in {-1, 0, 1, 2, 3},
`encode_instruction_word` has the opcode in bits 9-6, the source mode (0 when
absent) in bits 5-4, the destination mode (0 when absent) in bits 3-2 and 00
in bits 1-0; it is below 1024, and unpacking then re-encoding (both through
the generic packer and through `encode_instruction_word` itself) gives the
same word. -/
theorem encode_instruction_word_layout (opcode src_mode dest_mode : Int)
    (hop : 0 ≤ opcode ∧ opcode ≤ 15) (hs : is_mode_value src_mode)
    (hd : is_mode_value dest_mode) :
    let w := encode_instruction_word opcode src_mode dest_mode
    let f := unpack_instruction_word w
    ((f.1 : Int) = opcode)
      ∧ ((f.2.1 : Int) = if src_mode = -1 then 0 else src_mode)
      ∧ ((f.2.2.1 : Int) = if dest_mode = -1 then 0 else dest_mode)
      ∧ f.2.2.2 = 0
      ∧ w < 1024
      ∧ pack_instruction_word f = w
      ∧ encode_instruction_word f.1 f.2.1 f.2.2.1 = w := by
  obtain ⟨h1, h2⟩ := hop
  obtain ⟨h3, h4⟩ := hs
  obtain ⟨h5, h6⟩ := hd
  interval_cases opcode <;> interval_cases src_mode <;> interval_cases dest_mode <;> decide

/-- Witness of C1 at `mov #3, r1` (opcode 0, source immediate, destination
register): the word is 0x00C. -/
theorem encode_instruction_word_layout_witness :
    encode_instruction_word 0 0 3 = 0x00C
      ∧ pack_instruction_word (unpack_instruction_word (encode_instruction_word 0 0 3))
          = encode_instruction_word 0 0 3 :=
  ⟨by decide,
   (encode_instruction_word_layout 0 0 3 (by decide) (by decide) (by decide)).2.2.2.2.2.1⟩

/-- C2 (evaluation of the code): for `mov #3, r1` at IC = 100 the encoder
reports 3 words and IC advances to 103, but both operand words are stored in
slot 1: the image holds 0x00C, 0x004 and an untouched slot 2, not 0x00C,
0x00C, 0x004. -/
theorem mov_immediate_register_image :
    result_and_words (encode_instruction_parsed
        (instruction_line "mov" (some "#3") (some "r1")) initial_state)
      = some (3, 0x00C, 0x004, 0)
    ∧ (process_line_second_pass "mov #3, r1\n" initial_state).map
        (fun p => (p.1, p.2.IC, p.2.instruction_image 0, p.2.instruction_image 1,
          p.2.instruction_image 2))
      = some (true, 103, 0x00C, 0x004, 0) := by
  decide

/-- C3: for a one-operand instruction (opcode in 4..13 other than `lea`)
with a direct operand `name`, encoded at counter IC inside the image: an
undefined name makes the encoding fail with the diagnostic "Undefined symbol"
and records no external usage; an EXTERNAL name gives the operand word 1 at
slot IC - 100 + 1 and pushes the record (name, IC + 1); any other symbol
gives the word ((addr & 0x3FF) << 2) | 2 and leaves the externals list
unchanged. -/
theorem encode_direct_operand_spec (parsed : ParsedLine) (command name : String)
    (st : AsmState)
    (hcmd : parsed.command = some command) (h1 : parsed.operand1 = some name)
    (h2 : parsed.operand2 = none)
    (hlo : 4 ≤ get_instruction_opcode command) (hhi : get_instruction_opcode command ≤ 13)
    (hlea : get_instruction_opcode command ≠ 6)
    (hmode : get_addressing_mode (some name) = 1)
    (hIC : IC_INITIAL_VALUE ≤ st.IC ∧ st.IC + 1 < IC_INITIAL_VALUE + MEMORY_SIZE) :
    (find_symbol st.symbol_table name = none →
      ∃ st1, encode_instruction_parsed parsed st = some (-1, st1)
        ∧ st1.error_flag = 1
        ∧ st1.diagnostics = st.diagnostics ++ ["Undefined symbol"]
        ∧ st1.externals_list = st.externals_list)
    ∧ (∀ symbol, find_symbol st.symbol_table name = some symbol →
        symbol.attr = SymbolAttribute.EXTERNAL_SYMBOL →
        ∃ st1, encode_instruction_parsed parsed st = some (2, st1)
          ∧ st1.instruction_image (st.IC - IC_INITIAL_VALUE + 1).toNat = 1
          ∧ st1.externals_list =
              { symbol_name := name, address := st.IC + 1 } :: st.externals_list)
    ∧ (∀ symbol, find_symbol st.symbol_table name = some symbol →
        symbol.attr ≠ SymbolAttribute.EXTERNAL_SYMBOL →
        ∃ st1, encode_instruction_parsed parsed st = some (2, st1)
          ∧ st1.instruction_image (st.IC - IC_INITIAL_VALUE + 1).toNat =
              ((maskBits symbol.address 10 <<< 2) ||| 2)
          ∧ st1.externals_list = st.externals_list) := by
  obtain ⟨st0, hIC0, hsym0, hext0, hdiag0, hred⟩ :=
    encode_one_operand_direct_reduces parsed command name st hcmd h1 h2 hlo hhi hlea hmode hIC
  have hb : 0 ≤ st0.IC - IC_INITIAL_VALUE + 1 ∧ st0.IC - IC_INITIAL_VALUE + 1 < 256 := by
    simp only [IC_INITIAL_VALUE, MEMORY_SIZE] at hIC ⊢
    omega
  rw [← hsym0]
  refine ⟨?_, ?_, ?_⟩
  · intro hfind
    rw [hred, encode_direct_operand_undefined name st0 hfind]
    refine ⟨_, rfl, rfl, ?_, ?_⟩
    · simp [print_error, hdiag0]
    · simp [print_error, hext0]
  · intro symbol hfind hattr
    rw [hred, encode_direct_operand_external name st0 symbol hfind hattr hb]
    refine ⟨_, rfl, ?_, ?_⟩
    · simp [hIC0]
    · simp [add_external_usage, hext0, hIC0]
  · intro symbol hfind hattr
    rw [hred, encode_direct_operand_local name st0 symbol hfind hattr hb]
    refine ⟨_, rfl, ?_, ?_⟩
    · simp [hIC0]
    · simp [hext0]

/-- Witness of C3: `jmp FOO` with FOO external, at IC = 100. -/
theorem encode_direct_operand_spec_witness :
    ∃ st1, encode_instruction_parsed
        { label := none, command := some "jmp", operand1 := some "FOO", operand2 := none,
          is_error := false, is_empty := false, is_directive := false }
        { initial_state with symbol_table :=
            [{ name := "FOO", address := 0, attr := SymbolAttribute.EXTERNAL_SYMBOL }] }
        = some (2, st1)
      ∧ st1.instruction_image 1 = 1
      ∧ st1.externals_list = [{ symbol_name := "FOO", address := 101 }] :=
  (encode_direct_operand_spec
    { label := none, command := some "jmp", operand1 := some "FOO", operand2 := none,
      is_error := false, is_empty := false, is_directive := false } "jmp" "FOO"
    { initial_state with symbol_table :=
        [{ name := "FOO", address := 0, attr := SymbolAttribute.EXTERNAL_SYMBOL }] }
    rfl rfl rfl (by decide) (by decide) (by decide) (by decide) (by decide)).2.1
    { name := "FOO", address := 0, attr := SymbolAttribute.EXTERNAL_SYMBOL } (by decide) rfl

/-- C4 (evaluation of the code): for `MAT[r2][r7]` with MAT a data symbol at
address 120 the matrix encoder stores 0x07A (address and ARE not shifted
apart) and 0x047 (column register in bits 4-0), not 0x1E2 and 0x05C; the same
words appear when the operand belongs to `inc MAT[r2][r7]`. -/
theorem matrix_operand_words :
    result_and_words (encode_matrix_operand "MAT[r2][r7]"
        { initial_state with symbol_table :=
            [{ name := "MAT", address := 120, attr := SymbolAttribute.DATA_SYMBOL }] })
      = some (2, 0, 0x07A, 0x047)
    ∧ result_and_words (encode_instruction_parsed
        (instruction_line "inc" (some "MAT[r2][r7]") none)
        { initial_state with symbol_table :=
            [{ name := "MAT", address := 120, attr := SymbolAttribute.DATA_SYMBOL }] })
      = some (3, 0x1C8, 0x07A, 0x047) := by
  decide

/-- C5 (evaluation of the code): the operand encoder always calls
`encode_register_operand` with `is_source = 0`, so the word of a source
register `r1` is 0x004 (bits 4-2), not 0x020; in `mov r1, X` it is moreover
overwritten by the word of `X` in slot 1. A destination register is encoded
in bits 4-2 as claimed (`mov X, r1`). -/
theorem source_register_word :
    result_and_words (encode_operand "r1" 3 initial_state) = some (1, 0, 0x004, 0)
    ∧ encode_register_operand "r1" 1 = 0x020
    ∧ result_and_words (encode_instruction_parsed
        (instruction_line "mov" (some "r1") (some "X"))
        { initial_state with symbol_table :=
            [{ name := "X", address := 105, attr := SymbolAttribute.CODE_SYMBOL }] })
      = some (3, 0x034, 0x1A6, 0)
    ∧ result_and_words (encode_instruction_parsed
        (instruction_line "mov" (some "X") (some "r1"))
        { initial_state with symbol_table :=
            [{ name := "X", address := 105, attr := SymbolAttribute.CODE_SYMBOL }] })
      = some (3, 0x01C, 0x004, 0) := by
  decide

/-- C6: for a two-operand instruction (opcode in 0..3) with source `rS` and
destination `rD`, S and D in 0..7, encoded at counter IC inside the image, the
second pass reports 2 words, stores the instruction word at slot IC - 100 and
the shared word (S << 5) | (D << 2) at slot IC - 100 + 1, and changes no
other slot, nor the error flag, nor the externals list. -/
theorem encode_two_registers_spec (parsed : ParsedLine) (command : String) (s d : Nat)
    (st : AsmState)
    (hcmd : parsed.command = some command)
    (h1 : parsed.operand1 = some (register_name s))
    (h2 : parsed.operand2 = some (register_name d))
    (hlo : 0 ≤ get_instruction_opcode command) (hhi : get_instruction_opcode command ≤ 3)
    (hs : s ≤ 7) (hd : d ≤ 7)
    (hIC : IC_INITIAL_VALUE ≤ st.IC ∧ st.IC + 1 < IC_INITIAL_VALUE + MEMORY_SIZE) :
    ∃ st1, encode_instruction_parsed parsed st = some (2, st1)
      ∧ st1.instruction_image (st.IC - IC_INITIAL_VALUE).toNat =
          encode_instruction_word (get_instruction_opcode command) 3 3
      ∧ st1.instruction_image (st.IC - IC_INITIAL_VALUE + 1).toNat = ((s <<< 5) ||| (d <<< 2))
      ∧ (∀ j, j ≠ (st.IC - IC_INITIAL_VALUE).toNat → j ≠ (st.IC - IC_INITIAL_VALUE + 1).toNat →
          st1.instruction_image j = st.instruction_image j)
      ∧ st1.IC = st.IC ∧ st1.error_flag = st.error_flag
      ∧ st1.externals_list = st.externals_list := by
  have hneg : get_instruction_opcode command ≠ -1 := by omega
  obtain ⟨hvalid, hcount⟩ := valid_two_registers _ hlo hhi
  have hact : actual_operands parsed = 2 := by
    simp [actual_operands, h1, h2]
  have hb : 0 ≤ st.IC - IC_INITIAL_VALUE ∧ st.IC - IC_INITIAL_VALUE < 256 := by
    simp only [IC_INITIAL_VALUE, MEMORY_SIZE] at hIC ⊢
    omega
  have hb1 : 0 ≤ st.IC - IC_INITIAL_VALUE + 1 ∧ st.IC - IC_INITIAL_VALUE + 1 < 256 := by
    simp only [IC_INITIAL_VALUE, MEMORY_SIZE] at hIC ⊢
    omega
  have hne : (st.IC - IC_INITIAL_VALUE + 1).toNat ≠ (st.IC - IC_INITIAL_VALUE).toNat := by
    omega
  unfold encode_instruction_parsed
  simp only [hcmd, hneg, hcount, hact, h1, h2, get_addressing_mode_register s hs,
    get_addressing_mode_register d hd, hvalid, if_true, if_false, ne_eq,
    not_true_eq_false, not_false_eq_true, store_instruction_in_bounds _ _ _ hb,
    store_instruction_in_bounds _ _ _ hb1, Option.getD_some,
    encode_two_registers_value s d hs hd]
  simp [get_addressing_mode_register s hs, get_addressing_mode_register d hd, hvalid,
    encode_two_registers_value s d hs hd]
  refine ⟨fun h => absurd h.symm hne, ?_⟩
  intro j hj0 hj1
  simp [hj0, hj1]

/-- Witness of C6: `add r2, r5` gives 0x0BC followed by 0x054. -/
theorem encode_two_registers_spec_witness :
    ∃ st1, encode_instruction_parsed
        { label := none, command := some "add", operand1 := some "r2", operand2 := some "r5",
          is_error := false, is_empty := false, is_directive := false } initial_state
        = some (2, st1)
      ∧ st1.instruction_image 0 = 0x0BC ∧ st1.instruction_image 1 = 0x054 := by
  obtain ⟨st1, h, h0, h1, _⟩ := encode_two_registers_spec
    { label := none, command := some "add", operand1 := some "r2", operand2 := some "r5",
      is_error := false, is_empty := false, is_directive := false } "add" 2 5 initial_state
    rfl (by decide) (by decide) (by decide) (by decide) (by decide) (by decide) (by decide)
  exact ⟨st1, h, h0, h1⟩

/-- C7: for modes in {-1, 0, 1, 2, 3}, `calculate_instruction_length` is 1
plus the operand contributions (absent 0, immediate/direct/register 1, matrix
2), except that two register operands give a total of 2. -/
theorem calculate_instruction_length_spec (opcode src_mode dest_mode : Int)
    (hs : is_mode_value src_mode) (hd : is_mode_value dest_mode) :
    calculate_instruction_length opcode src_mode dest_mode =
      if src_mode = 3 ∧ dest_mode = 3 then 2
      else 1 + spec_operand_words src_mode + spec_operand_words dest_mode := by
  obtain ⟨h3, h4⟩ := hs
  obtain ⟨h5, h6⟩ := hd
  interval_cases src_mode <;> interval_cases dest_mode <;> rfl

/-- Witness of C7: a matrix source with a register destination takes 4
words. -/
theorem calculate_instruction_length_spec_witness :
    calculate_instruction_length 0 2 3 = 4 :=
  (calculate_instruction_length_spec 0 2 3 (by decide) (by decide)).trans (by decide)

/-- C8: for opcode in 0..15 and modes in {-1, 0..3},
`is_valid_addressing_for_instruction` is true exactly when the source operand
is legal for the specification's source mask and the destination operand for
its destination mask; every opcode outside 0..15 is rejected. -/
theorem is_valid_addressing_for_instruction_spec (opcode src_mode dest_mode : Int) :
    (0 ≤ opcode ∧ opcode ≤ 15 → is_mode_value src_mode → is_mode_value dest_mode →
      (is_valid_addressing_for_instruction opcode src_mode dest_mode = true ↔
        spec_operand_legal (spec_src_mask opcode) src_mode
          ∧ spec_operand_legal (spec_dest_mask opcode) dest_mode))
    ∧ (¬ (0 ≤ opcode ∧ opcode ≤ 15) →
      is_valid_addressing_for_instruction opcode src_mode dest_mode = false) := by
  constructor
  · rintro ⟨h1, h2⟩ ⟨h3, h4⟩ ⟨h5, h6⟩
    interval_cases opcode <;> interval_cases src_mode <;> interval_cases dest_mode <;> decide
  · intro h
    have h' : opcode < 0 ∨ opcode > 15 := by omega
    simp [is_valid_addressing_for_instruction, h']

/-- Witness of C8: `mov` accepts an immediate source with a register
destination, rejects an immediate destination, and opcode 16 is rejected. -/
theorem is_valid_addressing_for_instruction_spec_witness :
    is_valid_addressing_for_instruction 0 0 3 = true
      ∧ is_valid_addressing_for_instruction 0 0 0 = false
      ∧ is_valid_addressing_for_instruction 16 0 3 = false :=
  ⟨((is_valid_addressing_for_instruction_spec 0 0 3).1
      (by decide) (by decide) (by decide)).2 (by decide),
   by decide,
   (is_valid_addressing_for_instruction_spec 16 0 3).2 (by decide)⟩

/-- C9: `count_operands_for_instruction` is 0 for opcodes 14 and 15, 1 for
4..13 and 2 for 0..3; and an instruction line whose number of operands
differs from the arity of its mnemonic (the parser recorded a different
number, or it flagged a third operand token with `is_error`) is rejected by
the first pass: `process_instruction_parsed` returns -1 on a different
recorded number, and `process_line_first_pass` returns failure with the error
flag raised and IC unchanged. -/
theorem count_operands_and_arity_check (line : String) (parsed : ParsedLine)
    (command : String) (st : AsmState)
    (hparse : parse_line line = some parsed)
    (hempty : parsed.is_empty = false)
    (hdir : parsed.is_directive = false)
    (hcmd : parsed.command = some command)
    (hop : get_instruction_opcode command ≠ -1)
    (harity : parsed.is_error = true ∨ actual_operands parsed ≠
      count_operands_for_instruction (get_instruction_opcode command)) :
    (count_operands_for_instruction 14 = 0 ∧ count_operands_for_instruction 15 = 0
      ∧ (∀ opcode, 4 ≤ opcode → opcode ≤ 13 → count_operands_for_instruction opcode = 1)
      ∧ (∀ opcode, 0 ≤ opcode → opcode ≤ 3 → count_operands_for_instruction opcode = 2))
    ∧ (actual_operands parsed ≠
        count_operands_for_instruction (get_instruction_opcode command) →
        (process_instruction_parsed parsed st).1 = -1)
    ∧ ∃ st1, process_line_first_pass line st = some (false, st1)
        ∧ st1.IC = st.IC ∧ st1.error_flag = 1 := by
  refine ⟨⟨by decide, by decide, ?_, ?_⟩, ?_, ?_⟩
  · intro opcode h1 h2
    interval_cases opcode <;> rfl
  · intro opcode h1 h2
    interval_cases opcode <;> rfl
  · intro hne
    rw [process_instruction_parsed_wrong_arity parsed command st hcmd hop hne]
  · unfold process_line_first_pass
    rw [hparse]
    by_cases herror : parsed.is_error = true
    · simp only [hempty, herror, Bool.false_eq_true, if_false, if_true]
      exact ⟨print_error st "Invalid line format", rfl, rfl, rfl⟩
    · have hne : actual_operands parsed ≠
          count_operands_for_instruction (get_instruction_opcode command) := by
        rcases harity with h | h
        · exact absurd h herror
        · exact h
      simp only [hempty, herror, hdir, Bool.false_eq_true, if_false,
        handle_instruction_first_pass]
      have hIC : (if parsed.label.isSome = true then handle_label_definition parsed st
          else (true, st)).2.IC = st.IC := by
        split_ifs
        · exact handle_label_definition_IC parsed st
        · rfl
      have hE : (if parsed.label.isSome = true then handle_label_definition parsed st
          else (true, st)).1 = false →
          (if parsed.label.isSome = true then handle_label_definition parsed st
            else (true, st)).2.error_flag = 1 := by
        split_ifs
        · exact handle_label_definition_error parsed st
        · intro h; cases h
      rcases hres : (if parsed.label.isSome = true then handle_label_definition parsed st
          else (true, st)) with ⟨b, st1⟩
      rw [hres] at hIC hE
      cases b
      · exact ⟨st1, rfl, hIC, hE rfl⟩
      · simp only [process_instruction_parsed_wrong_arity parsed command st1 hcmd hop hne]
        exact ⟨print_error st1 "Wrong number of operands", rfl, hIC, rfl⟩

/-- Witness of C9: `mov r1` supplies one operand where `mov` takes two. -/
theorem count_operands_and_arity_check_witness :
    (process_instruction_parsed (instruction_line "mov" (some "r1") none) initial_state).1 = -1
    ∧ ∃ st1, process_line_first_pass "mov r1\n" initial_state = some (false, st1)
        ∧ st1.IC = initial_state.IC ∧ st1.error_flag = 1 :=
  ⟨(count_operands_and_arity_check "mov r1\n" (instruction_line "mov" (some "r1") none) "mov"
      initial_state (by decide) rfl rfl rfl (by decide) (Or.inr (by decide))).2.1 (by decide),
   (count_operands_and_arity_check "mov r1\n" (instruction_line "mov" (some "r1") none) "mov"
      initial_state (by decide) rfl rfl rfl (by decide) (Or.inr (by decide))).2.2⟩

/-- No destination mode makes `lea` (6) legal without a source operand. -/
theorem lea_without_source_invalid (dest_mode : Int) :
    is_valid_addressing_for_instruction 6 (-1) dest_mode = false := by
  simp [is_valid_addressing_for_instruction, mode_allowed, valid_src_modes]

/-- C10 (evaluation of the code): the first pass rejects `lea STR, r1` with
"Wrong number of operands" and leaves IC at 100, because
`count_operands_for_instruction` gives `lea` one operand while the legality
table requires a source; and whatever the operands, `process_instruction_parsed`
returns -1 for a `lea` line. -/
theorem lea_never_accepted :
    (process_line_first_pass "lea STR, r1\n" initial_state).map
        (fun p => (p.1, p.2.IC, p.2.diagnostics))
      = some (false, 100, ["Wrong number of operands"])
    ∧ count_operands_for_instruction 6 = 1
    ∧ valid_src_modes.getD 6 0 = 0x6
    ∧ ∀ (operand1 operand2 : Option String) (st : AsmState),
        (process_instruction_parsed (instruction_line "lea" operand1 operand2) st).1 = -1 := by
  refine ⟨by decide, by decide, by decide, ?_⟩
  intro operand1 operand2 st
  have hop : get_instruction_opcode "lea" = 6 := by decide
  unfold process_instruction_parsed
  simp only [instruction_line, hop]
  have hcount : count_operands_for_instruction 6 = 1 := by decide
  rcases operand1 with _ | o1 <;> rcases operand2 with _ | o2 <;>
    simp [actual_operands, hcount, validate_instruction_operands,
      lea_without_source_invalid, get_addressing_mode]
  split_ifs <;> simp

/-- C11: `get_instruction_opcode` maps the 16 mnemonics to the opcodes 0..15
in table order, returns -1 exactly for the strings that are not one of the 16
mnemonics, and returns a value in 0..15 exactly for the 16 mnemonics. -/
theorem get_instruction_opcode_spec :
    (get_instruction_opcode "mov" = 0 ∧ get_instruction_opcode "cmp" = 1
      ∧ get_instruction_opcode "add" = 2 ∧ get_instruction_opcode "sub" = 3
      ∧ get_instruction_opcode "not" = 4 ∧ get_instruction_opcode "clr" = 5
      ∧ get_instruction_opcode "lea" = 6 ∧ get_instruction_opcode "inc" = 7
      ∧ get_instruction_opcode "dec" = 8 ∧ get_instruction_opcode "jmp" = 9
      ∧ get_instruction_opcode "bne" = 10 ∧ get_instruction_opcode "red" = 11
      ∧ get_instruction_opcode "prn" = 12 ∧ get_instruction_opcode "jsr" = 13
      ∧ get_instruction_opcode "rts" = 14 ∧ get_instruction_opcode "stop" = 15)
    ∧ (∀ s : String, get_instruction_opcode s = -1 ↔
        s ∉ ["mov", "cmp", "add", "sub", "not", "clr", "lea", "inc",
             "dec", "jmp", "bne", "red", "prn", "jsr", "rts", "stop"])
    ∧ (∀ s : String, (0 ≤ get_instruction_opcode s ∧ get_instruction_opcode s ≤ 15) ↔
        s ∈ ["mov", "cmp", "add", "sub", "not", "clr", "lea", "inc",
             "dec", "jmp", "bne", "red", "prn", "jsr", "rts", "stop"]) := by
  refine ⟨by decide, ?_, ?_⟩
  · intro s
    exact table_index_eq_neg_one reserved_instructions s 0 (le_refl 0)
  · intro s
    constructor
    · intro h
      by_contra hmem
      have := (table_index_eq_neg_one reserved_instructions s 0 (le_refl 0)).mpr hmem
      unfold get_instruction_opcode at h
      omega
    · intro hmem
      have := table_index_bounds reserved_instructions s 0 (le_refl 0) hmem
      unfold get_instruction_opcode
      simp only [reserved_instructions, List.length_cons, List.length_nil] at this ⊢
      omega

/-- C12: for every number `n`, `to_base4` gives exactly 5 characters, each
one of a, b, c, d, which are the base-4 digits of `n mod 1024` most
significant first; decoding gives `n mod 1024`, hence `n` itself below 1024,
and two numbers have the same rendering exactly when they agree modulo 1024
(so the rendering is injective on 0..1023). -/
theorem to_base4_spec (n : Nat) :
    (to_base4 n).data.length = 5
    ∧ (∀ c ∈ (to_base4 n).data, c ∈ ['a', 'b', 'c', 'd'])
    ∧ (to_base4 n).data =
        [base4_digit (n % 1024 / 256 % 4), base4_digit (n % 1024 / 64 % 4),
         base4_digit (n % 1024 / 16 % 4), base4_digit (n % 1024 / 4 % 4),
         base4_digit (n % 1024 % 4)]
    ∧ from_base4 (to_base4 n).data = n % 1024
    ∧ (n < 1024 → from_base4 (to_base4 n).data = n)
    ∧ (∀ m : Nat, to_base4 n = to_base4 m ↔ n % 1024 = m % 1024)
    ∧ (∀ m : Nat, n < 1024 → m < 1024 → to_base4 n = to_base4 m → n = m) := by
  have hdec : ∀ k : Nat, from_base4 (to_base4 k).data = k % 1024 := from_base4_to_base4
  have hiff : ∀ m : Nat, to_base4 n = to_base4 m ↔ n % 1024 = m % 1024 := by
    intro m
    constructor
    · intro h
      have := congrArg (fun s : String => from_base4 s.data) h
      simpa only [hdec] using this
    · intro h
      apply String.ext
      rw [to_base4_data, to_base4_data, h]
  refine ⟨?_, ?_, to_base4_data n, hdec n, ?_, hiff, ?_⟩
  · rw [to_base4_data]
    rfl
  · intro c hc
    rw [to_base4_data] at hc
    simp only [List.mem_cons, List.mem_singleton, List.not_mem_nil, or_false] at hc
    rcases hc with h | h | h | h | h <;> rw [h] <;>
      exact base4_digit_mem _ (Nat.mod_lt _ (by norm_num))
  · intro h
    rw [hdec n, Nat.mod_eq_of_lt h]
  · intro m hn hm h
    have := (hiff m).mp h
    rwa [Nat.mod_eq_of_lt hn, Nat.mod_eq_of_lt hm] at this

/-- Witness of C12: 100 is rendered `abcba` and decoded back to 100. -/
theorem to_base4_spec_witness :
    from_base4 (to_base4 100).data = 100 ∧ to_base4 100 = "abcba" :=
  ⟨(to_base4_spec 100).2.2.2.2.1 (by decide), by decide⟩

/-- C13: for a final state whose counters lie inside the images (IC between
100 and 356, DC between 0 and 256), `create_object_file` writes the header
line with `to_base4(IC - 100)` and `to_base4(DC)`, then one line per code
word i = 0..IC-101 with address `to_base4(100 + i)`, then one line per data
word i = 0..DC-1 with address `to_base4(IC + i)`: 1 + (IC - 100) + DC lines,
the k-th line after the header carrying the address 100 + k. -/
theorem create_object_file_spec (st : AsmState)
    (hIC : IC_INITIAL_VALUE ≤ st.IC ∧ st.IC - IC_INITIAL_VALUE ≤ MEMORY_SIZE)
    (hDC : 0 ≤ st.DC ∧ st.DC ≤ MEMORY_SIZE) :
    ∃ lines, create_object_file st = some lines
      ∧ lines =
          output_line (to_base4 (to_unsigned (st.IC - 100))) (to_base4 (to_unsigned st.DC))
          :: ((List.range (st.IC - 100).toNat).map (fun (i : Nat) =>
                output_line (to_base4 (to_unsigned (100 + (i : Int))))
                  (to_base4 (st.instruction_image i)))
              ++ (List.range st.DC.toNat).map (fun (i : Nat) =>
                output_line (to_base4 (to_unsigned (st.IC + (i : Int))))
                  (to_base4 (st.data_image i))))
      ∧ lines.length = 1 + (st.IC - 100).toNat + st.DC.toNat
      ∧ (∀ k, k < (st.IC - 100).toNat + st.DC.toNat →
          ∃ word, lines[1 + k]? =
            some (output_line (to_base4 (to_unsigned (100 + (k : Int)))) (to_base4 word))
            ∧ word = (if k < (st.IC - 100).toNat then st.instruction_image k
                      else st.data_image (k - (st.IC - 100).toNat))
            ∧ from_base4 (to_base4 (to_unsigned (100 + (k : Int)))).data = 100 + k) := by
  obtain ⟨h1, h2⟩ := hIC
  obtain ⟨h3, h4⟩ := hDC
  simp only [IC_INITIAL_VALUE, MEMORY_SIZE] at h1 h2 h4
  have hc : 0 + (st.IC - 100).toNat ≤ MEMORY_SIZE := by
    simp only [MEMORY_SIZE]; omega
  have hd : 0 + st.DC.toNat ≤ MEMORY_SIZE := by
    simp only [MEMORY_SIZE]; omega
  refine ⟨_, ?_, rfl, ?_, ?_⟩
  · unfold create_object_file
    simp only [IC_INITIAL_VALUE]
    rw [write_image_lines_some _ _ _ 0 hc, write_image_lines_some _ _ _ 0 hd]
    simp only [Nat.zero_add]
  · simp only [List.length_cons, List.length_append, List.length_map, List.length_range]
    omega
  · intro k hk
    have haddr : from_base4 (to_base4 (to_unsigned (100 + (k : Int)))).data = 100 + k := by
      have hu : to_unsigned (100 + (k : Int)) = 100 + k := by
        unfold to_unsigned
        norm_num
        omega
      rw [hu, from_base4_to_base4]
      omega
    by_cases hlt : k < (st.IC - 100).toNat
    · refine ⟨st.instruction_image k, ?_, by simp [hlt], haddr⟩
      rw [Nat.add_comm 1 k, List.getElem?_cons_succ,
        List.getElem?_append_left (by simpa using hlt)]
      simp [hlt]
    · refine ⟨st.data_image (k - (st.IC - 100).toNat), ?_, by simp [hlt], haddr⟩
      have hk2 : k - (st.IC - 100).toNat < st.DC.toNat := by omega
      rw [Nat.add_comm 1 k, List.getElem?_cons_succ,
        List.getElem?_append_right (by simp; omega)]
      simp only [List.length_map, List.length_range]
      rw [List.getElem?_map, List.getElem?_range hk2]
      have harg : st.IC + ((k - (st.IC - 100).toNat : Nat) : Int) = 100 + (k : Int) := by
        omega
      simp only [Option.map_some', harg]

/-- Witness of C13: one code word 0x3C0 and no data give two lines. -/
theorem create_object_file_spec_witness :
    ∃ lines, create_object_file
        { initial_state with IC := 101, instruction_image := fun _ => 0x3C0 } = some lines
      ∧ lines = [output_line "aaaab" "aaaaa", output_line "abcba" "ddaaa"] := by
  obtain ⟨lines, h, hl, _⟩ := create_object_file_spec
    { initial_state with IC := 101, instruction_image := fun _ => 0x3C0 }
    (by decide) (by decide)
  refine ⟨lines, h, ?_⟩
  rw [hl]
  decide

/-- C14 (counterexample): for the program made of a blank line and `stop` the
object output is not the header followed by a line with address field
`aabaa`. -/
theorem empty_program_object_counterexample :
    (assemble "\nstop\n").map (fun r => r.2.2.map (fun f => f.ob))
      ≠ some (some [output_line "aaaab" "aaaaa", output_line "aabaa" "ddaaa"]) := by
  decide

/-- C14 (amended): for the program made of a blank line and `stop`, with or
without a final newline, the object output is the header line `aaaab aaaaa`
followed by one line whose address field is `abcba` (the base-4 rendering of
100) and whose word field is `ddaaa` (0x3C0, opcode 15 in bits 9-6). -/
theorem empty_program_object :
    (assemble "\nstop\n").map (fun r => r.2.2.map (fun f => f.ob))
      = some (some [output_line "aaaab" "aaaaa", output_line "abcba" "ddaaa"])
    ∧ (assemble "\nstop").map (fun r => r.2.2.map (fun f => f.ob))
      = some (some [output_line "aaaab" "aaaaa", output_line "abcba" "ddaaa"])
    ∧ to_base4 100 = "abcba" ∧ to_base4 0x3C0 = "ddaaa"
    ∧ encode_instruction_word 15 (-1) (-1) = 0x3C0 := by
  decide

/-- C15 (evaluation of the code): the program `.extern FOO`, `mov FOO, r1`
passes both passes without error and records the usage (FOO, 101), but the
word in slot 1 of the code image is 0x004, the register word of `r1` that
overwrote the external word; for `.extern FOO`, `jmp FOO` the word at the
recorded address is 1. -/
theorem external_usage_word_overwritten :
    (assemble ".extern FOO\nmov FOO, r1\n").map
        (fun r => (r.1, r.2.1.IC, r.2.1.externals_list, r.2.1.instruction_image 1))
      = some (true, 103, [{ symbol_name := "FOO", address := 101 }], 0x004)
    ∧ (assemble ".extern FOO\njmp FOO\n").map
        (fun r => (r.1, r.2.1.IC, r.2.1.externals_list, r.2.1.instruction_image 1))
      = some (true, 102, [{ symbol_name := "FOO", address := 101 }], 0x001) := by
  decide

/-- C16 (counterexample): in `.extern A`, `.extern B`, `jmp A`, `jmp B` the
usage of A is recorded first, but the externals file lists B first. -/
theorem externals_file_order_counterexample :
    (assemble ".extern A\n.extern B\njmp A\n").map (fun r => r.2.1.externals_list)
        = some [{ symbol_name := "A", address := 101 }]
    ∧ (assemble ".extern A\n.extern B\njmp A\njmp B\n").map (fun r => r.2.1.externals_list)
        = some [{ symbol_name := "B", address := 103 }, { symbol_name := "A", address := 101 }]
    ∧ (assemble ".extern A\n.extern B\njmp A\njmp B\n").map
          (fun r => r.2.2.map (fun f => f.ext))
        = some (some (some [output_line "B" (to_base4 103), output_line "A" (to_base4 101)]))
    ∧ (assemble ".extern A\n.extern B\njmp A\njmp B\n").map
          (fun r => r.2.2.map (fun f => f.ext))
        ≠ some (some (some [output_line "A" (to_base4 101), output_line "B" (to_base4 103)])) := by
  decide

/-- C16 (amended): `add_external_usage` puts the new record at the head of
the externals list; hence, for every program that both passes accept, the
externals list at the end of the second pass holds the references to external
symbols in reverse order of recording (a reference of a later line before one
of an earlier line and, on one line, the destination operand before the
source operand), `create_externals_file` writes one line `<name>
<to_base4(address)>` per record in that list order, and no file is produced
when the list is empty. -/
theorem externals_file_reverse_order (content : String) (st1 st2 : AsmState)
    (out : Option OutputFiles)
    (h1 : first_pass content initial_state = some (true, st1))
    (h2 : second_pass content st1 = some (true, st2, out)) :
    (∀ (st : AsmState) (symbol_name : String) (address : Int),
        (add_external_usage st symbol_name address).externals_list =
          { symbol_name := symbol_name, address := address } :: st.externals_list)
    ∧ st2.externals_list =
        (program_usages st1.symbol_table IC_INITIAL_VALUE
          (fgets_lines MAX_LINE_LENGTH [] false content.data)).reverse
    ∧ out.map (fun o => o.ext) = some (create_externals_file st2.externals_list)
    ∧ create_externals_file st2.externals_list =
        (if program_usages st1.symbol_table IC_INITIAL_VALUE
            (fgets_lines MAX_LINE_LENGTH [] false content.data) = [] then none
         else some ((program_usages st1.symbol_table IC_INITIAL_VALUE
            (fgets_lines MAX_LINE_LENGTH [] false content.data)).reverse.map (fun r =>
              output_line r.symbol_name (to_base4 (to_unsigned r.address))))) := by
  have hempty : st1.externals_list = [] := first_pass_externals _ _ _ _ h1
  unfold second_pass at h2
  cases hl2 : second_pass_loop (fgets_lines MAX_LINE_LENGTH [] false content.data)
      { st1 with IC := IC_INITIAL_VALUE } with
  | none => rw [hl2] at h2; cases h2
  | some st3 =>
    rw [hl2] at h2
    simp only [] at h2
    by_cases he3 : st3.error_flag = 0
    · rw [if_pos he3] at h2
      cases hob : create_object_file st3 with
      | none => rw [hob] at h2; cases h2
      | some ob =>
        rw [hob] at h2
        simp only [Option.some.injEq, Prod.mk.injEq, true_and] at h2
        obtain ⟨h23, hout⟩ := h2
        subst h23
        have hlist : st3.externals_list =
            (program_usages st1.symbol_table IC_INITIAL_VALUE
              (fgets_lines MAX_LINE_LENGTH [] false content.data)).reverse := by
          rcases second_pass_loop_usages st1.symbol_table _ _ _ hl2 (fun _ => rfl) with hx | hx
          · rw [he3] at hx; cases hx
          · rw [hx]
            show _ ++ st1.externals_list = _
            rw [hempty, List.append_nil]
        refine ⟨fun _ _ _ => rfl, hlist, by rw [← hout]; rfl, ?_⟩
        rw [hlist]
        unfold create_externals_file has_external_usage
        rw [externals_lines_eq_map]
        cases hp : program_usages st1.symbol_table IC_INITIAL_VALUE
            (fgets_lines MAX_LINE_LENGTH [] false content.data) with
        | nil => simp
        | cons r rest => simp
    · rw [if_neg he3] at h2
      simp only [Option.some.injEq, Prod.mk.injEq] at h2
      exact absurd h2.1 (by decide)

set_option maxRecDepth 100000 in
/-- Witness of C16: in `.extern A`, `.extern B`, `mov A, B`, `jmp A` the
references are recorded in the order (A, 101), (B, 101), (A, 104), and the
externals file lists them last recorded first. -/
theorem externals_file_reverse_order_witness :
    ∃ st1 st2 out,
      first_pass ".extern A\n.extern B\nmov A, B\njmp A\n" initial_state = some (true, st1)
      ∧ second_pass ".extern A\n.extern B\nmov A, B\njmp A\n" st1 = some (true, st2, out)
      ∧ program_usages st1.symbol_table IC_INITIAL_VALUE
          (fgets_lines MAX_LINE_LENGTH [] false ".extern A\n.extern B\nmov A, B\njmp A\n".data) =
        [{ symbol_name := "A", address := 101 }, { symbol_name := "B", address := 101 },
         { symbol_name := "A", address := 104 }]
      ∧ st2.externals_list =
        [{ symbol_name := "A", address := 104 }, { symbol_name := "B", address := 101 },
         { symbol_name := "A", address := 101 }]
      ∧ out.map (fun o => o.ext) =
        some (some [output_line "A" (to_base4 104), output_line "B" (to_base4 101),
          output_line "A" (to_base4 101)]) := by
  have ha : (assemble ".extern A\n.extern B\nmov A, B\njmp A\n").map (fun r => r.1)
      = some true := by decide
  have hf0 : (first_pass ".extern A\n.extern B\nmov A, B\njmp A\n" initial_state).map
      (fun r => (r.1, r.2.symbol_table))
      = some (true, [{ name := "B", address := 0, attr := SymbolAttribute.EXTERNAL_SYMBOL },
          { name := "A", address := 0, attr := SymbolAttribute.EXTERNAL_SYMBOL }]) := by decide
  unfold assemble at ha
  cases hf : first_pass ".extern A\n.extern B\nmov A, B\njmp A\n" initial_state with
  | none => rw [hf] at ha; cases ha
  | some r1 =>
    obtain ⟨b1, st1⟩ := r1
    rw [hf] at ha hf0
    simp only [Option.map_some', Option.some.injEq, Prod.mk.injEq] at hf0
    obtain ⟨hb1, htab⟩ := hf0
    subst hb1
    simp only [] at ha
    cases hs : second_pass ".extern A\n.extern B\nmov A, B\njmp A\n" st1 with
    | none => rw [hs] at ha; cases ha
    | some r2 =>
      obtain ⟨b2, st2, out⟩ := r2
      rw [hs] at ha
      simp only [Option.map_some', Option.some.injEq] at ha
      subst ha
      have hprog : program_usages st1.symbol_table IC_INITIAL_VALUE
          (fgets_lines MAX_LINE_LENGTH [] false
            ".extern A\n.extern B\nmov A, B\njmp A\n".data) =
          [{ symbol_name := "A", address := 101 }, { symbol_name := "B", address := 101 },
           { symbol_name := "A", address := 104 }] := by
        rw [htab]
        decide
      obtain ⟨_, hlist, hext, hfile⟩ := externals_file_reverse_order _ st1 st2 out hf hs
      refine ⟨st1, st2, out, rfl, hs, hprog, ?_, ?_⟩
      · rw [hlist, hprog]
        rfl
      · rw [hext, hfile, hprog]
        rfl

/-- C17 (counterexample): inserting A and then B leaves B at the head of the
table, and in `A: stop`, `B: stop`, `.entry A`, `.entry B` the entries file
lists B before A. -/
theorem symbol_table_order_counterexample :
    add_symbols []
        [{ name := "A", address := 100, attr := SymbolAttribute.CODE_SYMBOL },
         { name := "B", address := 101, attr := SymbolAttribute.CODE_SYMBOL }]
      ≠ some [{ name := "A", address := 100, attr := SymbolAttribute.CODE_SYMBOL },
              { name := "B", address := 101, attr := SymbolAttribute.CODE_SYMBOL }]
    ∧ (assemble "A: stop\nB: stop\n.entry A\n.entry B\n").map
          (fun r => r.2.2.map (fun f => f.ent))
        = some (some (some [output_line "B" (to_base4 101), output_line "A" (to_base4 100)]))
    ∧ (assemble "A: stop\nB: stop\n.entry A\n.entry B\n").map
          (fun r => r.2.2.map (fun f => f.ent))
        ≠ some (some (some [output_line "A" (to_base4 100), output_line "B" (to_base4 101)])) := by
  decide

/-- C17 (amended): after a sequence of successful `add_symbol` calls the table
holds the inserted symbols last inserted first, in front of the symbols it
held before; `create_entries_file` writes one line `<name>
<to_base4(address)>` per ENTRY symbol in that table order, that is in reverse
order of insertion, and produces no file when there is no ENTRY symbol. -/
theorem symbol_table_reverse_order (head syms table : List SymbolNode)
    (h : add_symbols head syms = some table) :
    table = syms.reverse ++ head
    ∧ create_entries_file table =
        (if (syms.reverse ++ head).filter
              (fun s => decide (s.attr = SymbolAttribute.ENTRY_SYMBOL)) = [] then none
         else some (((syms.reverse ++ head).filter
              (fun s => decide (s.attr = SymbolAttribute.ENTRY_SYMBOL))).map
                (fun s => output_line s.name (to_base4 (to_unsigned s.address))))) := by
  have ht := add_symbols_reverse head syms table h
  refine ⟨ht, ?_⟩
  rw [← ht]
  unfold create_entries_file
  rw [entries_lines_eq_filter]
  by_cases he : table.filter (fun s => decide (s.attr = SymbolAttribute.ENTRY_SYMBOL)) = []
  · have : ¬ has_entry_symbols table = true := by
      rw [has_entry_symbols_eq]; simpa using he
    simp [this, he]
  · have : has_entry_symbols table = true := (has_entry_symbols_eq table).mpr he
    simp [this, he]

/-- Witness of C17 (amended): A then B are inserted, the table is B, A. -/
theorem symbol_table_reverse_order_witness :
    add_symbols []
        [{ name := "A", address := 100, attr := SymbolAttribute.ENTRY_SYMBOL },
         { name := "B", address := 101, attr := SymbolAttribute.ENTRY_SYMBOL }]
      = some [{ name := "B", address := 101, attr := SymbolAttribute.ENTRY_SYMBOL },
              { name := "A", address := 100, attr := SymbolAttribute.ENTRY_SYMBOL }]
    ∧ [{ name := "B", address := 101, attr := SymbolAttribute.ENTRY_SYMBOL },
       { name := "A", address := 100, attr := SymbolAttribute.ENTRY_SYMBOL }]
      = [{ name := "A", address := 100, attr := SymbolAttribute.ENTRY_SYMBOL },
         { name := "B", address := 101, attr := SymbolAttribute.ENTRY_SYMBOL }].reverse
          ++ ([] : List SymbolNode) :=
  ⟨by decide,
   (symbol_table_reverse_order []
      [{ name := "A", address := 100, attr := SymbolAttribute.ENTRY_SYMBOL },
       { name := "B", address := 101, attr := SymbolAttribute.ENTRY_SYMBOL }]
      [{ name := "B", address := 101, attr := SymbolAttribute.ENTRY_SYMBOL },
       { name := "A", address := 100, attr := SymbolAttribute.ENTRY_SYMBOL }]
      (by decide)).1⟩

/-- C18: in the first pass, a parsed line carrying a valid label not yet in
the table has the label pushed before the rest of the line is processed, as
CODE with the current IC on an instruction and as DATA with the current DC on
a directive other than `.extern`; and after an error-free first pass the
label is found as CODE with that IC, or as DATA with that DC plus the final
IC. -/
theorem label_definition_spec (content line l : String) (pre post : List InputLine)
    (parsed : ParsedLine) (st0 st_k st_final : AsmState)
    (hsplit : fgets_lines MAX_LINE_LENGTH [] false content.data =
      pre ++ InputLine.text line :: post)
    (hpre : first_pass_loop pre (reset_memory_images (reset_counters st0)) = some st_k)
    (hline : ¬ (is_empty_line line.data = true ∨ is_comment_line line.data = true))
    (hparse : parse_line line = some parsed)
    (hempty : parsed.is_empty = false) (herror : parsed.is_error = false)
    (hlabel : parsed.label = some l) (hvalid : is_valid_label l = true)
    (hnew : find_symbol st_k.symbol_table l = none)
    (hkind : parsed.is_directive = false ∨ parsed.command ≠ some ".extern")
    (hpass : first_pass content st0 = some (true, st_final)) :
    handle_label_definition parsed st_k =
      (true, { st_k with symbol_table :=
        { name := l,
          address := if parsed.is_directive then st_k.DC else st_k.IC,
          attr := if parsed.is_directive then SymbolAttribute.DATA_SYMBOL
                  else SymbolAttribute.CODE_SYMBOL } :: st_k.symbol_table })
    ∧ find_symbol st_final.symbol_table l =
      some { name := l,
             address := if parsed.is_directive then st_k.DC + st_final.IC else st_k.IC,
             attr := if parsed.is_directive then SymbolAttribute.DATA_SYMBOL
                     else SymbolAttribute.CODE_SYMBOL } := by
  refine ⟨handle_label_definition_new parsed st_k l hlabel hvalid hnew hkind, ?_⟩
  unfold first_pass at hpass
  rw [hsplit, first_pass_loop_append, hpre] at hpass
  simp only [first_pass_loop] at hpass
  rw [if_neg hline] at hpass
  cases hp : process_line_first_pass line st_k with
  | none => rw [hp] at hpass; cases hpass
  | some res =>
    obtain ⟨r, st1⟩ := res
    rw [hp] at hpass
    simp only [] at hpass
    cases hl : first_pass_loop post st1 with
    | none => rw [hl] at hpass; cases hpass
    | some st_end =>
      rw [hl] at hpass
      simp only [] at hpass
      by_cases he : st_end.error_flag = 0
      · rw [if_pos he] at hpass
        simp only [Option.some.injEq, Prod.mk.injEq, true_and] at hpass
        have hdef := process_line_first_pass_defines line parsed l st_k st1 r hparse hempty
          herror hlabel hvalid hnew hkind hp
        have hend := first_pass_loop_keeps post st1 st_end hl _ _ hdef
        rw [← hpass]
        simp only [finalize_first_pass, find_symbol_update_data_symbols, hend, Option.map_some']
        cases hd : parsed.is_directive <;> simp
      · rw [if_neg he] at hpass
        simp at hpass

/-- Witness of C18: `X: .data 5` followed by `stop`; X ends at 0 plus the final
IC. -/
theorem label_definition_spec_witness :
    ∃ st_final, first_pass "X: .data 5\nstop\n" initial_state = some (true, st_final)
      ∧ find_symbol st_final.symbol_table "X" =
          some { name := "X", address := 0 + st_final.IC,
                 attr := SymbolAttribute.DATA_SYMBOL } := by
  have hres : (first_pass "X: .data 5\nstop\n" initial_state).map (fun p => p.1) = some true := by
    decide
  rcases hfp : first_pass "X: .data 5\nstop\n" initial_state with _ | ⟨b, st_final⟩
  · rw [hfp] at hres; cases hres
  · rw [hfp] at hres
    simp only [Option.map_some', Option.some.injEq] at hres
    subst hres
    exact ⟨st_final, rfl,
      (label_definition_spec "X: .data 5\nstop\n" "X: .data 5\n" "X" []
        [InputLine.text "stop\n"]
        { label := some "X", command := some ".data", operand1 := some "5", operand2 := none,
          is_error := false, is_empty := false, is_directive := true }
        initial_state (reset_memory_images (reset_counters initial_state)) st_final
        (by decide) rfl (by decide) (by decide) rfl rfl rfl (by decide) (by decide)
        (Or.inr (by decide)) hfp).2⟩

/-- C19: `update_data_symbols` keeps the number and the order of the symbols,
their names and their attributes, adds `icf` to the address of every DATA
symbol and leaves every other address unchanged. -/
theorem update_data_symbols_spec (head : List SymbolNode) (icf : Int) :
    (update_data_symbols head icf).length = head.length
    ∧ (update_data_symbols head icf).map (fun s => s.name) = head.map (fun s => s.name)
    ∧ (update_data_symbols head icf).map (fun s => s.attr) = head.map (fun s => s.attr)
    ∧ (update_data_symbols head icf).map (fun s => s.address) =
        head.map (fun s =>
          if s.attr = SymbolAttribute.DATA_SYMBOL then s.address + icf else s.address) := by
  unfold update_data_symbols
  refine ⟨by simp, ?_, ?_, ?_⟩ <;>
  · rw [List.map_map]
    apply List.map_congr_left
    intro s _
    simp only [Function.comp]
    split_ifs <;> rfl

/-- C20 (evaluation of the code): the first pass accepts `X: .entry MAIN`,
`MAIN: stop` without error with final IC 101 and DC 0, and the table then
holds X as a DATA symbol at address 101, outside the empty range [101, 101);
the second pass accepts the program as well. -/
theorem data_symbol_outside_data_segment :
    (first_pass "X: .entry MAIN\nMAIN: stop\n" initial_state).map
        (fun r => (r.1, r.2.IC, r.2.DC, r.2.symbol_table))
      = some (true, 101, 0,
          [{ name := "MAIN", address := 100, attr := SymbolAttribute.CODE_SYMBOL },
           { name := "X", address := 101, attr := SymbolAttribute.DATA_SYMBOL }])
    ∧ (assemble "X: .entry MAIN\nMAIN: stop\n").map (fun r => r.1) = some true := by
  decide

/-- C21 (evaluation of the code): on the line `X: .entry MAIN` the first pass
adds the label X to an empty table, as a DATA symbol at address 0, although
the claim says the label of an `.entry` line creates no symbol; on `X:
.extern Y` only Y is added. -/
theorem entry_label_creates_symbol :
    (process_line_first_pass "X: .entry MAIN\n" initial_state).map
        (fun r => (r.1, r.2.symbol_table, r.2.error_flag))
      = some (true, [{ name := "X", address := 0, attr := SymbolAttribute.DATA_SYMBOL }], 0)
    ∧ (process_line_first_pass "X: .extern Y\n" initial_state).map
        (fun r => (r.1, r.2.symbol_table, r.2.error_flag))
      = some (true, [{ name := "Y", address := 0, attr := SymbolAttribute.EXTERNAL_SYMBOL }], 0) := by
  decide

/-- C22: for `.entry name` in the second pass: when `name` is not in the table
the directive fails with the diagnostic "Symbol not defined", when it is
EXTERNAL with "An external symbol cannot be an entry point.", and in both
cases the symbol table is unchanged; otherwise it returns 1 and the table
differs only in the node that `find_symbol` returns for `name`, whose
attribute becomes ENTRY while its name and address stay; every other name is
found as before. The line function returns the result of the directive. -/
theorem process_entry_directive_spec (parsed : ParsedLine) (name : String) (st : AsmState)
    (h1 : parsed.operand1 = some name) :
    (find_symbol st.symbol_table name = none →
      process_entry_directive_parsed parsed st = (0, print_error st "Symbol not defined")
      ∧ (print_error st "Symbol not defined").symbol_table = st.symbol_table
      ∧ (print_error st "Symbol not defined").error_flag = 1)
    ∧ (∀ s, find_symbol st.symbol_table name = some s →
        s.attr = SymbolAttribute.EXTERNAL_SYMBOL →
        process_entry_directive_parsed parsed st =
          (0, print_error st "An external symbol cannot be an entry point.")
        ∧ (print_error st "An external symbol cannot be an entry point.").symbol_table =
            st.symbol_table
        ∧ (print_error st "An external symbol cannot be an entry point.").error_flag = 1)
    ∧ (∀ s, find_symbol st.symbol_table name = some s →
        s.attr ≠ SymbolAttribute.EXTERNAL_SYMBOL →
        ∃ pre post, st.symbol_table = pre ++ s :: post ∧ (∀ x ∈ pre, x.name ≠ name)
          ∧ process_entry_directive_parsed parsed st =
              (1, { st with symbol_table :=
                pre ++ { s with attr := SymbolAttribute.ENTRY_SYMBOL } :: post })
          ∧ find_symbol (pre ++ { s with attr := SymbolAttribute.ENTRY_SYMBOL } :: post) name =
              some { name := s.name, address := s.address,
                     attr := SymbolAttribute.ENTRY_SYMBOL }
          ∧ ∀ n, n ≠ name →
              find_symbol (pre ++ { s with attr := SymbolAttribute.ENTRY_SYMBOL } :: post) n =
                find_symbol st.symbol_table n)
    ∧ (∀ line, parse_line line = some parsed → parsed.is_empty = false →
        parsed.is_error = false → parsed.is_directive = true →
        parsed.command = some ".entry" →
        process_line_second_pass line st =
          some (decide ((process_entry_directive_parsed parsed st).1 > 0),
                (process_entry_directive_parsed parsed st).2)) := by
  refine ⟨?_, ?_, ?_, ?_⟩
  · intro hf
    refine ⟨?_, rfl, rfl⟩
    unfold process_entry_directive_parsed
    rw [h1]; simp only []; rw [hf]
  · intro s hf hattr
    refine ⟨?_, rfl, rfl⟩
    unfold process_entry_directive_parsed
    rw [h1]; simp only []; rw [hf]; simp only []
    rw [if_pos hattr]
  · intro s hf hattr
    obtain ⟨pre, post, hsplit, hpre, hname, hset⟩ :=
      set_entry_attribute_split st.symbol_table name s hf
    refine ⟨pre, post, hsplit, hpre, ?_, ?_, ?_⟩
    · unfold process_entry_directive_parsed
      rw [h1]; simp only []; rw [hf]; simp only []
      rw [if_neg hattr, hset]
    · rw [find_symbol_append_skip pre _ name hpre]
      simp [find_symbol, hname]
    · intro n hn
      rw [hsplit]
      apply find_symbol_append_congr
      have : ¬ s.name = n := by rw [hname]; exact fun h => hn h.symm
      simp [find_symbol, this]
  · intro line hp he hr hd hc
    unfold process_line_second_pass
    rw [hp]
    simp only [he, hr, hd, hc, Bool.false_eq_true, if_false, if_true]

/-- Witness of C22: `.entry MAIN` with MAIN a CODE symbol at 100. -/
theorem process_entry_directive_spec_witness :
    ∃ pre post,
        [{ name := "MAIN", address := 100, attr := SymbolAttribute.CODE_SYMBOL }] =
          pre ++ ({ name := "MAIN", address := 100, attr := SymbolAttribute.CODE_SYMBOL }
            : SymbolNode) :: post
        ∧ process_entry_directive_parsed
            { label := none, command := some ".entry", operand1 := some "MAIN",
              operand2 := none, is_error := false, is_empty := false, is_directive := true }
            { initial_state with symbol_table :=
                [{ name := "MAIN", address := 100, attr := SymbolAttribute.CODE_SYMBOL }] }
          = (1, { initial_state with symbol_table :=
              pre ++ { name := "MAIN", address := 100,
                       attr := SymbolAttribute.ENTRY_SYMBOL } :: post }) := by
  obtain ⟨pre, post, h1, _, h3, _⟩ := (process_entry_directive_spec
    { label := none, command := some ".entry", operand1 := some "MAIN", operand2 := none,
      is_error := false, is_empty := false, is_directive := true } "MAIN"
    { initial_state with symbol_table :=
        [{ name := "MAIN", address := 100, attr := SymbolAttribute.CODE_SYMBOL }] } rfl).2.2.1
    { name := "MAIN", address := 100, attr := SymbolAttribute.CODE_SYMBOL } (by decide)
    (by decide)
  exact ⟨pre, post, h1, h3⟩

/-- C23: when a line carries a label that is already in the symbol table, the
first pass rejects the line with a diagnostic ("Label already defined" for a
well-formed line with a valid label), the error flag is raised, and IC, DC
and the symbol table are unchanged by the line; when the rest of the file is
processed, the pass returns failure, the first definition is still found
with its address and attribute, and no output file is produced. -/
theorem duplicate_label_spec (content line l : String) (pre post : List InputLine)
    (parsed : ParsedLine) (s : SymbolNode) (st_k st_end : AsmState) (msg : String)
    (hsplit : fgets_lines MAX_LINE_LENGTH [] false content.data =
      pre ++ InputLine.text line :: post)
    (hpre : first_pass_loop pre (reset_memory_images (reset_counters initial_state)) =
      some st_k)
    (hline : ¬ (is_empty_line line.data = true ∨ is_comment_line line.data = true))
    (hparse : parse_line line = some parsed)
    (hempty : parsed.is_empty = false)
    (hlabel : parsed.label = some l)
    (hdef : find_symbol st_k.symbol_table l = some s)
    (hmsg : msg = if parsed.is_error = true then "Invalid line format"
      else if is_valid_label l = true then "Label already defined" else "Invalid label name")
    (hpost : first_pass_loop post (print_error st_k msg) = some st_end) :
    process_line_first_pass line st_k = some (false, print_error st_k msg)
    ∧ (print_error st_k msg).error_flag = 1
    ∧ (print_error st_k msg).IC = st_k.IC
    ∧ (print_error st_k msg).DC = st_k.DC
    ∧ (print_error st_k msg).symbol_table = st_k.symbol_table
    ∧ first_pass content initial_state = some (false, st_end)
    ∧ find_symbol st_end.symbol_table l = some s
    ∧ assemble content = some (false, st_end, none) := by
  have hstep : process_line_first_pass line st_k = some (false, print_error st_k msg) := by
    unfold process_line_first_pass
    rw [hparse]
    by_cases herror : parsed.is_error = true
    · simp only [hempty, herror, Bool.false_eq_true, if_false, if_true] at hmsg ⊢
      rw [hmsg]
    · rw [if_neg herror] at hmsg
      simp only [hempty, herror, Bool.false_eq_true, if_false, hlabel, Option.isSome_some,
        if_true, handle_label_definition_defined parsed st_k l s hlabel hdef]
      rw [hmsg]
  have hflag : st_end.error_flag = 1 := first_pass_loop_error post _ st_end hpost rfl
  have hfirst : first_pass content initial_state = some (false, st_end) := by
    unfold first_pass
    rw [hsplit, first_pass_loop_append, hpre]
    simp only [first_pass_loop]
    rw [if_neg hline, hstep]
    simp only []
    rw [hpost]
    simp only [hflag]
    rfl
  refine ⟨hstep, rfl, rfl, rfl, rfl, hfirst, ?_, ?_⟩
  · exact first_pass_loop_keeps post _ st_end hpost l s hdef
  · unfold assemble
    rw [hfirst]

/-- Witness of C23: `FOO: stop` twice. -/
theorem duplicate_label_spec_witness :
    first_pass "FOO: stop\nFOO: stop\n" initial_state =
        some (false, print_error
          { initial_state with IC := 101, symbol_table :=
              [{ name := "FOO", address := 100, attr := SymbolAttribute.CODE_SYMBOL }] }
          "Label already defined")
    ∧ assemble "FOO: stop\nFOO: stop\n" =
        some (false, print_error
          { initial_state with IC := 101, symbol_table :=
              [{ name := "FOO", address := 100, attr := SymbolAttribute.CODE_SYMBOL }] }
          "Label already defined", none) :=
  ⟨(duplicate_label_spec "FOO: stop\nFOO: stop\n" "FOO: stop\n" "FOO"
      [InputLine.text "FOO: stop\n"] []
      { label := some "FOO", command := some "stop", operand1 := none, operand2 := none,
        is_error := false, is_empty := false, is_directive := false }
      { name := "FOO", address := 100, attr := SymbolAttribute.CODE_SYMBOL }
      { initial_state with IC := 101, symbol_table :=
          [{ name := "FOO", address := 100, attr := SymbolAttribute.CODE_SYMBOL }] }
      (print_error
        { initial_state with IC := 101, symbol_table :=
            [{ name := "FOO", address := 100, attr := SymbolAttribute.CODE_SYMBOL }] }
        "Label already defined")
      "Label already defined"
      (by decide) rfl (by decide) (by decide) rfl rfl (by decide) (by decide) rfl).2.2.2.2.2.1,
   (duplicate_label_spec "FOO: stop\nFOO: stop\n" "FOO: stop\n" "FOO"
      [InputLine.text "FOO: stop\n"] []
      { label := some "FOO", command := some "stop", operand1 := none, operand2 := none,
        is_error := false, is_empty := false, is_directive := false }
      { name := "FOO", address := 100, attr := SymbolAttribute.CODE_SYMBOL }
      { initial_state with IC := 101, symbol_table :=
          [{ name := "FOO", address := 100, attr := SymbolAttribute.CODE_SYMBOL }] }
      (print_error
        { initial_state with IC := 101, symbol_table :=
            [{ name := "FOO", address := 100, attr := SymbolAttribute.CODE_SYMBOL }] }
        "Label already defined")
      "Label already defined"
      (by decide) rfl (by decide) (by decide) rfl rfl (by decide) (by decide) rfl).2.2.2.2.2.2.2⟩

/-- C24: `add_symbol` fails exactly when `find_symbol` already finds the name;
otherwise the new table is the old one with one node more, the name is then
found with the given address and attribute, every other name is found as
before, and pairwise distinct names stay pairwise distinct, so that every
table built from the empty one has pairwise distinct names. -/
theorem add_symbol_spec (head : List SymbolNode) (name : String) (address : Int)
    (attr : SymbolAttribute) :
    (add_symbol head name address attr = none ↔ (find_symbol head name).isSome = true)
    ∧ (find_symbol head name = none →
        add_symbol head name address attr =
          some ({ name := name, address := address, attr := attr } :: head)
        ∧ find_symbol ({ name := name, address := address, attr := attr } :: head) name =
            some { name := name, address := address, attr := attr }
        ∧ ∀ n, n ≠ name →
            find_symbol ({ name := name, address := address, attr := attr } :: head) n =
              find_symbol head n)
    ∧ (∀ table, add_symbol head name address attr = some table →
        table.length = head.length + 1
        ∧ ((head.map (fun s => s.name)).Nodup → (table.map (fun s => s.name)).Nodup))
    ∧ (∀ syms table, add_symbols [] syms = some table →
        (table.map (fun s => s.name)).Nodup) := by
  refine ⟨?_, ?_, ?_, ?_⟩
  · unfold add_symbol
    cases hf : find_symbol head name <;> simp
  · intro hf
    refine ⟨?_, ?_, ?_⟩
    · unfold add_symbol; rw [hf]
    · simp [find_symbol]
    · intro n hn
      have : ¬ name = n := fun h => hn h.symm
      simp [find_symbol, this]
  · intro table h
    refine ⟨?_, add_symbol_nodup _ _ _ _ _ h⟩
    unfold add_symbol at h
    cases hf : find_symbol head name with
    | some x => rw [hf] at h; cases h
    | none =>
      rw [hf] at h
      simp only [Option.some.injEq] at h
      rw [← h]; rfl
  · intro syms table h
    exact add_symbols_nodup [] syms table h List.nodup_nil

/-- Witness of C24: FOO is added to the empty table and refused the second
time. -/
theorem add_symbol_spec_witness :
    add_symbol [] "FOO" 100 SymbolAttribute.CODE_SYMBOL =
        some [{ name := "FOO", address := 100, attr := SymbolAttribute.CODE_SYMBOL }]
    ∧ add_symbol [{ name := "FOO", address := 100, attr := SymbolAttribute.CODE_SYMBOL }]
        "FOO" 105 SymbolAttribute.DATA_SYMBOL = none :=
  ⟨((add_symbol_spec [] "FOO" 100 SymbolAttribute.CODE_SYMBOL).2.1 rfl).1,
   (add_symbol_spec [{ name := "FOO", address := 100, attr := SymbolAttribute.CODE_SYMBOL }]
      "FOO" 105 SymbolAttribute.DATA_SYMBOL).1.mpr (by decide)⟩

/-- C25: starting from a table of valid names (the empty one), after any
sequence of lines of the first pass, and at the end of the pass, every symbol
of the table has a name accepted by `is_valid_label`, hence not one of the
16 mnemonics, the 5 directive names or r0..r7. -/
theorem symbol_names_not_reserved (content : String) (lines : List InputLine)
    (st0 st_k : AsmState)
    (h0 : ∀ s ∈ st0.symbol_table, is_valid_label s.name = true)
    (hrun : first_pass_loop lines (reset_memory_images (reset_counters st0)) = some st_k) :
    (∀ s ∈ st_k.symbol_table, is_valid_label s.name = true
        ∧ s.name ∉ reserved_instructions ++ reserved_directives ++ reserved_registers)
    ∧ (∀ b st_final, first_pass content st0 = some (b, st_final) →
        ∀ s ∈ st_final.symbol_table, is_valid_label s.name = true
          ∧ s.name ∉ reserved_instructions ++ reserved_directives ++ reserved_registers) := by
  have hres : ∀ n : String, is_valid_label n = true →
      n ∉ reserved_instructions ++ reserved_directives ++ reserved_registers := by
    intro n hn hmem
    have h1 := is_valid_label_not_reserved n hn
    have h2 := (is_reserved_word_iff n).mpr hmem
    rw [h1] at h2
    cases h2
  constructor
  · intro s hs
    have := first_pass_loop_valid lines _ st_k hrun h0 s hs
    exact ⟨this, hres _ this⟩
  · intro b st_final hpass s hs
    unfold first_pass at hpass
    cases hl : first_pass_loop (fgets_lines MAX_LINE_LENGTH [] false content.data)
        (reset_memory_images (reset_counters st0)) with
    | none => rw [hl] at hpass; cases hpass
    | some st1 =>
      rw [hl] at hpass
      simp only [] at hpass
      have hv := first_pass_loop_valid _ _ st1 hl h0
      by_cases he : st1.error_flag = 0
      · rw [if_pos he] at hpass
        simp only [Option.some.injEq, Prod.mk.injEq] at hpass
        rw [← hpass.2] at hs
        have := update_data_symbols_valid st1.symbol_table st1.IC hv s hs
        exact ⟨this, hres _ this⟩
      · rw [if_neg he] at hpass
        simp only [Option.some.injEq, Prod.mk.injEq] at hpass
        rw [← hpass.2] at hs
        exact ⟨hv s hs, hres _ (hv s hs)⟩

/-- Witness of C25: after `MAIN: stop` the table holds MAIN only, a valid
label name. -/
theorem symbol_names_not_reserved_witness :
    first_pass_loop [InputLine.text "MAIN: stop\n"]
        (reset_memory_images (reset_counters initial_state)) =
      some { initial_state with IC := 101, symbol_table :=
        [{ name := "MAIN", address := 100, attr := SymbolAttribute.CODE_SYMBOL }] }
    ∧ is_valid_label "MAIN" = true :=
  ⟨rfl, ((symbol_names_not_reserved "MAIN: stop\n" [InputLine.text "MAIN: stop\n"]
    initial_state
    { initial_state with IC := 101, symbol_table :=
        [{ name := "MAIN", address := 100, attr := SymbolAttribute.CODE_SYMBOL }] }
    (by intro s hs; cases hs) rfl).1
    { name := "MAIN", address := 100, attr := SymbolAttribute.CODE_SYMBOL }
    (List.mem_singleton.mpr rfl)).1⟩

/-- C26 (evaluation of the code): the first pass rejects `.data 1,2,3` with
"Invalid line format" and stores nothing, because the tokenizer splits at
commas and the parser flags a third operand; two values are accepted. -/
theorem data_three_values_rejected :
    (parse_line ".data 1,2,3\n").map (fun p => (p.operand1, p.operand2, p.is_error))
      = some (some "1", some "2", true)
    ∧ (process_line_first_pass ".data 1,2,3\n" initial_state).map
        (fun r => (r.1, r.2.DC, r.2.diagnostics, r.2.data_image 0))
      = some (false, 0, ["Invalid line format"], 0)
    ∧ (process_line_first_pass ".data 1, 2\n" initial_state).map
        (fun r => (r.1, r.2.DC, r.2.diagnostics, r.2.data_image 0, r.2.data_image 1))
      = some (true, 2, [], 1, 2) := by
  decide

/-- C28 (evaluation of the code): the first pass rejects `.mat [2][2] 1,2,3,4`
with "Invalid line format" and DC stays 0, because the tokenizer splits at
commas and the parser flags the values after the first; a one-element matrix
is accepted, and a line with fewer values is rejected without advancing
DC. -/
theorem mat_four_values_rejected :
    (process_line_first_pass ".mat [2][2] 1,2,3,4\n" initial_state).map
        (fun r => (r.1, r.2.DC, r.2.diagnostics))
      = some (false, 0, ["Invalid line format"])
    ∧ (process_line_first_pass ".mat [1][1] 7\n" initial_state).map
        (fun r => (r.1, r.2.DC, r.2.diagnostics, r.2.data_image 0))
      = some (true, 1, [], 7)
    ∧ (process_line_first_pass ".mat [2][2] 1\n" initial_state).map
        (fun r => (r.1, r.2.DC, r.2.diagnostics))
      = some (false, 0, ["Incorrect number of values for matrix dimensions"]) := by
  decide

set_option maxRecDepth 100000 in
/-- C29 (evaluation of the code): for the token `"ab"` the code stores the
byte values 97 and 98 and the terminating 0 and returns 3, and a token without
quotes fails with a diagnostic and -1; but for a string holding the byte 0xE9
it stores 4294967273 at `data_image[DC]`, the sign-extended `char`, not the
byte value 233. Both passes accept `non_ascii_string_program`, and the object
file shows the word as `ddccb` where the byte value 233 is `adccb`. -/
theorem string_byte_sign_extended :
    (store_string_data [Char.ofNat 34, 'a', 'b', Char.ofNat 34] initial_state).map
        (fun r => (r.1, r.2.data_image 0, r.2.data_image 1, r.2.data_image 2, r.2.diagnostics))
      = some (3, 97, 98, 0, [])
    ∧ (store_string_data ['a', 'b'] initial_state).map (fun r => (r.1, r.2.diagnostics))
      = some (-1, ["String must be enclosed in quotes"])
    ∧ (Char.ofNat 233).toNat = 233
    ∧ (store_string_data [Char.ofNat 34, Char.ofNat 233, Char.ofNat 34] initial_state).map
        (fun r => (r.1, r.2.data_image 0, r.2.data_image 1, r.2.diagnostics))
      = some (2, 4294967273, 0, [])
    ∧ (4294967273 : Nat) ≠ 233
    ∧ (assemble non_ascii_string_program).map
        (fun r => (r.1, r.2.1.error_flag, r.2.1.DC, r.2.1.data_image 0, r.2.1.data_image 1))
      = some (true, 0, 2, 4294967273, 0)
    ∧ (assemble non_ascii_string_program).map (fun r => r.2.2.map (fun o => o.ob))
      = some (some [output_line "aaaab" "aaaac", output_line "abcba" "ddaaa",
          output_line "abcbb" "ddccb", output_line "abcbc" "aaaaa"])
    ∧ to_base4 233 = "adccb" := by
  refine ⟨by decide, by decide, by decide, by decide, by decide, by decide, by decide, by decide⟩

set_option maxRecDepth 100000 in
/-- C30 (evaluation of the code): both passes accept `oversized_program`
without error and write the output files, with final IC 125 and DC 232, so
that (ICF - 100) + DC = 257 exceeds 256. -/
theorem oversized_program_accepted :
    (first_pass oversized_program initial_state).map (fun r => (r.1, r.2.IC, r.2.DC))
      = some (true, 125, 232)
    ∧ (assemble oversized_program).map
        (fun r => (r.1, r.2.1.IC, r.2.1.DC, r.2.1.error_flag, r.2.2.isSome))
      = some (true, 125, 232, 0, true)
    ∧ ¬ ((125 : Int) - 100 + 232 ≤ 256) := by
  decide

set_option maxRecDepth 100000 in
/-- C31 (evaluation of the code): both passes accept `prn #-1` and the second
pass stores the operand word 4092 = (-1 & 0x3FF) << 2 in the instruction
image, which is not below 1024; `prn #511` stores 2044 and `prn #256` stores
1024. The object files of `prn #-1` and `prn #511` are equal line by line,
and so are those of `prn #256` and `prn #0`: the two bits above bit 9 are
lost by `to_base4`. In `high_address_program` the direct reference to L at
address 276 is stored as 1106 = (276 << 2) | 2. -/
theorem immediate_word_exceeds_ten_bits :
    (assemble "prn #-1\n").map
        (fun r => (r.1, r.2.1.error_flag, r.2.1.instruction_image 0, r.2.1.instruction_image 1))
      = some (true, 0, 768, 4092)
    ∧ ¬ (4092 < 1024)
    ∧ (assemble "prn #511\n").map (fun r => (r.1, r.2.1.instruction_image 1))
      = some (true, 2044)
    ∧ (assemble "prn #256\n").map (fun r => (r.1, r.2.1.instruction_image 1))
      = some (true, 1024)
    ∧ (assemble "prn #-1\n").map (fun r => r.2.2) = (assemble "prn #511\n").map (fun r => r.2.2)
    ∧ (assemble "prn #256\n").map (fun r => r.2.2) = (assemble "prn #0\n").map (fun r => r.2.2)
    ∧ (assemble "prn #0\n").map (fun r => r.2.2.map (fun o => o.ob))
      = some (some ["aaaac aaaaa\n", "abcba daaaa\n", "abcbb aaaaa\n"])
    ∧ (assemble high_address_program).map
        (fun r => (r.1, r.2.1.symbol_table.map (fun s => (s.name, s.address)),
          r.2.1.instruction_image 1))
      = some (true, [("L", 276)], 1106) := by
  decide

/-- C32: `is_valid_label s` is true exactly when `s` is not empty, has at
most 30 characters, starts with an ASCII letter, continues with ASCII
letters and digits only, and is none of the 16 mnemonics, the 5 directive
names and r0..r7. -/
theorem is_valid_label_spec (s : String) :
    is_valid_label s = true ↔
      s.data ≠ []
      ∧ s.data.length ≤ 30
      ∧ (∀ c, s.data.head? = some c → is_ascii_letter c)
      ∧ (∀ c ∈ s.data.tail, is_ascii_letter c ∨ is_ascii_digit c)
      ∧ s ∉ reserved_instructions ++ reserved_directives ++ reserved_registers := by
  have hres := is_reserved_word_iff s
  unfold is_valid_label
  cases hd : s.data with
  | nil => simp
  | cons c rest =>
    have hlen : (c :: rest).length = 0 ∨ (c :: rest).length ≥ MAX_SYMBOL_NAME ↔
        ¬ (c :: rest).length ≤ 30 := by
      simp only [MAX_SYMBOL_NAME, List.length_cons]
      omega
    by_cases h1 : (c :: rest).length ≤ 30
    · rw [if_neg (fun h => (hlen.mp h) h1)]
      simp only [List.headD_cons, List.drop_succ_cons, List.drop_zero, List.head?_cons,
        Option.some.injEq, forall_eq', List.tail_cons, ne_eq, reduceCtorEq, not_false_eq_true,
        true_and, h1]
      by_cases h2 : isalpha c = true
      · have h2' := (isalpha_iff c).mp h2
        simp only [h2, not_true_eq_false, if_false, h2', true_and]
        by_cases h3 : rest.all isalnum = true
        · have h3' : ∀ x ∈ rest, is_ascii_letter x ∨ is_ascii_digit x := by
            intro x hx
            exact (isalnum_iff x).mp (List.all_eq_true.mp h3 x hx)
          simp only [h3, not_true_eq_false, if_false, Bool.not_eq_true']
          constructor
          · intro h
            refine ⟨h3', ?_⟩
            intro hm
            rw [hres.mpr hm] at h
            cases h
          · intro h
            cases hr : is_reserved_word s with
            | false => rfl
            | true => exact absurd (hres.mp hr) h.2
        · rw [if_pos h3]
          simp only [Bool.false_eq_true, false_iff, not_and]
          intro h
          exfalso
          apply h3
          rw [List.all_eq_true]
          intro x hx
          exact (isalnum_iff x).mpr (h x hx)
      · rw [if_pos h2]
        simp only [Bool.false_eq_true, false_iff, not_and]
        intro h
        exact absurd ((isalpha_iff c).mpr h) h2
    · rw [if_pos (hlen.mpr h1)]
      simp only [Bool.false_eq_true, false_iff, not_and]
      intro _ h
      exact absurd h h1

/-- Counterexample to C33 as stated: the string of a space and `5` is not a
numeral (it is not an optional sign followed by digits only), yet
`is_valid_integer` accepts it with the value 5; so is a vertical tab
followed by `5`, which reaches the function from the line `prn #` + vertical
tab + `5`. -/
theorem is_valid_integer_leading_space_counterexample :
    is_valid_integer [' ', '5'] = some 5
    ∧ spec_integer [' ', '5'] = none
    ∧ is_valid_integer [Char.ofNat 11, '5'] = some 5
    ∧ (parse_line "prn #\x0b5\n").map (fun p => p.operand1) = some (some "#\x0b5")
    ∧ (assemble "prn #\x0b5\n").map (fun r => (r.1, r.2.1.instruction_image 1))
        = some (true, 20) := by
  decide

/-- C33 (as amended): `is_valid_integer s` is the value of the numeral that
remains when the leading white space of `s` is skipped: it succeeds exactly
when that rest is an optional sign followed by at least one digit and
nothing else, with a value in [-512, 511], and then returns that value. For
a string that does not start with white space this is the claim as stated. -/
theorem is_valid_integer_spec (s : List Char) :
    is_valid_integer s = spec_integer (s.dropWhile isspace)
    ∧ ((∀ c, s.head? = some c → isspace c = false) →
        is_valid_integer s = spec_integer s) := by
  have main : is_valid_integer s = spec_integer (s.dropWhile isspace) := by
    unfold is_valid_integer
    by_cases hs : s = []
    · rw [if_pos hs, hs]
      rfl
    · rw [if_neg hs]
      unfold strtol spec_integer
      simp only [List.drop_one]
      generalize hs2 : (if (s.dropWhile isspace).head? = some '-'
          ∨ (s.dropWhile isspace).head? = some '+'
        then (s.dropWhile isspace).tail else s.dropWhile isspace) = s2
      by_cases hds : s2.takeWhile isdigit = []
      · rw [if_pos hds]
        simp only [hs, false_and, if_false]
        by_cases h2 : s2 = []
        · simp [h2]
        · have := takeWhile_nil_not_all isdigit s2 h2 hds
          have hn : ¬ ∀ c ∈ s2, is_ascii_digit c := by
            intro h
            exact this (fun c hc => (isdigit_iff c).mpr (h c hc))
          simp [hn]
      · rw [if_neg hds]
        simp only []
        by_cases hall : ∀ c ∈ s2, is_ascii_digit c
        · have hne : s2 ≠ [] := by
            intro h
            rw [h] at hds
            exact hds rfl
          have htake : s2.takeWhile isdigit = s2 :=
            takeWhile_all isdigit s2 (fun c hc => (isdigit_iff c).mpr (hall c hc))
          have hdrop := (dropWhile_isdigit_nil s2).mpr hall
          have hval := digits_value_ofDigits s2 hall 0
          simp only [zero_mul, zero_add] at hval
          rw [htake, hdrop,
            if_pos (show s2 ≠ [] ∧ ∀ c ∈ s2, is_ascii_digit c from ⟨hne, hall⟩), ← hval]
          simp only [true_and]
          generalize digits_value 0 s2 = n
          by_cases hneg : (s.dropWhile isspace).head? = some '-'
          · simp only [hneg, decide_True, if_true]
            have hc := clamp_long_range (-n)
            by_cases hr : -512 ≤ -n ∧ -n ≤ 511
            · rw [if_pos hr, if_pos (by rw [hc.2 hr]; exact ⟨hr.1, hr.2⟩), hc.2 hr]
            · rw [if_neg hr, if_neg (fun h => hr (hc.1.mp h))]
          · simp only [hneg, decide_False, Bool.false_eq_true, if_false]
            have hc := clamp_long_range n
            by_cases hr : -512 ≤ n ∧ n ≤ 511
            · rw [if_pos hr, if_pos (by rw [hc.2 hr]; exact ⟨hr.1, hr.2⟩), hc.2 hr]
            · rw [if_neg hr, if_neg (fun h => hr (hc.1.mp h))]
        · have hdrop : s2.dropWhile isdigit ≠ [] := fun h =>
            hall ((dropWhile_isdigit_nil s2).mp h)
          simp [hdrop, hall]
  refine ⟨main, ?_⟩
  intro h
  rw [main]
  cases s with
  | nil => rfl
  | cons c rest =>
    have hc := h c rfl
    simp [List.dropWhile, hc]

/-- Witness of C33: `-512` does not start with white space and is accepted
with the value of the numeral. -/
theorem is_valid_integer_spec_witness :
    is_valid_integer ['-', '5', '1', '2'] = spec_integer ['-', '5', '1', '2']
    ∧ spec_integer ['-', '5', '1', '2'] = some (-512) :=
  ⟨(is_valid_integer_spec ['-', '5', '1', '2']).2 (by decide), by decide⟩

/-- Counterexample to C34 as stated: splitting `mov` + space + vertical tab +
`r1` at space, tab, newline, carriage return and comma gives the second token
vertical tab + `r1`, but `parse_line` records `r1` as `operand1`: each token
is also trimmed of white space, and a vertical tab is white space without
being a separator. -/
theorem parse_line_token_trim_counterexample :
    (split_tokens is_line_delimiter "mov \x0br1\n".data).map String.mk = ["mov", "\x0br1"]
    ∧ (parse_line "mov \x0br1\n").map (fun p => (p.command, p.operand1))
        = some (some "mov", some "r1")
    ∧ ("\x0br1" : String) ≠ "r1" := by
  decide

/-- C34 (as amended): for a line of at most 80 characters whose first ten
tokens have at most 30 characters each, where the tokens are obtained by
trimming the line, splitting it at space, tab, newline, carriage return and
comma, and trimming each piece of white space: an empty or comment line
gives `is_empty` with no field set; otherwise, `parse_line` records the first
token without its final colon as the label iff that token ends with `:`,
the next token (if any) as the command, the two after it (if any) as
`operand1` and `operand2`, sets `is_error` iff a token remains after those,
and sets `is_directive` iff there is a command that starts with `.`; a line
without token gives `is_empty`. -/
theorem parse_line_spec (line : String)
    (hlen : line.data.length ≤ 80)
    (htok : ∀ t ∈ (line_tokens line.data).take MAX_TOKENS, t.data.length ≤ 30) :
    ((is_empty_line line.data = true ∨ is_comment_line line.data = true) →
        parse_line line = some { empty_parsed_line with is_empty := true })
    ∧ (¬ (is_empty_line line.data = true ∨ is_comment_line line.data = true) →
        ∃ parsed, parse_line line = some parsed
          ∧ (line_tokens line.data = [] →
              parsed = { empty_parsed_line with is_empty := true })
          ∧ (∀ t0 rest, line_tokens line.data = t0 :: rest →
              parsed.is_empty = false
              ∧ (parsed.label.isSome = true ↔ t0.data.getLast? = some ':')
              ∧ (t0.data.getLast? = some ':' →
                  parsed.label = some (String.mk t0.data.dropLast)
                  ∧ parsed.command = rest.get? 0
                  ∧ parsed.operand1 = rest.get? 1
                  ∧ parsed.operand2 = rest.get? 2
                  ∧ (parsed.is_error = true ↔ 3 < rest.length))
              ∧ (t0.data.getLast? ≠ some ':' →
                  parsed.command = some t0
                  ∧ parsed.operand1 = rest.get? 0
                  ∧ parsed.operand2 = rest.get? 1
                  ∧ (parsed.is_error = true ↔ 2 < rest.length))
              ∧ (parsed.is_directive = true ↔
                  ∃ c, parsed.command = some c ∧ c.data.head? = some '.'))) := by
  constructor
  · intro h
    unfold parse_line
    rw [if_pos h]
  · intro h
    have hl : ¬ line.data.length ≥ MAX_LINE_LENGTH := by
      simp only [MAX_LINE_LENGTH]; omega
    unfold parse_line
    rw [if_neg h, if_neg hl, tokenize_line_eq line.data MAX_TOKENS htok]
    simp only []
    cases htl : line_tokens line.data with
    | nil =>
      refine ⟨_, rfl, ?_, ?_⟩
      · intro _
        rfl
      · intro t0 rest hc
        cases hc
    | cons t0 rest =>
      have htake : List.take MAX_TOKENS (t0 :: rest) = t0 :: List.take 9 rest := by
        simp [MAX_TOKENS]
      have hlenT : (List.take 9 rest).length = min 9 rest.length := List.length_take _ _
      rw [htake]
      have hne : ¬ (t0 :: List.take 9 rest).length = 0 := by simp
      rw [if_neg hne]
      simp only [List.headD_cons, List.length_cons]
      by_cases hcolon : t0.data.getLast? = some ':'
      · have hpos : t0.data.length > 0 := by
          cases hd : t0.data with
          | nil => rw [hd] at hcolon; cases hcolon
          | cons c cs => exact Nat.succ_pos _
        have hlabel : (decide (t0.data.length > 0) && decide (t0.data.getLast? = some ':'))
            = true := by
          rw [Bool.and_eq_true, decide_eq_true_eq, decide_eq_true_eq]
          exact ⟨hpos, hcolon⟩
        simp only [hlabel, if_true, List.get?_cons_succ]
        refine ⟨_, rfl, ?_, ?_⟩
        · intro hc
          cases hc
        · intro t0' rest' hc
          simp only [List.cons.injEq] at hc
          obtain ⟨h0, hr⟩ := hc
          subst h0
          subst hr
          refine ⟨rfl, ?_, ?_, ?_, ?_⟩
          · simp only [Option.isSome_some, true_iff]
            exact hcolon
          · intro _
            refine ⟨rfl, get?_take_lt rest 9 0 (by omega), get?_take_lt rest 9 1 (by omega),
              get?_take_lt rest 9 2 (by omega), ?_⟩
            simp only [decide_eq_true_eq, hlenT]
            omega
          · intro hn
            exact absurd hcolon hn
          · simp only []
            cases hcmd : (List.take 9 rest).get? 0 with
            | none => simp
            | some c => simp
      · have hlabel : (decide (t0.data.length > 0) && decide (t0.data.getLast? = some ':'))
            = false := by
          rw [Bool.and_eq_false_iff]
          right
          exact decide_eq_false hcolon
        simp only [hlabel, Bool.false_eq_true, if_false, List.get?_cons_zero,
          List.get?_cons_succ]
        refine ⟨_, rfl, ?_, ?_⟩
        · intro hc
          cases hc
        · intro t0' rest' hc
          simp only [List.cons.injEq] at hc
          obtain ⟨h0, hr⟩ := hc
          subst h0
          subst hr
          refine ⟨rfl, ?_, ?_, ?_, ?_⟩
          · simp only [Option.isSome_none, Bool.false_eq_true, false_iff]
            exact hcolon
          · intro hn
            exact absurd hn hcolon
          · intro _
            refine ⟨rfl, get?_take_lt rest 9 0 (by omega), get?_take_lt rest 9 1 (by omega), ?_⟩
            simp only [decide_eq_true_eq, hlenT]
            omega
          · simp

/-- Witness of C34: `X: mov r1, r2` has the tokens `X:`, `mov`, `r1`, `r2`
and is parsed into the label X, the command `mov` and the two operands. -/
theorem parse_line_spec_witness :
    ∃ parsed, parse_line "X: mov r1, r2\n" = some parsed
      ∧ parsed.label = some "X" ∧ parsed.command = some "mov"
      ∧ parsed.operand1 = some "r1" ∧ parsed.operand2 = some "r2"
      ∧ ¬ (parsed.is_error = true) := by
  obtain ⟨parsed, hp, _, h⟩ :=
    (parse_line_spec "X: mov r1, r2\n" (by decide) (by decide)).2 (by decide)
  have h1 := (h "X:" ["mov", "r1", "r2"] (by decide)).2.2.1 (by decide)
  refine ⟨parsed, hp, h1.1, h1.2.1, h1.2.2.1, h1.2.2.2.1, ?_⟩
  intro he
  exact absurd (h1.2.2.2.2.mp he) (by decide)

set_option maxRecDepth 100000 in
/-- C35 (evaluation of the code): for `mcro GREET` / `mov r1, r2` / `mcroend`
/ `GREET` the pre-assembler stores the body `mov r1, r2` under GREET and its
output is `mov r1, r2` only. With a body line of exactly 80 characters the
definition is abandoned at that line without a diagnostic: the macro table
stays empty, the lines `mcroend` and `GREET` are copied to the output as
ordinary lines, the body is not in the output, and the pre-assembler reports
success. With a body line of 79 characters the macro is stored and expanded. -/
theorem macro_body_line_of_80_dropped :
    (process_file "mcro GREET\nmov r1, r2\nmcroend\nGREET\n" 0).map
        (fun r => (r.1, r.2.1.macro_table, r.2.1.diagnostics, r.2.2))
      = some (true, [{ name := "GREET", content := "mov r1, r2\n" }], [], some "mov r1, r2\n")
    ∧ line_of_80.data.length = 81
    ∧ (process_file macro_with_line_of_80 0).map
        (fun r => (r.1, r.2.1.macro_table, r.2.1.error_flag, r.2.1.diagnostics, r.2.2))
      = some (true, [], 0, [], some "mcroend\nGREET\n")
    ∧ (process_file ("mcro GREET\n" ++ line_of_79 ++ "mcroend\nGREET\n") 0).map
        (fun r => (r.1, r.2.1.macro_table, r.2.1.diagnostics, r.2.2))
      = some (true, [{ name := "GREET", content := line_of_79 }], [], some line_of_79) := by
  refine ⟨by decide, by decide, by decide, by decide⟩

/-- C37 (evaluation of the code): a line of exactly 80 characters followed by
a newline is reported as "Line is longer than 80 characters" by the reading
loop of the pre-assembler and of the first pass (the second pass runs the same
test), and the line is not processed: the `stop` it holds is not counted. A line
of 79 characters is processed, and the line after the rejected one is read
from its first character. -/
theorem line_of_80_characters_rejected :
    line_of_80.data.length = 81
    ∧ fgets_lines MAX_LINE_LENGTH [] false (line_of_80 ++ "stop\n").data
        = [InputLine.too_long, InputLine.text "stop\n"]
    ∧ (process_file line_of_80 0).map (fun r => (r.1, r.2.1.diagnostics, r.2.2))
        = some (false, ["Line is longer than 80 characters"], none)
    ∧ (first_pass (line_of_80 ++ "stop\n") initial_state).map
          (fun r => (r.1, r.2.IC, r.2.diagnostics))
        = some (false, 101, ["Line is longer than 80 characters"])
    ∧ fgets_lines MAX_LINE_LENGTH [] false line_of_79.data = [InputLine.text line_of_79]
    ∧ (process_file line_of_79 0).map (fun r => (r.1, r.2.1.diagnostics, r.2.2))
        = some (true, [], some line_of_79)
    ∧ (first_pass (line_of_79 ++ "stop\n") initial_state).map
          (fun r => (r.1, r.2.IC, r.2.diagnostics))
        = some (true, 102, []) := by
  decide

/-- C38: on an instruction line that both passes accept, the number of words
`encode_instruction_parsed` reports equals the length the first pass computed
with `calculate_instruction_length`; hence, when both passes end without
error, IC at the end of the second pass equals ICF (100 plus the code words
of the lines); the object file is the header holding ICF - 100 and DC, one
line per code word with the addresses 100 + j, and one line per data word
with the addresses ICF + i; and ICF is the amount by which the first pass
relocated the DATA symbols: a DATA symbol that the first pass defined at the
data offset d is in the table with the address d + ICF, the address written
on the line of the data word d. -/
theorem second_pass_words_match_first_pass (content : String) (st1 st2 : AsmState)
    (out : Option OutputFiles)
    (h1 : first_pass content initial_state = some (true, st1))
    (h2 : second_pass content st1 = some (true, st2, out)) :
    (∀ (parsed : ParsedLine) (s t t1 : AsmState) (r2 : Int),
        0 ≤ (process_instruction_parsed parsed s).1 →
        encode_instruction_parsed parsed t = some (r2, t1) → 0 < r2 →
        r2 = (process_instruction_parsed parsed s).1
          ∧ r2 = instruction_length parsed)
    ∧ st1.IC = IC_INITIAL_VALUE
        + total_words (fgets_lines MAX_LINE_LENGTH [] false content.data)
    ∧ st2.IC = st1.IC
    ∧ out.map (fun o => o.ob) =
        some (output_line (to_base4 (to_unsigned (st1.IC - IC_INITIAL_VALUE)))
            (to_base4 (to_unsigned st2.DC))
          :: ((List.range (st1.IC - IC_INITIAL_VALUE).toNat).map (fun (j : Nat) =>
                output_line (to_base4 (to_unsigned (IC_INITIAL_VALUE + (j : Int))))
                  (to_base4 (st2.instruction_image j)))
              ++ (List.range st2.DC.toNat).map (fun (i : Nat) =>
                output_line (to_base4 (to_unsigned (st1.IC + (i : Int))))
                  (to_base4 (st2.data_image i)))))
    ∧ (∃ st0, first_pass_loop (fgets_lines MAX_LINE_LENGTH [] false content.data)
          (reset_memory_images (reset_counters initial_state)) = some st0
        ∧ st1.symbol_table = update_data_symbols st0.symbol_table st2.IC
        ∧ (∀ s ∈ st0.symbol_table, s.attr = SymbolAttribute.DATA_SYMBOL →
            0 ≤ s.address → s.address < st2.DC →
            { s with address := s.address + st2.IC } ∈ st1.symbol_table
            ∧ out.map (fun o =>
                o.ob.get? (1 + (st2.IC - IC_INITIAL_VALUE).toNat + s.address.toNat)) =
              some (some (output_line (to_base4 (to_unsigned (s.address + st2.IC)))
                (to_base4 (st2.data_image s.address.toNat)))))) := by
  -- the first pass
  unfold first_pass at h1
  cases hl1 : first_pass_loop (fgets_lines MAX_LINE_LENGTH [] false content.data)
      (reset_memory_images (reset_counters initial_state)) with
  | none => rw [hl1] at h1; cases h1
  | some st0 =>
    rw [hl1] at h1
    simp only [] at h1
    by_cases he0 : st0.error_flag = 0
    · rw [if_pos he0] at h1
      simp only [Option.some.injEq, Prod.mk.injEq, true_and] at h1
      have hIC0 : st0.IC = IC_INITIAL_VALUE
          + total_words (fgets_lines MAX_LINE_LENGTH [] false content.data) := by
        rcases first_pass_loop_words _ _ _ hl1 with hx | hx
        · rw [he0] at hx; cases hx
        · exact hx.2
      have hIC1 : st1.IC = st0.IC := by rw [← h1]; rfl
      have hflag1 : st1.error_flag = 0 := by rw [← h1]; exact he0
      have htab1 : st1.symbol_table = update_data_symbols st0.symbol_table st0.IC := by
        rw [← h1]; rfl
      -- the second pass
      unfold second_pass at h2
      cases hl2 : second_pass_loop (fgets_lines MAX_LINE_LENGTH [] false content.data)
          { st1 with IC := IC_INITIAL_VALUE } with
      | none => rw [hl2] at h2; cases h2
      | some st3 =>
        rw [hl2] at h2
        simp only [] at h2
        by_cases he3 : st3.error_flag = 0
        · rw [if_pos he3] at h2
          cases hob : create_object_file st3 with
          | none => rw [hob] at h2; cases h2
          | some ob =>
            rw [hob] at h2
            simp only [Option.some.injEq, Prod.mk.injEq, true_and] at h2
            obtain ⟨h23, hout⟩ := h2
            subst h23
            have hIC3 : st3.IC = IC_INITIAL_VALUE
                + total_words (fgets_lines MAX_LINE_LENGTH [] false content.data) := by
              rcases second_pass_loop_words _ _ _ hl2 with hx | hx
              · rw [he3] at hx; cases hx
              · exact hx.2
            have hICeq : st3.IC = st1.IC := by rw [hIC3, hIC1, hIC0]
            have hobeq : ob =
                output_line (to_base4 (to_unsigned (st1.IC - IC_INITIAL_VALUE)))
                    (to_base4 (to_unsigned st3.DC))
                  :: ((List.range (st1.IC - IC_INITIAL_VALUE).toNat).map (fun (j : Nat) =>
                        output_line (to_base4 (to_unsigned (IC_INITIAL_VALUE + (j : Int))))
                          (to_base4 (st3.instruction_image j)))
                      ++ (List.range st3.DC.toNat).map (fun (i : Nat) =>
                        output_line (to_base4 (to_unsigned (st1.IC + (i : Int))))
                          (to_base4 (st3.data_image i)))) := by
              unfold create_object_file at hob
              simp only [] at hob
              cases hw1 : write_image_lines st3.instruction_image IC_INITIAL_VALUE 0
                  (st3.IC - IC_INITIAL_VALUE).toNat with
              | none => rw [hw1] at hob; cases hob
              | some code_lines =>
                rw [hw1] at hob
                simp only [] at hob
                cases hw2 : write_image_lines st3.data_image st3.IC 0 st3.DC.toNat with
                | none => rw [hw2] at hob; cases hob
                | some data_lines =>
                  rw [hw2] at hob
                  simp only [Option.some.injEq] at hob
                  rw [← hob, write_image_lines_eq _ _ _ _ _ hw1,
                    write_image_lines_eq _ _ _ _ _ hw2, hICeq]
                  simp only [Nat.zero_add]
            have hobout : out.map (fun o => o.ob) = some ob := by rw [← hout]; rfl
            refine ⟨?_, by rw [hIC1, hIC0], hICeq, ?_,
              ⟨st0, rfl, by rw [htab1, hICeq, hIC1], ?_⟩⟩
            · intro parsed s t t1 r2 hr1 henc hr2
              have hc := encode_instruction_parsed_cases _ _ _ _ henc
              have hr2eq : r2 = instruction_length parsed := by
                rcases hc.2 with hx | hx
                · omega
                · exact hx.1
              refine ⟨?_, hr2eq⟩
              rcases process_instruction_parsed_cases parsed s with hp | hp
              · rw [hp.1] at hr1
                exact absurd hr1 (by decide)
              · rw [hp.1]
                exact hr2eq
            · rw [hobout, hobeq]
            · intro s hs hattr h0 hlt
              constructor
              · rw [htab1, hICeq, hIC1]
                unfold update_data_symbols
                exact List.mem_map.mpr ⟨s, hs, by rw [if_pos hattr]⟩
              · have hget : ob.get? (1 + (st3.IC - IC_INITIAL_VALUE).toNat + s.address.toNat) =
                    some (output_line (to_base4 (to_unsigned (s.address + st3.IC)))
                      (to_base4 (st3.data_image s.address.toNat))) := by
                  have hd : s.address.toNat < st3.DC.toNat := by omega
                  have hi : 1 + (st3.IC - IC_INITIAL_VALUE).toNat + s.address.toNat =
                      ((st1.IC - IC_INITIAL_VALUE).toNat + s.address.toNat) + 1 := by
                    rw [hICeq]; omega
                  rw [hobeq, hi, List.get?_cons_succ, List.get?_eq_getElem?,
                    List.getElem?_append_right (by simp), List.length_map, List.length_range,
                    Nat.add_sub_cancel_left, List.getElem?_map,
                    List.getElem?_range hd]
                  simp only [Option.map_some']
                  have ha : st1.IC + ((s.address.toNat : Nat) : Int) = s.address + st3.IC := by
                    rw [hICeq]; omega
                  rw [ha]
                rw [← hget, ← hout]
                rfl
        · rw [if_neg he3] at h2
          simp only [Option.some.injEq, Prod.mk.injEq] at h2
          exact absurd h2.1 (by decide)
    · rw [if_neg he0] at h1
      simp only [Option.some.injEq, Prod.mk.injEq] at h1
      exact absurd h1.1 (by decide)

set_option maxRecDepth 100000 in
/-- Witness of C38: for `MAIN: mov r1, r2` / `prn #5` / `X: .data 7` /
`stop` both passes succeed and the second pass ends at the IC the first pass
ended at. -/
theorem second_pass_words_match_first_pass_witness :
    ∃ st1 st2 out,
      first_pass "MAIN: mov r1, r2\nprn #5\nX: .data 7\nstop\n" initial_state = some (true, st1)
      ∧ second_pass "MAIN: mov r1, r2\nprn #5\nX: .data 7\nstop\n" st1 = some (true, st2, out)
      ∧ st2.IC = st1.IC := by
  have ha : (assemble "MAIN: mov r1, r2\nprn #5\nX: .data 7\nstop\n").map (fun r => r.1)
      = some true := by decide
  unfold assemble at ha
  cases hf : first_pass "MAIN: mov r1, r2\nprn #5\nX: .data 7\nstop\n" initial_state with
  | none => rw [hf] at ha; cases ha
  | some r1 =>
    obtain ⟨b1, st1⟩ := r1
    rw [hf] at ha
    cases b1
    · simp at ha
    · simp only [] at ha
      cases hs : second_pass "MAIN: mov r1, r2\nprn #5\nX: .data 7\nstop\n" st1 with
      | none => rw [hs] at ha; cases ha
      | some r2 =>
        obtain ⟨b2, st2, out⟩ := r2
        rw [hs] at ha
        simp only [Option.map_some', Option.some.injEq] at ha
        subst ha
        exact ⟨st1, st2, out, rfl, hs,
          (second_pass_words_match_first_pass _ st1 st2 out hf hs).2.2.1⟩

/-- C39: after any sequence of lines of the first pass DC lies in [0, 256];
from such a state every directive returns without a store outside the data
image (a store is defined exactly for an index in [0, 255]) and leaves DC to
its caller, a positive result fitting behind DC; a line is processed
whenever the parser is defined on it, DC stays in [0, 256] and does not
decrease, and a rejected line leaves DC unchanged. -/
theorem data_counter_bounds (lines : List InputLine) (st0 st_k : AsmState)
    (hrun : first_pass_loop lines (reset_memory_images (reset_counters st0)) = some st_k) :
    (0 ≤ st_k.DC ∧ st_k.DC ≤ 256)
    ∧ (∀ (index : Int) (word : Nat),
        (store_data st_k index word).isSome = true ↔ (0 ≤ index ∧ index ≤ 255))
    ∧ (∀ parsed, ∃ r st1, handle_directive_first_pass parsed st_k = some (r, st1)
        ∧ st1.DC = st_k.DC ∧ (0 < r → st_k.DC + r ≤ 256))
    ∧ (∀ line, (process_line_first_pass line st_k = none ↔ parse_line line = none)
        ∧ ∀ b st1, process_line_first_pass line st_k = some (b, st1) →
            0 ≤ st1.DC ∧ st1.DC ≤ 256 ∧ st_k.DC ≤ st1.DC ∧ (b = false → st1.DC = st_k.DC)) := by
  have hb := first_pass_loop_DC lines _ st_k hrun (le_refl 0)
    (show (0 : Int) ≤ 256 by decide)
  refine ⟨hb, ?_, ?_, ?_⟩
  · intro index word
    unfold store_data store_word
    simp only [MEMORY_SIZE]
    by_cases hi : 0 ≤ index ∧ index < ((256 : Nat) : Int)
    · rw [if_pos hi]
      simp only [Option.isSome_some, true_iff]
      omega
    · rw [if_neg hi]
      simp only [Option.isSome_none, Bool.false_eq_true, false_iff]
      omega
  · intro parsed
    exact handle_directive_first_pass_total parsed st_k hb.1 hb.2
  · intro line
    exact process_line_first_pass_DC line st_k hb.1 hb.2

/-- Witness of C39: after `.data 1, 2` and `.string "ab"` DC is 5. -/
theorem data_counter_bounds_witness :
    ∃ st_k, first_pass_loop [InputLine.text ".data 1, 2\n", InputLine.text ".string \"ab\"\n"]
          (reset_memory_images (reset_counters initial_state)) = some st_k
      ∧ st_k.DC = 5 ∧ 0 ≤ st_k.DC ∧ st_k.DC ≤ 256 := by
  have hd : (first_pass_loop
      [InputLine.text ".data 1, 2\n", InputLine.text ".string \"ab\"\n"]
      (reset_memory_images (reset_counters initial_state))).map (fun s => s.DC) = some 5 := by
    decide
  cases h : first_pass_loop [InputLine.text ".data 1, 2\n", InputLine.text ".string \"ab\"\n"]
      (reset_memory_images (reset_counters initial_state)) with
  | none => rw [h] at hd; cases hd
  | some st_k =>
    rw [h] at hd
    simp only [Option.map_some', Option.some.injEq] at hd
    exact ⟨st_k, rfl, hd, (data_counter_bounds _ initial_state st_k h).1⟩

set_option maxRecDepth 100000 in
/-- C40 (evaluation of the code): after eight `.string` lines that bring DC to
227, a `.string` of 28 characters (29 words, DC + 29 = 256) is rejected with
"Data memory overflow", while one of 27 characters is accepted (DC = 255); a
`.data 1, 2` at DC = 254 is accepted and brings DC to exactly 256, and so
does a `.mat [1][1] 7` at DC = 255. -/
theorem string_capacity_off_by_one :
    (first_pass data_fill_227 initial_state).map (fun r => (r.1, r.2.DC))
      = some (true, 227)
    ∧ (first_pass (data_fill_227 ++ ".string \"abcdefghijklmnopqrstuvwxyzab\"\n")
          initial_state).map (fun r => (r.1, r.2.DC, r.2.diagnostics))
      = some (false, 227, ["Data memory overflow"])
    ∧ (first_pass (data_fill_227 ++ ".string \"abcdefghijklmnopqrstuvwxyza\"\n")
          initial_state).map (fun r => (r.1, r.2.DC, r.2.diagnostics))
      = some (true, 255, [])
    ∧ (first_pass (data_fill_227 ++ ".string \"abcdefghijklmnopqrstuvwxyz\"\n"
          ++ ".data 1, 2\n") initial_state).map (fun r => (r.1, r.2.DC, r.2.diagnostics))
      = some (true, 256, [])
    ∧ (first_pass (data_fill_227 ++ ".string \"abcdefghijklmnopqrstuvwxyza\"\n"
          ++ ".mat [1][1] 7\n") initial_state).map (fun r => (r.1, r.2.DC, r.2.diagnostics))
      = some (true, 256, []) := by
  decide

end Assembler
